import Mathlib

/-!
Verification development for the QCurl libcurl-consistency harness
(observation correlation and artifact comparison engine).

The definitions below are a shallow embedding of the Python modules
tests/libcurl_consistency/pytest_support/observed.py,
tests/libcurl_consistency/pytest_support/compare.py,
tests/libcurl_consistency/test_p1_redirect_and_login_flow.py and
tests/libcurl_consistency/test_ext_suite.py, together with the parts of
the CPython 3.11 standard library (urllib.parse) that those modules call.

Modelling conventions:
  - Python strings are Lean Strings (sequences of unicode scalar values);
    percent-encoding goes through an explicit UTF-8 byte codec, as in
    CPython.
  - Python functions that can raise are embedded in Except String.
  - File reads are cut at the I/O boundary: a log file is modelled as the
    list of its lines.
-/

namespace QCurl

/-! Basic Python string helpers. -/

/-- Set of characters removed by str.strip with no argument.
Mirrors the CPython notion of unicode whitespace. -/
def pyIsSpace (c : Char) : Bool :=
  c.toNat ∈ ([9, 10, 11, 12, 13, 28, 29, 30, 31, 32, 133, 160, 0x1680,
    0x2000, 0x2001, 0x2002, 0x2003, 0x2004, 0x2005, 0x2006, 0x2007, 0x2008,
    0x2009, 0x200a, 0x2028, 0x2029, 0x202f, 0x205f, 0x3000] : List Nat)

/-- Embeds str.strip (both ends, whitespace). -/
def pyStrip (s : String) : String :=
  ⟨(s.data.dropWhile pyIsSpace).reverse.dropWhile pyIsSpace |>.reverse⟩

/-- Embeds str.split(sep) for a one-character separator and no maxsplit. -/
def pySplitChar (sep : Char) : List Char → List (List Char)
  | [] => [[]]
  | c :: r =>
    if c = sep then [] :: pySplitChar sep r
    else match pySplitChar sep r with
      | [] => [[c]]
      | f :: rest => (c :: f) :: rest

/-- Embeds str.split(sep, 1): split at the first occurrence only. -/
def pySplitOnce (sep : Char) : List Char → List (List Char)
  | [] => [[]]
  | c :: r =>
    if c = sep then [[], r]
    else match pySplitOnce sep r with
      | [] => [[c]]
      | f :: rest => (c :: f) :: rest

/-- Embeds str.split(sep, 2): at most two splits. -/
def pySplitTwo (sep : Char) (l : List Char) : List (List Char) :=
  match pySplitOnce sep l with
  | [f, r1] =>
    match pySplitOnce sep r1 with
    | [g, r2] => [f, g, r2]
    | other => f :: other
  | other => other

/-- Embeds str.replace for single characters. -/
def pyReplaceChar (a b : Char) (l : List Char) : List Char :=
  l.map (fun c => if c = a then b else c)

/-- Embeds str.upper for the ASCII method names it is applied to. -/
def pyUpper (s : String) : String :=
  ⟨s.data.map Char.toUpper⟩

/-- Prefix test on character lists (str.startswith). -/
def strStartsList : List Char → List Char → Bool
  | [], _ => true
  | _ :: _, [] => false
  | a :: as, b :: bs => a = b && strStartsList as bs

/-- Substring test (the in-operator on strings). -/
def listContainsSub (n : List Char) : List Char → Bool
  | [] => n.isEmpty
  | c :: t => strStartsList n (c :: t) || listContainsSub n t

/-- Characters removed everywhere by urlsplit (tab, CR, LF). -/
def isUnsafeUrlByte (c : Char) : Bool :=
  c = '\t' || c = '\r' || c = '\n'

/-- Embeds int(s) for a Python str argument: optional surrounding
whitespace, optional sign, then ASCII digits with optional single
underscores between digits. -/
def pyIntOfString (s : String) : Except String Int :=
  let t := (pyStrip s).data
  let (sign, digits) :=
    match t with
    | [] => ((1 : Int), ([] : List Char))
    | c :: r =>
      if c = '-' then ((-1 : Int), r)
      else if c = '+' then ((1 : Int), r)
      else ((1 : Int), c :: r)
  let rec go (acc : Nat) (prevDigit : Bool) : List Char → Except String Nat
    | [] => if prevDigit then .ok acc else .error "invalid literal for int"
    | c :: r =>
      if c.isDigit then go (acc * 10 + (c.toNat - 48)) true r
      else if c = '_' && prevDigit then go acc false r
      else .error "invalid literal for int"
  match go 0 false digits with
  | .ok n => .ok (sign * n)
  | .error e => .error e

/-! UTF-8 codec, as used by str.encode and bytes.decode in CPython. -/

/-- UTF-8 encoding of one unicode scalar value. -/
def utf8EncodeChar (c : Char) : List Nat :=
  let n := c.toNat
  if n < 0x80 then [n]
  else if n < 0x800 then [0xC0 + n / 64, 0x80 + n % 64]
  else if n < 0x10000 then
    [0xE0 + n / 4096, 0x80 + (n / 64) % 64, 0x80 + n % 64]
  else
    [0xF0 + n / 262144, 0x80 + (n / 4096) % 64, 0x80 + (n / 64) % 64,
      0x80 + n % 64]

/-- UTF-8 encoding of a string. -/
def utf8Encode (l : List Char) : List Nat :=
  l.flatMap utf8EncodeChar

/-- Continuation byte test. -/
def isCont (b : Nat) : Bool := 0x80 ≤ b && b ≤ 0xBF

/-- The U+FFFD replacement character. -/
def replChar : Char := Char.ofNat 0xFFFD

/-- State of the incremental UTF-8 decoder: accumulated code point bits,
number of continuation bytes still expected, and the valid range for the
next byte (tight for the byte right after the lead, as in a standard
UTF-8 acceptor that rejects overlong and surrogate encodings). -/
structure Utf8State where
  acc : Nat
  need : Nat
  lo : Nat
  hi : Nat
deriving Repr

/-- Handles one byte in lead position: characters to emit and the decoder
state it opens. Invalid leads produce one U+FFFD. -/
def utf8Lead (b : Nat) : List Char × Option Utf8State :=
  if b < 0x80 then ([Char.ofNat b], none)
  else if 0xC2 ≤ b && b ≤ 0xDF then ([], some ⟨b - 0xC0, 1, 0x80, 0xBF⟩)
  else if b = 0xE0 then ([], some ⟨0, 2, 0xA0, 0xBF⟩)
  else if 0xE1 ≤ b && b ≤ 0xEC then ([], some ⟨b - 0xE0, 2, 0x80, 0xBF⟩)
  else if b = 0xED then ([], some ⟨13, 2, 0x80, 0x9F⟩)
  else if 0xEE ≤ b && b ≤ 0xEF then ([], some ⟨b - 0xE0, 2, 0x80, 0xBF⟩)
  else if b = 0xF0 then ([], some ⟨0, 3, 0x90, 0xBF⟩)
  else if 0xF1 ≤ b && b ≤ 0xF3 then ([], some ⟨b - 0xF0, 3, 0x80, 0xBF⟩)
  else if b = 0xF4 then ([], some ⟨4, 3, 0x80, 0x8F⟩)
  else ([replChar], none)

/-- Incremental UTF-8 decoding loop with errors equal to replace: each
maximal invalid subpart becomes one U+FFFD and decoding resumes at the
offending byte, as bytes.decode does with errors set to replace. -/
def utf8Loop : Option Utf8State → List Nat → List Char
  | none, [] => []
  | some _, [] => [replChar]
  | none, b :: r =>
    match utf8Lead b with
    | (cs, st) => cs ++ utf8Loop st r
  | some st, b :: r =>
    if st.lo ≤ b && b ≤ st.hi then
      if st.need = 1 then
        Char.ofNat (st.acc * 64 + (b - 0x80)) :: utf8Loop none r
      else utf8Loop (some ⟨st.acc * 64 + (b - 0x80), st.need - 1, 0x80, 0xBF⟩) r
    else
      match utf8Lead b with
      | (cs, st2) => replChar :: (cs ++ utf8Loop st2 r)

/-- UTF-8 decoding with errors equal to replace. -/
def utf8DecodeReplace (bs : List Nat) : List Char := utf8Loop none bs

/-! Percent-encoding (urllib.parse.quote family). -/

/-- Uppercase hex digit of a value below 16, as used by the %02X format. -/
def hexDigit (n : Nat) : Char :=
  if n < 10 then Char.ofNat (48 + n) else Char.ofNat (55 + n)

/-- Value of a hex digit character, if it is one (both cases accepted,
mirroring the _hextobyte table). -/
def hexVal? (c : Char) : Option Nat :=
  if '0' ≤ c && c ≤ '9' then some (c.toNat - 48)
  else if 'a' ≤ c && c ≤ 'f' then some (c.toNat - 87)
  else if 'A' ≤ c && c ≤ 'F' then some (c.toNat - 55)
  else none

/-- The _ALWAYS_SAFE byte set of urllib.parse: ASCII letters, digits
and the characters underscore, dot, dash, tilde. -/
def alwaysSafeByte (b : Nat) : Bool :=
  (0x41 ≤ b && b ≤ 0x5A) || (0x61 ≤ b && b ≤ 0x7A) ||
    (0x30 ≤ b && b ≤ 0x39) || b = 0x5F || b = 0x2E || b = 0x2D || b = 0x7E

/-- Embeds quote_from_bytes: every byte outside the safe set becomes a
percent escape with uppercase hex. -/
def quote_from_bytes (safe : Nat → Bool) (bs : List Nat) : List Char :=
  bs.flatMap (fun b =>
    if alwaysSafeByte b || safe b then [Char.ofNat b]
    else ['%', hexDigit (b / 16), hexDigit (b % 16)])

/-- Embeds quote(s, safe) on str input: UTF-8 encode, then
quote_from_bytes. -/
def pyQuote (safe : Nat → Bool) (l : List Char) : List Char :=
  quote_from_bytes safe (utf8Encode l)

/-- Embeds quote_plus(s) with the default empty safe set: if the string
has no space it is plain quote; otherwise space is kept safe and then
replaced by the plus sign. -/
def quote_plus (l : List Char) : List Char :=
  if ' ' ∈ l then
    pyReplaceChar ' ' '+' (pyQuote (fun b => b = 0x20) l)
  else
    pyQuote (fun _ => false) l

/-! Percent-decoding (urllib.parse.unquote). -/

/-- Tokenized form of a string for unquote: ASCII characters and percent
escapes join the byte stream that is UTF-8 decoded; non-ASCII characters
pass through directly. -/
inductive UnqTok where
  | byte (b : Nat)
  | raw (c : Char)
deriving DecidableEq, Repr

/-- Tokenizer for unquote: a percent sign followed by two hex digits is a
byte; otherwise the percent sign itself is an ASCII byte, as in
unquote_to_bytes. -/
def unqTokenize : List Char → List UnqTok
  | [] => []
  | '%' :: a :: b :: r =>
    match hexVal? a, hexVal? b with
    | some ha, some hb => .byte (ha * 16 + hb) :: unqTokenize r
    | _, _ => .byte 0x25 :: unqTokenize (a :: b :: r)
  | '%' :: r => .byte 0x25 :: unqTokenize r
  | c :: r =>
    (if c.toNat < 0x80 then UnqTok.byte c.toNat else UnqTok.raw c)
      :: unqTokenize r

/-- Emits the decoded characters: maximal byte runs are UTF-8 decoded with
replacement, non-ASCII characters pass through. The pending accumulator
holds the current byte run in reverse. -/
def unqEmit (pending : List Nat) : List UnqTok → List Char
  | [] => utf8DecodeReplace pending.reverse
  | .byte b :: r => unqEmit (b :: pending) r
  | .raw c :: r => utf8DecodeReplace pending.reverse ++ c :: unqEmit [] r

/-- Embeds unquote(s) with utf-8 and errors replace. The early return for
strings without a percent sign gives the same result as the general
pipeline and is kept as in the source. -/
def pyUnquote (l : List Char) : List Char :=
  if '%' ∈ l then unqEmit [] (unqTokenize l) else l

/-! urllib.parse.urlsplit and urlunsplit (CPython 3.11). -/

/-- Result of urlsplit. -/
structure SplitResult where
  scheme : String
  netloc : String
  path : String
  query : String
  fragment : String
deriving DecidableEq, Repr

/-- Characters valid in scheme names (the scheme_chars constant). -/
def isSchemeChar (c : Char) : Bool :=
  ('a' ≤ c && c ≤ 'z') || ('A' ≤ c && c ≤ 'Z') || ('0' ≤ c && c ≤ '9') ||
    c = '+' || c = '-' || c = '.'

/-- ASCII letter test, mirroring isascii() and isalpha() combined. -/
def isAsciiAlpha (c : Char) : Bool :=
  ('a' ≤ c && c ≤ 'z') || ('A' ≤ c && c ≤ 'Z')

/-- ASCII lowercase of one character, as str.lower on scheme characters. -/
def lowerAscii (c : Char) : Char :=
  if 'A' ≤ c && c ≤ 'Z' then Char.ofNat (c.toNat + 32) else c

/-- Scheme detection of urlsplit: a colon at a positive position whose
prefix starts with an ASCII letter and consists of scheme characters. -/
def detectScheme (l : List Char) : Option (List Char × List Char) :=
  match pySplitOnce ':' l with
  | [before, after] =>
    match before with
    | [] => none
    | c :: _ =>
      if isAsciiAlpha c && before.all isSchemeChar then some (before, after)
      else none
  | _ => none

/-- Embeds _splitnetloc: the netloc runs to the earliest of slash,
question mark or hash. -/
def splitnetloc : List Char → List Char × List Char
  | [] => ([], [])
  | c :: r =>
    if c = '/' || c = '?' || c = '#' then ([], c :: r)
    else
      match splitnetloc r with
      | (a, b) => (c :: a, b)

/-- Embeds _checknetloc. The NFKC re-normalization check of CPython can
only fire for non-ASCII netlocs; ASCII netlocs always pass and non-ASCII
netlocs that are NFKC-stable also pass. The NFKC-unstable case is not
modelled (it cannot arise in any statement of this development, which
only instantiates ASCII netlocs). -/
def checknetloc (_netloc : List Char) : Except String Unit := .ok ()

/-- Embeds urlsplit(url) with default arguments: remove tab, CR and LF
everywhere, detect the scheme, split off the netloc after a leading
double slash (validating bracket balance), then the fragment, then the
query. -/
def urlsplit (s : String) : Except String SplitResult := do
  let l := s.data.filter (fun c => !isUnsafeUrlByte c)
  let (scheme, l) :=
    match detectScheme l with
    | some (sc, rest) => (sc.map lowerAscii, rest)
    | none => ([], l)
  let (netloc, l) ←
    match l with
    | '/' :: '/' :: rest =>
      let (n, r) := splitnetloc rest
      if ('[' ∈ n && ']' ∉ n) || (']' ∈ n && '[' ∉ n) then
        .error "Invalid IPv6 URL"
      else
        pure (n, r)
    | _ => pure (([] : List Char), l)
  let (l, fragment) :=
    match pySplitOnce '#' l with
    | [a, f] => (a, f)
    | _ => (l, [])
  let (l, query) :=
    match pySplitOnce '?' l with
    | [a, q] => (a, q)
    | _ => (l, [])
  let _ ← checknetloc netloc
  return ⟨⟨scheme⟩, ⟨netloc⟩, ⟨l⟩, ⟨query⟩, ⟨fragment⟩⟩

/-- The uses_netloc scheme list of urllib.parse. -/
def uses_netloc : List String :=
  ["", "ftp", "http", "gopher", "nntp", "telnet", "imap", "wais", "file",
   "mms", "https", "shttp", "snews", "prospero", "rtsp", "rtspu", "rsync",
   "svn", "svn+ssh", "sftp", "nfs", "git", "git+ssh", "ws", "wss"]

/-- Embeds urlunsplit (CPython 3.11): the double slash is re-added only
for a non-empty netloc, or for a scheme known to use one. -/
def urlunsplit (scheme netloc url query fragment : String) : String :=
  let url :=
    if netloc ≠ "" || (scheme ≠ "" && (uses_netloc.contains scheme) &&
        !(strStartsList "//".data url.data)) then
      let url :=
        if url ≠ "" && !(strStartsList "/".data url.data) then "/" ++ url
        else url
      "//" ++ netloc ++ url
    else url
  let url := if scheme ≠ "" then scheme ++ ":" ++ url else url
  let url := if query ≠ "" then url ++ "?" ++ query else url
  if fragment ≠ "" then url ++ "#" ++ fragment else url

/-! urllib.parse query-string handling. -/

/-- Embeds unquote_plus style preprocessing plus unquote, as parse_qsl
performs on each name and value: replace plus by space, then unquote. -/
def unquoteField (l : List Char) : String :=
  ⟨pyUnquote (pyReplaceChar '+' ' ' l)⟩

/-- Embeds parse_qsl(qs, keep_blank_values) with default separator. -/
def parse_qsl (keepBlank : Bool) (qs : String) : List (String × String) :=
  let args := if qs = "" then [] else pySplitChar '&' qs.data
  args.flatMap (fun nv =>
    if nv = [] then []
    else
      match pySplitOnce '=' nv with
      | [n, v] =>
        if v.length ≠ 0 || keepBlank then [(unquoteField n, unquoteField v)]
        else []
      | _ => if keepBlank then [(unquoteField nv, "")] else [])

/-- One step of the parse_qs grouping dict: append the value to an
existing key or add a new key at the end (insertion order). -/
def updAssoc : List (String × List String) → String × String →
    List (String × List String)
  | [], kv => [(kv.1, [kv.2])]
  | (k, vs) :: r, kv =>
    if k = kv.1 then (k, vs ++ [kv.2]) :: r else (k, vs) :: updAssoc r kv

/-- Embeds parse_qs(qs, keep_blank_values): group parse_qsl pairs by name
in first-seen order. -/
def parse_qs (keepBlank : Bool) (qs : String) : List (String × List String) :=
  (parse_qsl keepBlank qs).foldl updAssoc []

/-- Embeds dict.pop(key, None) on the parse_qs result. -/
def popKey (k : String) (m : List (String × List String)) :
    List (String × List String) :=
  m.filter (fun kv => kv.1 ≠ k)

/-- Embeds dict get with a one-element default list, as in
q.get(key, [""])[0] for the correlation id lookup. -/
def getFirstValue (k : String) (m : List (String × List String)) : String :=
  match m.find? (fun kv => kv.1 = k) with
  | some (_, v :: _) => v
  | some (_, []) => ""
  | none => ""

/-- Embeds urlencode(q, doseq=True) for a dict of string lists: each
value becomes one quoted key=value field, joined by ampersands. -/
def urlencodeDoseq (m : List (String × List String)) : String :=
  ⟨List.intercalate ['&']
    (m.flatMap (fun kv =>
      kv.2.map (fun v => quote_plus kv.1.data ++ '=' :: quote_plus v.data)))⟩

/-- Embeds _strip_query_id of pytest_support/observed.py (the identical
helper in test_ext_suite.py is the same function): parse the URL, drop
the id query parameter, re-encode, and keep only path and query. -/
def strip_query_id (url : String) : Except String String := do
  let parts ← urlsplit url
  let q := parse_qs true parts.query
  let q := popKey "id" q
  let query := urlencodeDoseq q
  return urlunsplit "" "" parts.path query ""

/-- A Decidable instance for the String order that evaluates by
structural recursion on the character lists (the builtin instance is
compiled code that the kernel cannot reduce). -/
instance (priority := 2000) charwiseStringLE (a b : String) :
    Decidable (a ≤ b) :=
  decidable_of_iff (a.data ≤ b.data) (by
    show a.data ≤ b.data ↔ a ≤ b
    rw [String.le_iff_toList_le]
    exact Iff.rfl)

/-! Embedding of pytest_support/observed.py. -/

/-- Embeds _normalize_http_proto. -/
def normalize_http_proto (proto : String) : String :=
  let p := pyStrip proto
  if strStartsList "HTTP/2".data p.data then "h2" else "http/1.1"

/-- Embeds _normalize_alpn_proto (the lowercasing is ASCII, which covers
every ALPN token). -/
def normalize_alpn_proto (alpn : String) : String :=
  let p : String := ⟨(pyStrip alpn).data.map lowerAscii⟩
  if strStartsList "h3".data p.data then "h3"
  else if p = "h2" then "h2"
  else "http/1.1"

/-- One parsed httpd access-log entry (the dict built by
parse_httpd_access_log). -/
structure HttpdEntry where
  ts : String
  proto : String
  method : String
  url : String
  status : String
  range : String
  content_length : String
  id : String
deriving DecidableEq, Repr

/-- Embeds parse_httpd_access_log on the list of lines of the log file:
blank lines and lines without exactly seven pipe-separated fields are
skipped; each field is stripped; the correlation id is the first value
of the id query parameter of the logged URL. -/
def parse_httpd_access_log : List String → Except String (List HttpdEntry)
  | [] => .ok []
  | raw :: rest =>
    if pyStrip raw = "" then parse_httpd_access_log rest
    else
      match (pySplitChar '|' raw.data).map (fun p => pyStrip ⟨p⟩) with
      | [ts, proto, method, url, status, range_v, cl_v] => do
        let u ← urlsplit url
        let q := parse_qs false u.query
        let req_id := getFirstValue "id" q
        let tl ← parse_httpd_access_log rest
        return ⟨ts, proto, method, url, status, range_v, cl_v, req_id⟩ :: tl
      | _ => parse_httpd_access_log rest

/-- The normalized observation record HttpdObserved. -/
structure HttpdObserved where
  method : String
  url : String
  http_version : String
  status : Int
  headers : List (String × String)
deriving DecidableEq, Repr

/-- Builds the headers dict of one observation: the range header when it
is neither empty nor a dash, then content-length likewise when
requested. -/
def observedHeaders (includeCl : Bool) (range_v cl_v : String) :
    List (String × String) :=
  let rv := pyStrip range_v
  let h : List (String × String) := if rv ≠ "" && rv ≠ "-" then [("range", rv)] else []
  if includeCl then
    let cv := pyStrip cl_v
    if cv ≠ "" && cv ≠ "-" then h ++ [("content-length", cv)] else h
  else h

/-- Builds one HttpdObserved from an httpd log entry, as the loop body of
httpd_observed_list_for_id does. -/
def buildHttpdObserved (includeCl : Bool) (e : HttpdEntry) :
    Except String HttpdObserved := do
  let u ← strip_query_id e.url
  let st ← pyIntOfString (if e.status = "" then "0" else e.status)
  return ⟨pyUpper e.method, u, normalize_http_proto e.proto, st,
    observedHeaders includeCl e.range e.content_length⟩

/-- Stable sort by observation url, embedding sorted(key=lambda x: x.url). -/
def sortByUrl (l : List HttpdObserved) : List HttpdObserved :=
  List.insertionSort (fun a b => a.url ≤ b.url) l

/-- Embeds httpd_observed_list_for_id: filter by correlation id, fail on
no match, fail on a count mismatch when expected_count is positive, build
observations, and return them sorted by stripped url. -/
def httpd_observed_list_for_id (lines : List String) (req_id : String)
    (expected_count : Int) (includeCl : Bool) :
    Except String (List HttpdObserved) := do
  let es ← parse_httpd_access_log lines
  let entries := es.filter (fun e => e.id = req_id)
  if entries.isEmpty then
    .error "httpd access_log: no record for id"
  else if expected_count > 0 && (entries.length : Int) ≠ expected_count then
    .error "httpd access_log: record count mismatch"
  else do
    let observed ← entries.mapM (buildHttpdObserved includeCl)
    return sortByUrl observed

/-- The matching observations in file order (before the final sort of
httpd_observed_list_for_id); used to state order properties. -/
def httpdObservedFileOrder (lines : List String) (req_id : String)
    (includeCl : Bool) : Except String (List HttpdObserved) := do
  let es ← parse_httpd_access_log lines
  (es.filter (fun e => e.id = req_id)).mapM (buildHttpdObserved includeCl)

/-- One parsed nghttpx access-log entry (the dict built by
parse_nghttpx_access_log). -/
structure NghttpxEntry where
  ts : String
  alpn : String
  method : String
  path : String
  status : String
  range : String
  content_length : String
  id : String
deriving DecidableEq, Repr

/-- Embeds parse_nghttpx_access_log on the list of lines of the log. -/
def parse_nghttpx_access_log : List String → Except String (List NghttpxEntry)
  | [] => .ok []
  | raw :: rest =>
    if pyStrip raw = "" then parse_nghttpx_access_log rest
    else
      match (pySplitChar '|' raw.data).map (fun p => pyStrip ⟨p⟩) with
      | [ts, alpn, method, path, status, range_v, cl_v] => do
        let u ← urlsplit path
        let q := parse_qs false u.query
        let req_id := getFirstValue "id" q
        let tl ← parse_nghttpx_access_log rest
        return ⟨ts, alpn, method, path, status, range_v, cl_v, req_id⟩ :: tl
      | _ => parse_nghttpx_access_log rest

/-- Builds one HttpdObserved from an nghttpx log entry. -/
def buildNghttpxObserved (includeCl : Bool) (e : NghttpxEntry) :
    Except String HttpdObserved := do
  let u ← strip_query_id e.path
  let st ← pyIntOfString (if e.status = "" then "0" else e.status)
  return ⟨pyUpper e.method, u, normalize_alpn_proto e.alpn, st,
    observedHeaders includeCl e.range e.content_length⟩

/-- Embeds nghttpx_observed_list_for_id. -/
def nghttpx_observed_list_for_id (lines : List String) (req_id : String)
    (expected_count : Int) (includeCl : Bool) :
    Except String (List HttpdObserved) := do
  let es ← parse_nghttpx_access_log lines
  let entries := es.filter (fun e => e.id = req_id)
  if entries.isEmpty then
    .error "nghttpx access_log: no record for id"
  else if expected_count > 0 && (entries.length : Int) ≠ expected_count then
    .error "nghttpx access_log: record count mismatch"
  else do
    let observed ← entries.mapM (buildNghttpxObserved includeCl)
    return sortByUrl observed

/-! Embedding of the redirect chain resolver of
test_p1_redirect_and_login_flow.py. -/

/-- The sort key of _order_redir_chain: the integer after the second
slash of a /redir/ path, and -1 for anything else or unparsable. -/
def redirKey (o : HttpdObserved) : Int :=
  if !(strStartsList "/redir/".data o.url.data) then -1
  else
    match pySplitTwo '/' o.url.data with
    | [_, _, third] =>
      match pyIntOfString ⟨third⟩ with
      | .ok n => n
      | .error _ => -1
    | _ => -1

/-- Embeds _order_redir_chain: a stable sort on the key with reverse set,
which Python realizes as a stable sort under the flipped comparison. -/
def order_redir_chain (l : List HttpdObserved) : List HttpdObserved :=
  List.insertionSort (fun a b => redirKey b ≤ redirKey a) l

/-! Embedding of the connection summarizer of test_ext_suite.py. -/

/-- Lookup in the port-to-id mapping dict. -/
def lookupPort (m : List (Int × Nat)) (p : Int) : Option Nat :=
  (m.find? (fun kv => kv.1 = p)).map (fun kv => kv.2)

/-- The loop of _conn_seq_from_ports with its running mapping and next
fresh id. -/
def connSeqLoop : List Int → List (Int × Nat) → Nat → List Nat
  | [], _, _ => []
  | p :: ps, m, nid =>
    match lookupPort m p with
    | some v => v :: connSeqLoop ps m nid
    | none => nid :: connSeqLoop ps ((p, nid) :: m) (nid + 1)

/-- Embeds _conn_seq_from_ports. -/
def conn_seq_from_ports (ports : List Int) : List Nat :=
  connSeqLoop ports [] 1

/-- Embeds the unique_connections computation of _connection_observed:
max(seq) if seq else 0. -/
def uniqueFromSeq : List Nat → Nat
  | [] => 0
  | h :: t => t.foldl Nat.max h

/-- Distinct ports in first-seen order; used to state what the
first-seen-order id assignment means. -/
def firstSeen (ports : List Int) : List Int :=
  ports.foldl (fun acc p => if p ∈ acc then acc else acc ++ [p]) []

/-! JSON-like Python values, for the artifact documents that compare.py
reads. Floats do not occur in artifacts and are not modelled. Objects
are association lists in insertion order; lookup takes the first match
(artifact objects, produced by json.loads, have unique keys). -/

mutual

inductive JVal where
  | null
  | bool (b : Bool)
  | int (n : Int)
  | str (s : String)
  | arr (xs : JArr)
  | obj (xs : JObj)
deriving DecidableEq, Repr

inductive JArr where
  | nil
  | cons (hd : JVal) (tl : JArr)
deriving DecidableEq, Repr

inductive JObj where
  | nil
  | cons (k : String) (v : JVal) (tl : JObj)
deriving DecidableEq, Repr

end

/-- Raw key lookup in an object. -/
def JObj.lookup : JObj → String → Option JVal
  | .nil, _ => none
  | .cons k v tl, key => if k = key then some v else JObj.lookup tl key

/-- Embeds dict.get(key): a JSON null value is the Python None object, so
a null-valued key and a missing key both give None. -/
def pyGet (o : JObj) (key : String) : Option JVal :=
  match o.lookup key with
  | some .null => none
  | x => x

/-- Embeds the key-in-dict test (presence, even of a null value). -/
def JObj.hasKey : JObj → String → Bool
  | .nil, _ => false
  | .cons k _ tl, key => k = key || JObj.hasKey tl key

/-- Python truthiness of a value. -/
def truthy : JVal → Bool
  | .null => false
  | .bool b => b
  | .int n => n ≠ 0
  | .str s => s ≠ ""
  | .arr .nil => false
  | .arr _ => true
  | .obj .nil => false
  | .obj _ => true

/-- Truthiness of a dict.get result (None is falsy). -/
def truthyO : Option JVal → Bool
  | none => false
  | some v => truthy v

/-- Keeps the first entry for each key. -/
def dedupObj (seen : List String) : JObj → JObj
  | .nil => .nil
  | .cons k v tl =>
    if k ∈ seen then dedupObj seen tl else .cons k v (dedupObj (k :: seen) tl)

/-- Ordered insertion by key. -/
def insObj (k : String) (v : JVal) : JObj → JObj
  | .nil => .cons k v .nil
  | .cons k2 v2 tl =>
    if k ≤ k2 then .cons k v (.cons k2 v2 tl) else .cons k2 v2 (insObj k v tl)

/-- Insertion sort of object entries by key. -/
def sortObj : JObj → JObj
  | .nil => .nil
  | .cons k v tl => insObj k v (sortObj tl)

mutual

/-- Normal form for Python equality: booleans become the equal integers,
object entries are deduplicated (first occurrence wins) and sorted by
key, so that structural equality of normal forms is Python equality. -/
def normJ : JVal → JVal
  | .null => .null
  | .bool b => .int (if b then 1 else 0)
  | .int n => .int n
  | .str s => .str s
  | .arr xs => .arr (normArr xs)
  | .obj xs => .obj (sortObj (dedupObj [] (normObj xs)))

def normArr : JArr → JArr
  | .nil => .nil
  | .cons v tl => .cons (normJ v) (normArr tl)

def normObj : JObj → JObj
  | .nil => .nil
  | .cons k v tl => .cons k (normJ v) (normObj tl)

end

/-- Embeds Python equality of artifact values. -/
def pyEq (a b : JVal) : Bool := normJ a = normJ b

/-- Embeds Python equality of two dict.get results. -/
def pyEqO : Option JVal → Option JVal → Bool
  | none, none => true
  | some a, some b => pyEq a b
  | _, _ => false

/-! Python str() and repr() formatting, as used by the f-strings that
build diff messages. -/

/-- Lowercase hex digit, as in the backslash-x escapes of repr. -/
def hexDigitLower (n : Nat) : Char :=
  if n < 10 then Char.ofNat (48 + n) else Char.ofNat (87 + n)

/-- Escapes one character of a repr string literal given the chosen
quote character. -/
def pyReprEscape (quote : Char) (c : Char) : List Char :=
  if c = '\\' then ['\\', '\\']
  else if c = quote then ['\\', quote]
  else if c = '\n' then ['\\', 'n']
  else if c = '\r' then ['\\', 'r']
  else if c = '\t' then ['\\', 't']
  else if c.toNat < 0x20 || c.toNat = 0x7F then
    ['\\', 'x', hexDigitLower (c.toNat / 16), hexDigitLower (c.toNat % 16)]
  else [c]

/-- Embeds repr of a str: single quotes, or double quotes when the string
contains a single quote but no double quote. -/
def pyReprStr (s : String) : String :=
  let q : Char := if '\'' ∈ s.data && '"' ∉ s.data then '"' else '\''
  ⟨q :: s.data.flatMap (pyReprEscape q) ++ [q]⟩

mutual

/-- Embeds repr() of a value. -/
def pyRepr : JVal → String
  | .null => "None"
  | .bool b => if b then "True" else "False"
  | .int n => toString n
  | .str s => pyReprStr s
  | .arr xs => "[" ++ pyReprArr xs ++ "]"
  | .obj xs => "\x7b" ++ pyReprObj xs ++ "\x7d"

/-- Comma-separated reprs of array elements. -/
def pyReprArr : JArr → String
  | .nil => ""
  | .cons v .nil => pyRepr v
  | .cons v tl => pyRepr v ++ ", " ++ pyReprArr tl

/-- Comma-separated key: value reprs of object entries. -/
def pyReprObj : JObj → String
  | .nil => ""
  | .cons k v .nil => pyReprStr k ++ ": " ++ pyRepr v
  | .cons k v tl => pyReprStr k ++ ": " ++ pyRepr v ++ ", " ++ pyReprObj tl

end

/-- Embeds str() of a value, as f-string interpolation uses. -/
def pyStr : JVal → String
  | .str s => s
  | v => pyRepr v

/-- Embeds str() of a dict.get result. -/
def pyStrO : Option JVal → String
  | none => "None"
  | some v => pyStr v

/-- Reads a Python int (or bool, a subclass of int) out of a value. -/
def asPyInt : Option JVal → Option Int
  | some (.int n) => some n
  | some (.bool b) => some (if b then 1 else 0)
  | _ => none

/-- Reads a Python str out of a value. -/
def asPyStr : Option JVal → Option String
  | some (.str s) => some s
  | _ => none

/-! Embedding of the pause/resume strict validator of compare.py. -/

/-- Prefixes a diff message with the side tag, as every f-string of the
validator does. -/
def emitD (side msg : String) : String := side ++ " " ++ msg

/-- Embeds _find_event: first event whose type equals the given one; the
attribute access on a non-dict element raises. A found event always has
a type key, hence is a truthy (non-empty) dict. -/
def find_event : JArr → String → Except String (Option JObj)
  | .nil, _ => .ok none
  | .cons e tl, t =>
    match e with
    | .obj o =>
      if pyGet o "type" = some (.str t) then .ok (some o) else find_event tl t
    | _ => .error "AttributeError: get on a non-dict event"

/-- Loop of _index_event_type with the running index. -/
def indexEventLoop : JArr → String → Int → Except String Int
  | .nil, _, _ => .ok (-1)
  | .cons e tl, t, i =>
    match e with
    | .obj o =>
      if pyGet o "type" = some (.str t) then .ok i
      else indexEventLoop tl t (i + 1)
    | _ => .error "AttributeError: get on a non-dict event"

/-- Embeds _index_event_type: index of the first event of the given type,
or -1. -/
def index_event_type (evs : JArr) (t : String) : Except String Int :=
  indexEventLoop evs t 0

/-- State of the validator event loop: last seq, last t_us, last
delivered, last written, and the type counts. -/
structure PRLoopState where
  lseq : Int
  lt : Int
  ld : Int
  lw : Int
  tc : String → Nat

/-- The rendered seq-violation message. -/
def seqDiffMsg (side : String) (idx : Nat) (seqv : Option JVal)
    (lseq : Int) : String :=
  emitD side ("event seq not increasing at idx=" ++ toString idx ++ ": " ++
    pyStrO seqv ++ " <= " ++ toString lseq)

/-- Diffs of the seq check of one event, with the updated tracker. -/
def prSeqCheck (side : String) (idx : Nat) (seqv : Option JVal) (lseq : Int) :
    List String × Int :=
  let bad := [seqDiffMsg side idx seqv lseq]
  match asPyInt seqv with
  | some n => if n ≤ lseq then (bad, lseq) else ([], n)
  | none => (bad, lseq)

/-- Diffs of the t_us check of one event, with the updated tracker. -/
def prTCheck (side : String) (idx : Nat) (tv : Option JVal) (lt : Int) :
    List String × Int :=
  let invalid := [emitD side ("event t_us invalid at idx=" ++ toString idx ++
    ": " ++ pyStrO tv)]
  match asPyInt tv with
  | some n =>
    if n < 0 then (invalid, lt)
    else if n < lt then
      ([emitD side ("event t_us not monotonic at idx=" ++ toString idx ++
        ": " ++ pyStrO tv ++ " < " ++ toString lt)], lt)
    else ([], n)
  | none => (invalid, lt)

/-- Diffs of one byte-counter check of one event, with the updated
tracker. The field name appears in both messages; the monotonicity
message has no event prefix, as in the source. -/
def prCounterCheck (side : String) (field : String) (idx : Nat)
    (v : Option JVal) (last : Int) : List String × Int :=
  let invalid := [emitD side ("event " ++ field ++ " invalid at idx=" ++
    toString idx ++ ": " ++ pyStrO v)]
  match asPyInt v with
  | some n =>
    if n < 0 then (invalid, last)
    else if n < last then
      ([emitD side (field ++ " not monotonic at idx=" ++ toString idx ++
        ": " ++ pyStrO v ++ " < " ++ toString last)], last)
    else ([], n)
  | none => (invalid, last)

/-- Diffs of the type check of one event, with the updated counts. -/
def prTypeCheck (side : String) (idx : Nat) (ty : Option JVal)
    (tc : String → Nat) : List String × (String → Nat) :=
  let bad := [emitD side ("event type invalid at idx=" ++ toString idx ++
    ": " ++ pyStrO ty)]
  match asPyStr ty with
  | some s =>
    if s = "" then (bad, tc)
    else ([], fun t => if t = s then tc t + 1 else tc t)
  | none => (bad, tc)

/-- The event loop of _validate_pause_resume_contract. -/
def prLoop (side : String) : JArr → Nat → PRLoopState →
    List String × PRLoopState
  | .nil, _, st => ([], st)
  | .cons e tl, idx, st =>
    match e with
    | .obj o =>
      let c1 := prSeqCheck side idx (pyGet o "seq") st.lseq
      let c2 := prTCheck side idx (pyGet o "t_us") st.lt
      let c3 := prCounterCheck side "bytes_delivered_total" idx
        (pyGet o "bytes_delivered_total") st.ld
      let c4 := prCounterCheck side "bytes_written_total" idx
        (pyGet o "bytes_written_total") st.lw
      let c5 := prTypeCheck side idx (pyGet o "type") st.tc
      let rest := prLoop side tl (idx + 1) ⟨c1.2, c2.2, c3.2, c4.2, c5.2⟩
      (c1.1 ++ c2.1 ++ c3.1 ++ c4.1 ++ c5.1 ++ rest.1, rest.2)
    | _ =>
      let rest := prLoop side tl (idx + 1) st
      (emitD side ("events[" ++ toString idx ++ "] not an object") :: rest.1,
        rest.2)

/-- The required-once event types, in source order. -/
def requiredOnce : List String :=
  ["start", "pause_req", "pause_effective", "resume_req", "finished"]

/-- Count-mismatch diffs for the required-once types. -/
def prCountDiffs (side : String) (tc : String → Nat) : List String :=
  requiredOnce.flatMap (fun t =>
    if tc t ≠ 1 then
      [emitD side ("event " ++ t ++ " count mismatch: " ++ toString (tc t) ++
        " != 1")]
    else [])

/-- One index-ordering diff: the later event must come strictly after the
earlier one when both are present. -/
def prOrderDiff (side : String) (laterName : String) (laterIdx : Int)
    (earlierName : String) (earlierIdx : Int) : List String :=
  if earlierIdx ≥ 0 && laterIdx ≥ 0 && laterIdx ≤ earlierIdx then
    [emitD side ("event order invalid: " ++ laterName ++ " idx=" ++
      toString laterIdx ++ " <= " ++ earlierName ++ " idx=" ++
      toString earlierIdx)]
  else []

/-- The rendered zero-delta-window message. -/
def windowDiffMsg (side field : String) (pe_v rr_v : Option JVal) : String :=
  emitD side ("pause window " ++ field ++ " delta != 0: " ++ pyStrO pe_v ++
    " -> " ++ pyStrO rr_v)

/-- Zero-delta-window diff for one byte counter. -/
def prWindowDiff (side : String) (field : String) (pe rr : JObj) :
    List String :=
  let pe_v := pyGet pe field
  let rr_v := pyGet rr field
  match asPyInt pe_v, asPyInt rr_v with
  | some a, some b => if b ≠ a then [windowDiffMsg side field pe_v rr_v] else []
  | _, _ => []

/-- The zero-delta-window section: runs only when both events were
found. -/
def windowSection (side : String) : Option JObj → Option JObj → List String
  | some peo, some rro =>
    prWindowDiff side "bytes_delivered_total" peo rro ++
    prWindowDiff side "bytes_written_total" peo rro
  | _, _ => []

/-- Terminal-consistency diff at the finished event. -/
def prFinishedDiff (side : String) (body_len : Int) : Option JObj →
    List String
  | none => []
  | some fin =>
    let fw := pyGet fin "bytes_written_total"
    match asPyInt fw with
    | some n =>
      if body_len ≥ 0 && n ≠ body_len then
        [emitD side ("finished bytes_written_total mismatch: " ++ pyStrO fw ++
          " != body_len " ++ toString body_len)]
      else []
    | none => []

/-- Embeds _validate_pause_resume_contract(pr, side, body_len). The
attribute accesses of the find and index helpers can raise on non-dict
events, hence the Except result; all diff lists are produced in source
order. -/
def validate_pause_resume_contract (pr : JVal) (side : String)
    (body_len : Int) : Except String (List String) :=
  match pr with
  | .obj po =>
    match pyGet po "events" with
    | some (.arr evs) =>
      if evs = .nil then
        .ok [emitD side "pause_resume_strict.events missing or empty"]
      else do
        let lp := prLoop side evs 0 ⟨0, -1, -1, -1, fun _ => 0⟩
        let loopDiffs := lp.1
        let countDiffs := prCountDiffs side lp.2.tc
        let pr_idx ← index_event_type evs "pause_req"
        let pe_idx ← index_event_type evs "pause_effective"
        let rr_idx ← index_event_type evs "resume_req"
        let fin_idx ← index_event_type evs "finished"
        let orderDiffs :=
          prOrderDiff side "pause_effective" pe_idx "pause_req" pr_idx ++
          prOrderDiff side "resume_req" rr_idx "pause_effective" pe_idx ++
          prOrderDiff side "finished" fin_idx "resume_req" rr_idx
        let pe ← find_event evs "pause_effective"
        let rr ← find_event evs "resume_req"
        let windowDiffs := windowSection side pe rr
        let fin ← find_event evs "finished"
        let finDiffs := prFinishedDiff side body_len fin
        return loopDiffs ++ countDiffs ++ orderDiffs ++ windowDiffs ++ finDiffs
    | _ => .ok [emitD side "pause_resume_strict.events missing or empty"]
  | _ => .error "AttributeError: get on a non-dict pause_resume_strict"

/-! Embedding of compare_artifacts of compare.py. The file loading of
_load is the I/O boundary: the comparator takes the two decoded JSON
documents. -/

/-- Embeds _cmp_dict(lhs, rhs, fields): a field differs when the two
dict.get results are not Python-equal. Attribute access on a non-dict
raises. -/
def cmp_dict (lhs rhs : JVal) (fields : List String) :
    Except String (List String) :=
  match lhs, rhs with
  | .obj lo, .obj ro =>
    .ok (fields.flatMap (fun f =>
      if pyEqO (pyGet lo f) (pyGet ro f) then []
      else [f ++ " mismatch: " ++ pyStrO (pyGet lo f) ++ " != " ++
        pyStrO (pyGet ro f)]))
  | _, _ => .error "AttributeError: get on a non-dict"

/-- Embeds len() for the values it is called on here. -/
def pyLen : JVal → Except String Int
  | .str s => .ok s.data.length
  | .arr xs => .ok (JArr.length xs)
  | .obj xs => .ok (JObj.length xs)
  | _ => .error "TypeError: object has no len"
where
  JArr.length : JArr → Int
    | .nil => 0
    | .cons _ tl => JArr.length tl + 1
  JObj.length : JObj → Int
    | .nil => 0
    | .cons _ _ tl => JObj.length tl + 1

/-- Element-wise comparison of the zipped lists of _cmp_list_dict. -/
def cmpPairs (fields : List String) (label : String) :
    List (JVal × JVal) → Nat → Except String (List String)
  | [], _ => .ok []
  | (lhs, rhs) :: tl, idx => do
    let here ←
      match lhs, rhs with
      | .obj lo, .obj ro =>
        .ok (fields.flatMap (fun f =>
          if pyEqO (pyGet lo f) (pyGet ro f) then []
          else [label ++ "[" ++ toString idx ++ "]." ++ f ++ " mismatch: " ++
            pyStrO (pyGet lo f) ++ " != " ++ pyStrO (pyGet ro f)]))
      | _, _ => .error "AttributeError: get on a non-dict"
    let rest ← cmpPairs fields label tl (idx + 1)
    return here ++ rest

/-- List of the elements of a JSON array. -/
def JArr.toList : JArr → List JVal
  | .nil => []
  | .cons v tl => v :: JArr.toList tl

/-- Embeds _cmp_list_dict(lhs, rhs, fields, label): length mismatch is
one diff and stops; otherwise element-wise comparison at matching index.
len() also succeeds on strings and dicts, so the length check can report
before the attribute error of the element loop would raise; an equal
nonzero length of non-list operands still raises in the loop. -/
def cmp_list_dict (lhs rhs : JVal) (fields : List String) (label : String) :
    Except String (List String) :=
  match lhs, rhs with
  | .arr xs, .arr ys =>
    let lx := xs.toList
    let ly := ys.toList
    if lx.length ≠ ly.length then
      .ok [label ++ " length mismatch: " ++ toString lx.length ++ " != " ++
        toString ly.length]
    else cmpPairs fields label (lx.zip ly) 0
  | _, _ => do
    let la ← pyLen lhs
    let lb ← pyLen rhs
    if la ≠ lb then
      .ok [label ++ " length mismatch: " ++ toString la ++ " != " ++
        toString lb]
    else if la = 0 then .ok []
    else .error "AttributeError: get on a non-dict"

/-- The request semantic fields. -/
def reqFields : List String :=
  ["method", "url", "headers", "body_len", "body_sha256"]

/-- The response summary fields. -/
def respFields : List String :=
  ["status", "http_version", "headers", "body_len", "body_sha256"]

/-- The requests/request section of compare_artifacts. -/
def sectionRequests (b q : JObj) : Except String (List String) :=
  let b_reqs := pyGet b "requests"
  let q_reqs := pyGet q "requests"
  if b_reqs.isSome || q_reqs.isSome then
    match b_reqs, q_reqs with
    | some bv, some qv =>
      if truthy bv && truthy qv then cmp_list_dict bv qv reqFields "requests"
      else .ok ["requests missing in one side"]
    | _, _ => .ok ["requests missing in one side"]
  else
    match pyGet b "request", pyGet q "request" with
    | some bv, some qv =>
      if truthy bv && truthy qv then cmp_dict bv qv reqFields
      else .ok ["request missing in one side"]
    | _, _ => .ok ["request missing in one side"]

/-- The responses list section. -/
def sectionResponses (b q : JObj) : Except String (List String) :=
  let b_resps := pyGet b "responses"
  let q_resps := pyGet q "responses"
  if b_resps.isSome || q_resps.isSome then
    match b_resps, q_resps with
    | some bv, some qv =>
      if truthy bv && truthy qv then cmp_list_dict bv qv respFields "responses"
      else .ok ["responses missing in one side"]
    | _, _ => .ok ["responses missing in one side"]
  else .ok []

/-- The optional raw-header fidelity fields. -/
def rawOpts : List String :=
  ["headers_raw_len", "headers_raw_sha256", "headers_raw_lines"]

/-- The raw-header fidelity loop over a pair of response dicts. -/
def rawOptDiffs (bo qo : JObj) : List String :=
  rawOpts.flatMap (fun opt =>
    if bo.hasKey opt ≠ qo.hasKey opt then
      ["response." ++ opt ++ " missing in one side"]
    else if bo.hasKey opt && qo.hasKey opt &&
        !pyEqO (pyGet bo opt) (pyGet qo opt) then
      ["response." ++ opt ++ " mismatch: " ++ pyStrO (pyGet bo opt) ++
        " != " ++ pyStrO (pyGet qo opt)]
    else [])

/-- The singular response section (always evaluated), including the
raw-header fidelity loop. -/
def sectionResponse (b q : JObj) : Except String (List String) :=
  match pyGet b "response", pyGet q "response" with
  | some bv, some qv =>
    if truthy bv && truthy qv then do
      let d ← cmp_dict bv qv respFields
      match bv, qv with
      | .obj bo, .obj qo => return d ++ rawOptDiffs bo qo
      | _, _ => .error "TypeError: in on a non-container"
    else .ok ["response missing in one side"]
  | _, _ => .ok ["response missing in one side"]

/-- The cookiejar section. -/
def sectionCookiejar (b q : JObj) : Except String (List String) :=
  let bc := pyGet b "cookiejar"
  let qc := pyGet q "cookiejar"
  if bc.isSome || qc.isSome then
    match bc, qc with
    | some bv, some qv =>
      if truthy bv && truthy qv then cmp_dict bv qv ["records", "sha256"]
      else .ok ["cookiejar missing in one side"]
    | _, _ => .ok ["cookiejar missing in one side"]
  else .ok []

/-- Membership for the in-operator on arrays. -/
def jarrContains (xs : JArr) (s : String) : Bool :=
  (xs.toList).any (fun v => pyEq v (.str s))

/-- Embeds the in-operator as used on the error section values. -/
def pyContains (v : JVal) (key : String) : Except String Bool :=
  match v with
  | .obj o => .ok (o.hasKey key)
  | .str s => .ok (listContainsSub key.data s.data)
  | .arr xs => .ok (jarrContains xs key)
  | _ => .error "TypeError: argument not iterable"

/-- One optional error field: a one-sided presence is its own diff, a
two-sided presence adds the field to the compared list. -/
def errFieldCheck (bv qv : JVal) (key : String) :
    Except String (List String × List String) := do
  let bh ← pyContains bv key
  let qh ← pyContains qv key
  if bh ≠ qh then
    pure (["error." ++ key ++ " missing in one side"], [])
  else if bh && qh then pure ([], [key])
  else pure ([], [])

/-- The error section: kind and http_status always, curlcode and
http_code only when present on both sides; a one-sided presence is its
own diff. -/
def sectionError (b q : JObj) : Except String (List String) :=
  let be := pyGet b "error"
  let qe := pyGet q "error"
  if be.isSome || qe.isSome then
    match be, qe with
    | some bv, some qv => do
      let r1 ← errFieldCheck bv qv "curlcode"
      let r2 ← errFieldCheck bv qv "http_code"
      let d3 ← cmp_dict bv qv (["kind", "http_status"] ++ r1.2 ++ r2.2)
      return r1.1 ++ r2.1 ++ d3
    | _, _ => .ok ["error missing in one side"]
  else .ok []

/-- Embeds dict.get on a value that must be a dict (attribute error
otherwise). -/
def pyGetE (v : JVal) (key : String) : Except String (Option JVal) :=
  match v with
  | .obj o => .ok (pyGet o key)
  | _ => .error "AttributeError: get on a non-dict"

/-- One lane of the progress_summary section. -/
def progressLane (bv qv : JVal) (lane : String) :
    Except String (List String) := do
  let bl ← pyGetE bv lane
  let ql ← pyGetE qv lane
  match bl, ql with
  | none, none => return []
  | some blv, some qlv => cmp_dict blv qlv ["monotonic", "now_max", "total_max"]
  | _, _ => return ["progress_summary." ++ lane ++ " missing in one side"]

/-- The progress_summary section. -/
def sectionProgress (b q : JObj) : Except String (List String) :=
  let bp := pyGet b "progress_summary"
  let qp := pyGet q "progress_summary"
  if bp.isSome || qp.isSome then
    match bp, qp with
    | some bv, some qv => do
      let d1 ← progressLane bv qv "download"
      let d2 ← progressLane bv qv "upload"
      return d1 ++ d2
    | _, _ => .ok ["progress_summary missing in one side"]
  else .ok []

/-- The connection_observed section. -/
def sectionConnection (b q : JObj) : Except String (List String) :=
  let bc := pyGet b "connection_observed"
  let qc := pyGet q "connection_observed"
  if bc.isSome || qc.isSome then
    match bc, qc with
    | some bv, some qv =>
      cmp_dict bv qv ["request_count", "unique_connections", "conn_seq"]
    | _, _ => .ok ["connection_observed missing in one side"]
  else .ok []

/-- The weak pause_resume section. -/
def sectionPauseResume (b q : JObj) : Except String (List String) :=
  let bp := pyGet b "pause_resume"
  let qp := pyGet q "pause_resume"
  if bp.isSome || qp.isSome then
    match bp, qp with
    | some bv, some qv =>
      cmp_dict bv qv ["pause_offset", "pause_count", "resume_count",
        "event_seq"]
    | _, _ => .ok ["pause_resume missing in one side"]
  else .ok []

/-- Embeds int((resp or \x7b\x7d).get("body_len") or 0): a falsy or
missing response contributes 0, a falsy field value contributes 0, and
otherwise the value is coerced with int(). -/
def bodyLenOf (resp : Option JVal) : Except String Int :=
  match resp with
  | none => .ok 0
  | some v =>
    if !truthy v then .ok 0
    else
      match v with
      | .obj o =>
        match pyGet o "body_len" with
        | none => .ok 0
        | some x =>
          if !truthy x then .ok 0
          else
            match x with
            | .int n => .ok n
            | .bool bb => .ok (if bb then 1 else 0)
            | .str s => pyIntOfString s
            | _ => .error "TypeError: int() argument"
      | _ => .error "AttributeError: get on a non-dict"

/-- The strict pause_resume section: scenario parameters compared
field-wise, then the validator runs on each side with the body length of
that side. -/
def sectionPauseStrict (b q : JObj) : Except String (List String) :=
  let bp := pyGet b "pause_resume_strict"
  let qp := pyGet q "pause_resume_strict"
  if bp.isSome || qp.isSome then
    match bp, qp with
    | some bv, some qv => do
      let d1 ← cmp_dict bv qv ["schema", "proto", "pause_offset",
        "resume_delay_ms"]
      let blen ← bodyLenOf (pyGet b "response")
      let qlen ← bodyLenOf (pyGet q "response")
      let d2 ← validate_pause_resume_contract bv "baseline" blen
      let d3 ← validate_pause_resume_contract qv "qcurl" qlen
      return d1 ++ d2 ++ d3
    | _, _ => .ok ["pause_resume_strict missing in one side"]
  else .ok []

/-- Embeds compare_artifacts(baseline, qcurl) on the two decoded
documents: the concatenated section diffs, and ok iff there are none. -/
def compare_artifacts (base qc : JVal) : Except String (Bool × List String) :=
  match base, qc with
  | .obj b, .obj q => do
    let d1 ← sectionRequests b q
    let d2 ← sectionResponses b q
    let d3 ← sectionResponse b q
    let d4 ← sectionCookiejar b q
    let d5 ← sectionError b q
    let d6 ← sectionProgress b q
    let d7 ← sectionConnection b q
    let d8 ← sectionPauseResume b q
    let d9 ← sectionPauseStrict b q
    let diffs := d1 ++ d2 ++ d3 ++ d4 ++ d5 ++ d6 ++ d7 ++ d8 ++ d9
    return (diffs.isEmpty, diffs)
  | _, _ => .error "AttributeError: get on a non-dict document"

/-- Builds a JSON array from a list literal. -/
def JArr.ofList : List JVal → JArr
  | [] => .nil
  | v :: tl => .cons v (JArr.ofList tl)

/-- Builds a JSON object from an entry list literal. -/
def JObj.ofList : List (String × JVal) → JObj
  | [] => .nil
  | (k, v) :: tl => .cons k v (JObj.ofList tl)

/-- First-seen accumulation from an arbitrary starting list. -/
def fsFrom (seen ports : List Int) : List Int :=
  ports.foldl (fun acc p => if p ∈ acc then acc else acc ++ [p]) seen

/-- The numeric value of a digit list, most significant first. -/
def digitsVal (s : List Char) : Nat :=
  s.foldl (fun a c => a * 10 + (c.toNat - 48)) 0

instance : IsTotal HttpdObserved (fun a b => redirKey b ≤ redirKey a) :=
  ⟨fun a b => le_total (redirKey b) (redirKey a)⟩

instance : IsTrans HttpdObserved (fun a b => redirKey b ≤ redirKey a) :=
  ⟨fun _ _ _ hab hbc => le_trans hbc hab⟩

/-- Number of httpd log entries matching a correlation id. -/
def httpdMatchCount (lines : List String) (rid : String) : Except String Int :=
  (parse_httpd_access_log lines).map
    (fun es => ((es.filter (fun e => e.id = rid)).length : Int))

/-- Number of nghttpx log entries matching a correlation id. -/
def nghttpxMatchCount (lines : List String) (rid : String) : Except String Int :=
  (parse_nghttpx_access_log lines).map
    (fun es => ((es.filter (fun e => e.id = rid)).length : Int))

/-- The matching nghttpx observations in file order (before the final
sort); used to state order properties. -/
def nghttpxObservedFileOrder (lines : List String) (req_id : String)
    (includeCl : Bool) : Except String (List HttpdObserved) := do
  let es ← parse_nghttpx_access_log lines
  (es.filter (fun e => e.id = req_id)).mapM (buildNghttpxObserved includeCl)

instance : IsTotal HttpdObserved (fun a b => a.url ≤ b.url) :=
  ⟨fun a b => le_total a.url b.url⟩

instance : IsTrans HttpdObserved (fun a b => a.url ≤ b.url) :=
  ⟨fun _ _ _ h1 h2 => le_trans h1 h2⟩

/-- Every event of the list is a JSON object. -/
def allObjEvents : JArr → Bool
  | .nil => true
  | .cons (.obj _) tl => allObjEvents tl
  | .cons _ _ => false

/-! Theorems. First the connection-reuse summarizer (claim C6). -/

theorem firstSeen_eq_fsFrom (ports : List Int) : firstSeen ports = fsFrom [] ports := rfl

theorem fsFrom_cons (seen : List Int) (p : Int) (ps : List Int) :
    fsFrom seen (p :: ps) =
      if p ∈ seen then fsFrom seen ps else fsFrom (seen ++ [p]) ps := by
  by_cases h : p ∈ seen <;> simp [fsFrom, h]

theorem fsFrom_prefix (ps : List Int) : ∀ seen, ∃ t, fsFrom seen ps = seen ++ t := by
  induction ps with
  | nil => intro seen; exact ⟨[], by simp [fsFrom]⟩
  | cons p ps ih =>
    intro seen
    rw [fsFrom_cons]
    by_cases h : p ∈ seen
    · simpa [h] using ih seen
    · obtain ⟨t, ht⟩ := ih (seen ++ [p])
      exact ⟨p :: t, by simp [h, ht]⟩

theorem mem_fsFrom (ps : List Int) : ∀ seen x, x ∈ fsFrom seen ps ↔ x ∈ seen ∨ x ∈ ps := by
  induction ps with
  | nil => intro seen x; simp [fsFrom]
  | cons p ps ih =>
    intro seen x
    rw [fsFrom_cons]
    by_cases h : p ∈ seen
    · rw [if_pos h, ih]
      constructor
      · rintro (hx | hx)
        · exact Or.inl hx
        · exact Or.inr (List.mem_cons_of_mem _ hx)
      · rintro (hx | hx)
        · exact Or.inl hx
        · rcases List.mem_cons.mp hx with rfl | hx
          · exact Or.inl h
          · exact Or.inr hx
    · rw [if_neg h, ih]
      simp only [List.mem_append, List.mem_singleton, List.mem_cons]
      tauto

theorem nodup_fsFrom (ps : List Int) : ∀ seen, seen.Nodup → (fsFrom seen ps).Nodup := by
  induction ps with
  | nil => intro seen h; simpa [fsFrom] using h
  | cons p ps ih =>
    intro seen h
    rw [fsFrom_cons]
    by_cases hp : p ∈ seen
    · exact if_pos hp ▸ ih seen h
    · rw [if_neg hp]
      refine ih _ ?_
      simpa [List.nodup_append, h] using hp

theorem connSeqLoop_spec (ports : List Int) :
    ∀ (seen : List Int) (m : List (Int × Nat)),
    (∀ p, lookupPort m p =
      if p ∈ seen then some (seen.indexOf p + 1) else none) →
    connSeqLoop ports m (seen.length + 1) =
      ports.map (fun p => (fsFrom seen ports).indexOf p + 1) := by
  induction ports with
  | nil => intro seen m _; rfl
  | cons p ps ih =>
    intro seen m hm
    rw [fsFrom_cons]
    by_cases hp : p ∈ seen
    · obtain ⟨t, ht⟩ := fsFrom_prefix ps seen
      have hlook := hm p
      rw [if_pos hp] at hlook
      simp only [connSeqLoop, hlook, if_pos hp, List.map_cons]
      rw [ih seen m hm]
      rw [ht, List.indexOf_append_of_mem hp]
    · have hlook := hm p
      rw [if_neg hp] at hlook
      simp only [connSeqLoop, hlook, if_neg hp, List.map_cons]
      obtain ⟨t, ht⟩ := fsFrom_prefix ps (seen ++ [p])
      have hidx : (fsFrom (seen ++ [p]) ps).indexOf p = seen.length := by
        rw [ht, List.append_assoc, List.indexOf_append_of_not_mem hp]
        simp
      have hm2 : ∀ q, lookupPort ((p, seen.length + 1) :: m) q =
          if q ∈ seen ++ [p] then some ((seen ++ [p]).indexOf q + 1) else none := by
        intro q
        by_cases hq : p = q
        · subst hq
          have : (seen ++ [p]).indexOf p = seen.length := by
            rw [List.indexOf_append_of_not_mem hp]; simp
          simp [lookupPort, this]
        · have : lookupPort ((p, seen.length + 1) :: m) q = lookupPort m q := by
            simp [lookupPort, List.find?, hq]
          rw [this, hm q]
          by_cases hqs : q ∈ seen
          · rw [if_pos hqs, if_pos (List.mem_append_left _ hqs),
              List.indexOf_append_of_mem hqs]
          · rw [if_neg hqs, if_neg ?_]
            simp only [List.mem_append, List.mem_singleton]
            rintro (h | h)
            · exact hqs h
            · exact hq h.symm
      have := ih (seen ++ [p]) ((p, seen.length + 1) :: m) hm2
      simp only [List.length_append, List.length_singleton] at this
      rw [hidx, this]

theorem foldlMax_init_le : ∀ (t : List Nat) (a : Nat), a ≤ t.foldl Nat.max a := by
  intro t
  induction t with
  | nil => intro a; exact le_refl a
  | cons x t ih =>
    intro a
    exact le_trans (Nat.le_max_left a x) (ih (Nat.max a x))

theorem foldlMax_le_of_mem : ∀ (t : List Nat) (a x : Nat), x ∈ t → x ≤ t.foldl Nat.max a := by
  intro t
  induction t with
  | nil => intro a x hx; cases hx
  | cons y t ih =>
    intro a x hx
    rcases List.mem_cons.mp hx with rfl | hx
    · exact le_trans (Nat.le_max_right a x) (foldlMax_init_le t _)
    · exact ih _ x hx

theorem foldlMax_eq_or_mem : ∀ (t : List Nat) (a : Nat),
    t.foldl Nat.max a = a ∨ t.foldl Nat.max a ∈ t := by
  intro t
  induction t with
  | nil => intro a; exact Or.inl rfl
  | cons y t ih =>
    intro a
    rcases ih (Nat.max a y) with h | h
    · rcases Nat.le_total a y with hm | hm
      · refine Or.inr ?_
        simp only [List.foldl]
        have h2 : a.max y = y := Nat.max_eq_right hm
        rw [h, h2]
        exact List.mem_cons_self y t
      · refine Or.inl ?_
        simp only [List.foldl]
        have h2 : a.max y = a := Nat.max_eq_left hm
        rw [h, h2]
    · exact Or.inr (List.mem_cons_of_mem _ h)

theorem le_uniqueFromSeq (l : List Nat) (x : Nat) (hx : x ∈ l) :
    x ≤ uniqueFromSeq l := by
  cases l with
  | nil => cases hx
  | cons h t =>
    rcases List.mem_cons.mp hx with rfl | hx
    · exact foldlMax_init_le t x
    · exact foldlMax_le_of_mem t h x hx

theorem uniqueFromSeq_mem (l : List Nat) (hl : l ≠ []) : uniqueFromSeq l ∈ l := by
  cases l with
  | nil => exact absurd rfl hl
  | cons h t =>
    rcases foldlMax_eq_or_mem t h with he | he
    · rw [uniqueFromSeq, he]; exact List.mem_cons_self h t
    · exact List.mem_cons_of_mem _ he

theorem conn_seq_eq_map (ports : List Int) :
    conn_seq_from_ports ports =
      ports.map (fun p => (firstSeen ports).indexOf p + 1) := by
  have h := connSeqLoop_spec ports [] [] (by intro p; simp [lookupPort])
  simpa [conn_seq_from_ports, firstSeen_eq_fsFrom] using h

theorem mem_firstSeen (ports : List Int) (x : Int) :
    x ∈ firstSeen ports ↔ x ∈ ports := by
  rw [firstSeen_eq_fsFrom]
  simpa using mem_fsFrom ports [] x

theorem nodup_firstSeen (ports : List Int) : (firstSeen ports).Nodup := by
  rw [firstSeen_eq_fsFrom]
  exact nodup_fsFrom _ _ List.nodup_nil

theorem unique_eq_firstSeen_length (ports : List Int) :
    uniqueFromSeq (conn_seq_from_ports ports) = (firstSeen ports).length := by
  by_cases hp : ports = []
  · subst hp; rfl
  · obtain ⟨p, ps, rfl⟩ := List.exists_cons_of_ne_nil hp
    set ports := p :: ps with hports
    have hmap := conn_seq_eq_map ports
    set fs := firstSeen ports with hfs
    have hne : conn_seq_from_ports ports ≠ [] := by
      rw [hmap, hports]; simp
    have hup : ∀ x ∈ conn_seq_from_ports ports, x ≤ fs.length := by
      intro x hx
      rw [hmap] at hx
      obtain ⟨q, hq, rfl⟩ := List.mem_map.mp hx
      have hqf : q ∈ fs := (mem_firstSeen ports q).mpr hq
      have := List.indexOf_lt_length.mpr hqf
      omega
    have hfne : fs ≠ [] := by
      intro h0
      have : p ∈ fs := (mem_firstSeen ports p).mpr (List.mem_cons_self p ps)
      rw [h0] at this
      cases this
    rcases List.eq_nil_or_concat fs with h0 | ⟨ys, a, hya⟩
    · exact absurd h0 hfne
    · rw [List.concat_eq_append] at hya
      have hmem : a ∈ fs := by rw [hya]; simp
      have hq2 : a ∈ ports := (mem_firstSeen ports a).mp hmem
      have hnot : a ∉ ys := by
        have hnd := nodup_firstSeen ports
        rw [← hfs, hya] at hnd
        have := List.disjoint_of_nodup_append hnd
        intro hmema
        exact this hmema (List.mem_singleton_self _)
      have hidx : fs.indexOf a = ys.length := by
        rw [hya, List.indexOf_append_of_not_mem hnot]
        simp [List.indexOf_cons_self]
      have hlen : fs.length = ys.length + 1 := by rw [hya]; simp
      have hin : fs.length ∈ conn_seq_from_ports ports := by
        rw [hmap]
        exact List.mem_map.mpr ⟨a, hq2, by rw [hidx, hlen]⟩
      exact le_antisymm
        (hup _ (uniqueFromSeq_mem _ hne))
        (le_uniqueFromSeq _ _ hin)

theorem firstSeen_length_eq_card (ports : List Int) :
    (firstSeen ports).length = ports.toFinset.card := by
  have hnd := nodup_firstSeen ports
  have hset : (firstSeen ports).toFinset = ports.toFinset := by
    ext x
    simp only [List.mem_toFinset]
    exact mem_firstSeen ports x
  rw [← List.toFinset_card_of_nodup hnd, hset]

/-- C6: for every list of peer ports, the connection-reuse summarizer
maps each port to the id given by its first-seen position (ids start at
1), so conn_seq is the per-position id list and the max-based
unique_connections count equals the number of distinct ports; in
particular on the two port lists of the spec it yields conn_seq [1,1,1]
with 1 unique connection and conn_seq [1,2,1] with 2. -/
theorem claim_C6_connection_summarizer :
    (∀ ports : List Int,
      conn_seq_from_ports ports =
        ports.map (fun p => (firstSeen ports).indexOf p + 1) ∧
      uniqueFromSeq (conn_seq_from_ports ports) = ports.toFinset.card) ∧
    conn_seq_from_ports [5001, 5001, 5001] = [1, 1, 1] ∧
    uniqueFromSeq (conn_seq_from_ports [5001, 5001, 5001]) = 1 ∧
    conn_seq_from_ports [5001, 5002, 5001] = [1, 2, 1] ∧
    uniqueFromSeq (conn_seq_from_ports [5001, 5002, 5001]) = 2 := by
  refine ⟨fun ports => ⟨conn_seq_eq_map ports, ?_⟩, by decide, by decide,
    by decide, by decide⟩
  rw [unique_eq_firstSeen_length, firstSeen_length_eq_card]

/-! The redirect-chain resolver (claim C5). -/

theorem toNat_of_isDigit (c : Char) (h : c.isDigit = true) :
    48 ≤ c.toNat ∧ c.toNat ≤ 57 := by
  simp only [Char.isDigit, ge_iff_le, Bool.and_eq_true, decide_eq_true_eq] at h
  obtain ⟨h1, h2⟩ := h
  rw [UInt32.le_def, BitVec.le_def] at h1 h2
  exact ⟨h1, h2⟩

theorem dropWhile_eq_self_of_none (p : Char → Bool) (l : List Char)
    (h : ∀ c ∈ l, p c = false) : l.dropWhile p = l := by
  cases l with
  | nil => rfl
  | cons c t =>
    rw [List.dropWhile_cons_of_neg]
    simp [h c (List.mem_cons_self c t)]

theorem pyStrip_of_digits (s : List Char) (h : ∀ c ∈ s, c.isDigit = true) :
    pyStrip ⟨s⟩ = ⟨s⟩ := by
  have hns : ∀ c ∈ s, pyIsSpace c = false := by
    intro c hc
    have := toNat_of_isDigit c (h c hc)
    simp only [pyIsSpace, List.mem_cons, List.not_mem_nil, or_false,
      decide_eq_false_iff_not]
    omega
  show (⟨((s.dropWhile pyIsSpace).reverse.dropWhile pyIsSpace).reverse⟩ : String) = ⟨s⟩
  rw [dropWhile_eq_self_of_none _ _ hns,
    dropWhile_eq_self_of_none _ _ (by intro c hc; exact hns c (List.mem_reverse.mp hc)),
    List.reverse_reverse]

theorem pyIntOfString_go_digits (s : List Char) :
    ∀ (acc : Nat) (b : Bool), (∀ c ∈ s, c.isDigit = true) →
    (b = true ∨ s ≠ []) →
    pyIntOfString.go acc b s =
      .ok (s.foldl (fun a c => a * 10 + (c.toNat - 48)) acc) := by
  induction s with
  | nil =>
    intro acc b _ hb
    rcases hb with rfl | hne
    · rfl
    · exact absurd rfl hne
  | cons c t ih =>
    intro acc b hd _
    have hc := hd c (List.mem_cons_self c t)
    rw [pyIntOfString.go, if_pos hc]
    rw [ih _ true (fun x hx => hd x (List.mem_cons_of_mem _ hx)) (Or.inl rfl)]
    rfl

theorem pyIntOfString_digits (s : List Char) (hne : s ≠ [])
    (hd : ∀ c ∈ s, c.isDigit = true) :
    pyIntOfString ⟨s⟩ = .ok (digitsVal s) := by
  have hstrip : pyStrip ⟨s⟩ = ⟨s⟩ := pyStrip_of_digits s hd
  cases s with
  | nil => exact absurd rfl hne
  | cons c t =>
    have hc := hd c (List.mem_cons_self c t)
    have hb := toNat_of_isDigit c hc
    have hcm : c ≠ '-' := by
      intro h; subst h
      exact (by decide : ¬(48 ≤ '-'.toNat ∧ '-'.toNat ≤ 57)) hb
    have hcp : c ≠ '+' := by
      intro h; subst h
      exact (by decide : ¬(48 ≤ '+'.toNat ∧ '+'.toNat ≤ 57)) hb
    rw [pyIntOfString, hstrip]
    simp only [if_neg hcm, if_neg hcp]
    rw [pyIntOfString_go_digits _ 0 false hd (Or.inr (by simp))]
    simp [digitsVal]

theorem redirKey_of_digits (o : HttpdObserved) (s : List Char) (hs : s ≠ [])
    (hd : ∀ c ∈ s, c.isDigit = true)
    (hurl : o.url = "/redir/" ++ (⟨s⟩ : String)) :
    redirKey o = (digitsVal s : Int) := by
  have hdata : o.url.data = '/' :: 'r' :: 'e' :: 'd' :: 'i' :: 'r' :: '/' :: s := by
    rw [hurl]
    rfl
  have h1 : strStartsList "/redir/".data
      ('/' :: 'r' :: 'e' :: 'd' :: 'i' :: 'r' :: '/' :: s) = true := by
    simp [strStartsList, String.data]
  have h2 : pySplitTwo '/' ('/' :: 'r' :: 'e' :: 'd' :: 'i' :: 'r' :: '/' :: s) =
      [[], ['r', 'e', 'd', 'i', 'r'], s] := by
    simp [pySplitTwo, pySplitOnce]
  simp only [redirKey, hdata, h1, Bool.not_true, Bool.false_eq_true, if_false, h2,
    pyIntOfString_digits s hs hd]

/-- claim C5: on a list of observations whose URLs are /redir/ paths with
digit suffixes of pairwise distinct values, the resolver returns a
permutation of the input whose keys (the parsed suffixes, all
non-negative) are strictly descending. -/
theorem claim_C5_redirect_chain (l : List HttpdObserved)
    (hform : ∀ o ∈ l, ∃ s : List Char,
      o.url = "/redir/" ++ (⟨s⟩ : String) ∧ s ≠ [] ∧ ∀ c ∈ s, c.isDigit = true)
    (hdist : (l.map redirKey).Nodup) :
    (order_redir_chain l).Perm l ∧
    (∀ o ∈ l, 0 ≤ redirKey o) ∧
    (order_redir_chain l).Pairwise (fun a b => redirKey b < redirKey a) := by
  refine ⟨List.perm_insertionSort _ l, ?_, ?_⟩
  · intro o ho
    obtain ⟨s, hurl, hs, hd⟩ := hform o ho
    rw [redirKey_of_digits o s hs hd hurl]
    exact Int.natCast_nonneg _
  · have hsorted := List.sorted_insertionSort
      (fun a b => redirKey b ≤ redirKey a) l
    have hperm : (order_redir_chain l).Perm l := List.perm_insertionSort _ l
    have hnd : ((order_redir_chain l).map redirKey).Nodup :=
      ((hperm.map redirKey).nodup_iff).mpr hdist
    have hne : (order_redir_chain l).Pairwise
        (fun a b => redirKey a ≠ redirKey b) := List.pairwise_map.mp hnd
    exact (hsorted.and hne).imp (fun h => lt_of_le_of_ne h.1 h.2.symm)

/-- Witness for C5: the unordered hop set of the spec, resolved to the
exact descending chain. -/
theorem claim_C5_redirect_chain_witness :
    (order_redir_chain
      [⟨"GET", "/redir/3", "http/1.1", 302, []⟩,
       ⟨"GET", "/redir/1", "http/1.1", 302, []⟩,
       ⟨"GET", "/redir/0", "http/1.1", 200, []⟩,
       ⟨"GET", "/redir/2", "http/1.1", 302, []⟩]).Pairwise
      (fun a b => redirKey b < redirKey a) ∧
    order_redir_chain
      [⟨"GET", "/redir/3", "http/1.1", 302, []⟩,
       ⟨"GET", "/redir/1", "http/1.1", 302, []⟩,
       ⟨"GET", "/redir/0", "http/1.1", 200, []⟩,
       ⟨"GET", "/redir/2", "http/1.1", 302, []⟩] =
      [⟨"GET", "/redir/3", "http/1.1", 302, []⟩,
       ⟨"GET", "/redir/2", "http/1.1", 302, []⟩,
       ⟨"GET", "/redir/1", "http/1.1", 302, []⟩,
       ⟨"GET", "/redir/0", "http/1.1", 200, []⟩] := by
  constructor
  · refine (claim_C5_redirect_chain _ ?_ (by decide)).2.2
    intro o ho
    simp only [List.mem_cons, List.not_mem_nil, or_false] at ho
    rcases ho with rfl | rfl | rfl | rfl
    · exact ⟨['3'], by decide, by decide, by decide⟩
    · exact ⟨['1'], by decide, by decide, by decide⟩
    · exact ⟨['0'], by decide, by decide, by decide⟩
    · exact ⟨['2'], by decide, by decide, by decide⟩
  · decide

/-! The count assertion of the extractors (claim C8). -/

/-- Shape of httpd_observed_list_for_id once the log has parsed. -/
theorem httpd_observed_list_shape (lines : List String) (rid : String)
    (ec : Int) (cl : Bool) (es : List HttpdEntry)
    (hp : parse_httpd_access_log lines = .ok es) :
    httpd_observed_list_for_id lines rid ec cl =
      (let entries := es.filter (fun e => e.id = rid)
       if entries.isEmpty then .error "httpd access_log: no record for id"
       else if ec > 0 && (entries.length : Int) ≠ ec then
         .error "httpd access_log: record count mismatch"
       else do
         let observed ← entries.mapM (buildHttpdObserved cl)
         return sortByUrl observed) := by
  simp only [httpd_observed_list_for_id, hp]
  rfl

/-- Shape of nghttpx_observed_list_for_id once the log has parsed. -/
theorem nghttpx_observed_list_shape (lines : List String) (rid : String)
    (ec : Int) (cl : Bool) (es : List NghttpxEntry)
    (hp : parse_nghttpx_access_log lines = .ok es) :
    nghttpx_observed_list_for_id lines rid ec cl =
      (let entries := es.filter (fun e => e.id = rid)
       if entries.isEmpty then .error "nghttpx access_log: no record for id"
       else if ec > 0 && (entries.length : Int) ≠ ec then
         .error "nghttpx access_log: record count mismatch"
       else do
         let observed ← entries.mapM (buildNghttpxObserved cl)
         return sortByUrl observed) := by
  simp only [nghttpx_observed_list_for_id, hp]
  rfl

/-- C8: with a positive expected_count, both list extractors raise
whenever the number of matching entries differs from expected_count
(no silent truncation or padding). -/
theorem claim_C8_count_mismatch (lines₁ lines₂ : List String)
    (rid₁ rid₂ : String) (ec₁ ec₂ : Int) (n₁ n₂ : Int) (cl₁ cl₂ : Bool)
    (h₁ : httpdMatchCount lines₁ rid₁ = .ok n₁)
    (hc₁ : 0 < ec₁) (hn₁ : n₁ ≠ ec₁)
    (h₂ : nghttpxMatchCount lines₂ rid₂ = .ok n₂)
    (hc₂ : 0 < ec₂) (hn₂ : n₂ ≠ ec₂) :
    (∃ msg, httpd_observed_list_for_id lines₁ rid₁ ec₁ cl₁ = .error msg) ∧
    (∃ msg, nghttpx_observed_list_for_id lines₂ rid₂ ec₂ cl₂ = .error msg) := by
  constructor
  · cases hp : parse_httpd_access_log lines₁ with
    | error e =>
      rw [httpdMatchCount, hp] at h₁
      exact absurd h₁ (by simp [Except.map])
    | ok es =>
      rw [httpdMatchCount, hp] at h₁
      simp only [Except.map] at h₁
      injection h₁ with h₁
      rw [← h₁] at hn₁
      rw [httpd_observed_list_shape lines₁ rid₁ ec₁ cl₁ es hp]
      by_cases hemp : (es.filter (fun e => e.id = rid₁)).isEmpty
      · exact ⟨"httpd access_log: no record for id",
          by simp only [hemp, if_true]⟩
      · refine ⟨"httpd access_log: record count mismatch", ?_⟩
        simp only [Bool.not_eq_true] at hemp
        simp only [hemp, Bool.false_eq_true, if_false]
        rw [if_pos]
        simp only [Bool.and_eq_true, decide_eq_true_eq]
        exact ⟨hc₁, hn₁⟩
  · cases hp : parse_nghttpx_access_log lines₂ with
    | error e =>
      rw [nghttpxMatchCount, hp] at h₂
      exact absurd h₂ (by simp [Except.map])
    | ok es =>
      rw [nghttpxMatchCount, hp] at h₂
      simp only [Except.map] at h₂
      injection h₂ with h₂
      rw [← h₂] at hn₂
      rw [nghttpx_observed_list_shape lines₂ rid₂ ec₂ cl₂ es hp]
      by_cases hemp : (es.filter (fun e => e.id = rid₂)).isEmpty
      · exact ⟨"nghttpx access_log: no record for id",
          by simp only [hemp, if_true]⟩
      · refine ⟨"nghttpx access_log: record count mismatch", ?_⟩
        simp only [Bool.not_eq_true] at hemp
        simp only [hemp, Bool.false_eq_true, if_false]
        rw [if_pos]
        simp only [Bool.and_eq_true, decide_eq_true_eq]
        exact ⟨hc₂, hn₂⟩

/-- Witness for C8: a log with three matching lines and expected_count
four raises in both extractors. -/
theorem claim_C8_count_mismatch_witness :
    httpdMatchCount ["t|HTTP/1.1|GET|/a?id=x|200|-|-",
      "t|HTTP/1.1|GET|/b?id=x|200|-|-", "t|HTTP/1.1|GET|/c?id=x|200|-|-"]
      "x" = .ok 3 ∧
    nghttpxMatchCount ["t|h3|GET|/a?id=x|200|-|-",
      "t|h3|GET|/b?id=x|200|-|-", "t|h3|GET|/c?id=x|200|-|-"] "x" = .ok 3 ∧
    (∃ msg, httpd_observed_list_for_id ["t|HTTP/1.1|GET|/a?id=x|200|-|-",
      "t|HTTP/1.1|GET|/b?id=x|200|-|-", "t|HTTP/1.1|GET|/c?id=x|200|-|-"]
      "x" 4 true = .error msg) ∧
    (∃ msg, nghttpx_observed_list_for_id ["t|h3|GET|/a?id=x|200|-|-",
      "t|h3|GET|/b?id=x|200|-|-", "t|h3|GET|/c?id=x|200|-|-"] "x" 4 true =
      .error msg) := by
  have h := claim_C8_count_mismatch
    ["t|HTTP/1.1|GET|/a?id=x|200|-|-", "t|HTTP/1.1|GET|/b?id=x|200|-|-",
      "t|HTTP/1.1|GET|/c?id=x|200|-|-"]
    ["t|h3|GET|/a?id=x|200|-|-", "t|h3|GET|/b?id=x|200|-|-",
      "t|h3|GET|/c?id=x|200|-|-"] "x" "x" 4 4 3 3 true true
    rfl (by decide) (by decide) rfl (by decide) (by decide)
  exact ⟨rfl, rfl, h.1, h.2⟩

/-! The extractor list order (claim C3). -/

/-- A successful mapM keeps the input length. -/
theorem exceptMapM_ok_length {α β : Type} (f : α → Except String β) :
    ∀ (xs : List α) (ys : List β),
      List.mapM f xs = .ok ys → ys.length = xs.length := by
  intro xs
  induction xs with
  | nil =>
    intro ys h
    rw [List.mapM_nil] at h
    have h' : (Except.ok ([] : List β) : Except String (List β)) = .ok ys := h
    injection h' with h'
    rw [← h']
    rfl
  | cons x xs ih =>
    intro ys h
    rw [List.mapM_cons] at h
    cases hfx : f x with
    | error e =>
      rw [hfx] at h
      have h' : (Except.error e : Except String (List β)) = .ok ys := h
      cases h'
    | ok y =>
      rw [hfx] at h
      cases hm : List.mapM f xs with
      | error e =>
        rw [hm] at h
        have h' : (Except.error e : Except String (List β)) = .ok ys := h
        cases h'
      | ok ys' =>
        rw [hm] at h
        have h' : (Except.ok (y :: ys') : Except String (List β)) = .ok ys := h
        injection h' with h'
        rw [← h']
        simp [ih ys' hm]

theorem httpdFileOrder_shape (lines : List String) (rid : String) (cl : Bool)
    (es : List HttpdEntry) (hp : parse_httpd_access_log lines = .ok es) :
    httpdObservedFileOrder lines rid cl =
      (es.filter (fun e => e.id = rid)).mapM (buildHttpdObserved cl) := by
  simp only [httpdObservedFileOrder, hp]
  rfl

theorem nghttpxFileOrder_shape (lines : List String) (rid : String) (cl : Bool)
    (es : List NghttpxEntry) (hp : parse_nghttpx_access_log lines = .ok es) :
    nghttpxObservedFileOrder lines rid cl =
      (es.filter (fun e => e.id = rid)).mapM (buildNghttpxObserved cl) := by
  simp only [nghttpxObservedFileOrder, hp]
  rfl

theorem httpd_sorted_result (lines : List String) (rid : String) (ec : Int)
    (cl : Bool) (l : List HttpdObserved) (hec : 0 < ec)
    (h : httpd_observed_list_for_id lines rid ec cl = .ok l) :
    (l.length : Int) = ec ∧
    (∃ fo, httpdObservedFileOrder lines rid cl = .ok fo ∧ l.Perm fo) ∧
    l.Pairwise (fun a b => a.url ≤ b.url) := by
  cases hp : parse_httpd_access_log lines with
  | error e =>
    simp only [httpd_observed_list_for_id, hp] at h
    have h' : (Except.error e : Except String (List HttpdObserved)) = .ok l := h
    cases h'
  | ok es =>
    rw [httpd_observed_list_shape lines rid ec cl es hp] at h
    simp only at h
    split at h
    · exact absurd h (by simp)
    · split at h
      · exact absurd h (by simp)
      · next hcnt =>
        have hlen : ((es.filter (fun e => e.id = rid)).length : Int) = ec := by
          simp only [Bool.and_eq_true, decide_eq_true_eq, not_and,
            Decidable.not_not, gt_iff_lt] at hcnt
          exact hcnt hec
        cases hm : (es.filter (fun e => e.id = rid)).mapM
            (buildHttpdObserved cl) with
        | error e2 =>
          rw [hm] at h
          have h' : (Except.error e2 : Except String (List HttpdObserved)) =
            .ok l := h
          cases h'
        | ok fo =>
          rw [hm] at h
          have h' : (Except.ok (sortByUrl fo) :
            Except String (List HttpdObserved)) = .ok l := h
          injection h' with h'
          subst h'
          have hperm : (sortByUrl fo).Perm fo := List.perm_insertionSort _ fo
          refine ⟨?_, ⟨fo, ?_, hperm⟩, ?_⟩
          · rw [hperm.length_eq, exceptMapM_ok_length _ _ _ hm, hlen]
          · rw [httpdFileOrder_shape lines rid cl es hp, hm]
          · exact List.sorted_insertionSort _ fo

theorem nghttpx_sorted_result (lines : List String) (rid : String) (ec : Int)
    (cl : Bool) (l : List HttpdObserved) (hec : 0 < ec)
    (h : nghttpx_observed_list_for_id lines rid ec cl = .ok l) :
    (l.length : Int) = ec ∧
    (∃ fo, nghttpxObservedFileOrder lines rid cl = .ok fo ∧ l.Perm fo) ∧
    l.Pairwise (fun a b => a.url ≤ b.url) := by
  cases hp : parse_nghttpx_access_log lines with
  | error e =>
    simp only [nghttpx_observed_list_for_id, hp] at h
    have h' : (Except.error e : Except String (List HttpdObserved)) = .ok l := h
    cases h'
  | ok es =>
    rw [nghttpx_observed_list_shape lines rid ec cl es hp] at h
    simp only at h
    split at h
    · exact absurd h (by simp)
    · split at h
      · exact absurd h (by simp)
      · next hcnt =>
        have hlen : ((es.filter (fun e => e.id = rid)).length : Int) = ec := by
          simp only [Bool.and_eq_true, decide_eq_true_eq, not_and,
            Decidable.not_not, gt_iff_lt] at hcnt
          exact hcnt hec
        cases hm : (es.filter (fun e => e.id = rid)).mapM
            (buildNghttpxObserved cl) with
        | error e2 =>
          rw [hm] at h
          have h' : (Except.error e2 : Except String (List HttpdObserved)) =
            .ok l := h
          cases h'
        | ok fo =>
          rw [hm] at h
          have h' : (Except.ok (sortByUrl fo) :
            Except String (List HttpdObserved)) = .ok l := h
          injection h' with h'
          subst h'
          have hperm : (sortByUrl fo).Perm fo := List.perm_insertionSort _ fo
          refine ⟨?_, ⟨fo, ?_, hperm⟩, ?_⟩
          · rw [hperm.length_eq, exceptMapM_ok_length _ _ _ hm, hlen]
          · rw [nghttpxFileOrder_shape lines rid cl es hp, hm]
          · exact List.sorted_insertionSort _ fo

/-- C3 counterexample: a two-line log whose matching lines are in url
order /b then /a; the extractor returns them as /a then /b (sorted by
stripped url), not in file order. -/
theorem claim_C3_counterexample :
    Except.map (List.map HttpdObserved.url)
      (httpd_observed_list_for_id
        ["t|HTTP/1.1|GET|/b?id=x|200|-|-", "t|HTTP/1.1|GET|/a?id=x|200|-|-"]
        "x" 2 true) = .ok ["/a", "/b"] ∧
    Except.map (List.map HttpdObserved.url)
      (httpdObservedFileOrder
        ["t|HTTP/1.1|GET|/b?id=x|200|-|-", "t|HTTP/1.1|GET|/a?id=x|200|-|-"]
        "x" true) = .ok ["/b", "/a"] ∧
    (["/a", "/b"] : List String) ≠ ["/b", "/a"] :=
  ⟨by rfl, by rfl, by decide⟩

/-- C3 (amended): with a positive expected_count N, a successful
extraction returns exactly N observations, namely a permutation of the
file-order observation list sorted by stripped url (the file order
itself is not preserved: see the counterexample). Both the httpd and the
nghttpx extractor behave this way. -/
theorem claim_C3_extract_count_and_order (lines₁ lines₂ : List String)
    (rid₁ rid₂ : String) (ec₁ ec₂ : Int) (cl₁ cl₂ : Bool)
    (l₁ l₂ : List HttpdObserved)
    (hec₁ : 0 < ec₁) (hec₂ : 0 < ec₂)
    (h₁ : httpd_observed_list_for_id lines₁ rid₁ ec₁ cl₁ = .ok l₁)
    (h₂ : nghttpx_observed_list_for_id lines₂ rid₂ ec₂ cl₂ = .ok l₂) :
    ((l₁.length : Int) = ec₁ ∧
      (∃ fo, httpdObservedFileOrder lines₁ rid₁ cl₁ = .ok fo ∧ l₁.Perm fo) ∧
      l₁.Pairwise (fun a b => a.url ≤ b.url)) ∧
    ((l₂.length : Int) = ec₂ ∧
      (∃ fo, nghttpxObservedFileOrder lines₂ rid₂ cl₂ = .ok fo ∧ l₂.Perm fo) ∧
      l₂.Pairwise (fun a b => a.url ≤ b.url)) :=
  ⟨httpd_sorted_result lines₁ rid₁ ec₁ cl₁ l₁ hec₁ h₁,
   nghttpx_sorted_result lines₂ rid₂ ec₂ cl₂ l₂ hec₂ h₂⟩

/-- Witness for the amended C3 on a concrete two-line log per backend. -/
theorem claim_C3_extract_count_and_order_witness :
    (0 : Int) < 2 ∧
    httpd_observed_list_for_id
      ["t|HTTP/1.1|GET|/b?id=x|200|-|-", "t|HTTP/1.1|GET|/a?id=x|200|-|-"]
      "x" 2 true =
      .ok [⟨"GET", "/a", "http/1.1", 200, []⟩,
        ⟨"GET", "/b", "http/1.1", 200, []⟩] ∧
    nghttpx_observed_list_for_id
      ["t|h3|GET|/b?id=x|200|-|-", "t|h3|GET|/a?id=x|200|-|-"] "x" 2 true =
      .ok [⟨"GET", "/a", "h3", 200, []⟩, ⟨"GET", "/b", "h3", 200, []⟩] ∧
    ((([⟨"GET", "/a", "http/1.1", 200, []⟩,
        ⟨"GET", "/b", "http/1.1", 200, []⟩] : List HttpdObserved).length :
        Int) = 2 ∧
      (∃ fo, httpdObservedFileOrder
        ["t|HTTP/1.1|GET|/b?id=x|200|-|-", "t|HTTP/1.1|GET|/a?id=x|200|-|-"]
        "x" true = .ok fo ∧
        ([⟨"GET", "/a", "http/1.1", 200, []⟩,
          ⟨"GET", "/b", "http/1.1", 200, []⟩] : List HttpdObserved).Perm fo) ∧
      ([⟨"GET", "/a", "http/1.1", 200, []⟩,
        ⟨"GET", "/b", "http/1.1", 200, []⟩] : List HttpdObserved).Pairwise
        (fun a b => a.url ≤ b.url)) := by
  refine ⟨by decide, by rfl, by rfl, ?_⟩
  exact (claim_C3_extract_count_and_order _
    ["t|h3|GET|/b?id=x|200|-|-", "t|h3|GET|/a?id=x|200|-|-"] "x" "x" 2 2
    true true _ _ (by decide) (by decide) (by rfl) (by rfl)).1

/-! The seq tracker of the strict validator (claim C10). -/

theorem indexEventLoop_ok (t : String) :
    ∀ (evs : JArr), allObjEvents evs = true →
      ∀ i, ∃ k, indexEventLoop evs t i = .ok k
  | .nil, _, _ => ⟨-1, rfl⟩
  | .cons (.obj o) tl, h, i => by
    simp only [indexEventLoop]
    by_cases hm : pyGet o "type" = some (.str t)
    · exact ⟨i, by rw [if_pos hm]⟩
    · obtain ⟨k, hk⟩ := indexEventLoop_ok t tl
        (by simpa [allObjEvents] using h) (i + 1)
      exact ⟨k, by rw [if_neg hm]; exact hk⟩
  | .cons .null tl, h, _ => by simp [allObjEvents] at h
  | .cons (.bool b) tl, h, _ => by simp [allObjEvents] at h
  | .cons (.int n) tl, h, _ => by simp [allObjEvents] at h
  | .cons (.str s) tl, h, _ => by simp [allObjEvents] at h
  | .cons (.arr xs) tl, h, _ => by simp [allObjEvents] at h

theorem find_event_ok (t : String) :
    ∀ (evs : JArr), allObjEvents evs = true → ∃ o, find_event evs t = .ok o
  | .nil, _ => ⟨none, rfl⟩
  | .cons (.obj o) tl, h => by
    simp only [find_event]
    by_cases hm : pyGet o "type" = some (.str t)
    · exact ⟨some o, by rw [if_pos hm]⟩
    · obtain ⟨k, hk⟩ := find_event_ok t tl (by simpa [allObjEvents] using h)
      exact ⟨k, by rw [if_neg hm]; exact hk⟩
  | .cons .null tl, h => by simp [allObjEvents] at h
  | .cons (.bool b) tl, h => by simp [allObjEvents] at h
  | .cons (.int n) tl, h => by simp [allObjEvents] at h
  | .cons (.str s) tl, h => by simp [allObjEvents] at h
  | .cons (.arr xs) tl, h => by simp [allObjEvents] at h

/-- Shape of the validator result when the events list is present,
non-empty, and all scans succeed. -/
theorem validate_shape (po : JObj) (side : String) (blen : Int) (evs : JArr)
    (i1 i2 i3 i4 : Int) (o1 o2 o3 : Option JObj)
    (hev : pyGet po "events" = some (.arr evs)) (hne : evs ≠ .nil)
    (h1 : index_event_type evs "pause_req" = .ok i1)
    (h2 : index_event_type evs "pause_effective" = .ok i2)
    (h3 : index_event_type evs "resume_req" = .ok i3)
    (h4 : index_event_type evs "finished" = .ok i4)
    (hf1 : find_event evs "pause_effective" = .ok o1)
    (hf2 : find_event evs "resume_req" = .ok o2)
    (hf3 : find_event evs "finished" = .ok o3) :
    validate_pause_resume_contract (.obj po) side blen =
      .ok ((prLoop side evs 0 ⟨0, -1, -1, -1, fun _ => 0⟩).1 ++
        prCountDiffs side (prLoop side evs 0 ⟨0, -1, -1, -1, fun _ => 0⟩).2.tc ++
        (prOrderDiff side "pause_effective" i2 "pause_req" i1 ++
          prOrderDiff side "resume_req" i3 "pause_effective" i2 ++
          prOrderDiff side "finished" i4 "resume_req" i3) ++
        windowSection side o1 o2 ++
        prFinishedDiff side blen o3) := by
  simp only [validate_pause_resume_contract, hev]
  rw [if_neg hne]
  simp only [h1, h2, h3, h4, hf1, hf2, hf3]
  rfl

/-- C10: the validator starts its seq tracker at 0, so an event list of
objects whose first event carries an integer seq that is not positive is
always reported with the seq violation at index 0 (hence a valid trace
must open with seq at least 1). -/
theorem claim_C10_first_seq_nonpositive (po : JObj) (side : String)
    (blen : Int) (e0 : JObj) (tl : JArr) (n : Int)
    (hev : pyGet po "events" = some (.arr (.cons (.obj e0) tl)))
    (hobj : allObjEvents (.cons (.obj e0) tl) = true)
    (hseq : pyGet e0 "seq" = some (.int n)) (hn : n ≤ 0) :
    ∃ diffs, validate_pause_resume_contract (.obj po) side blen = .ok diffs ∧
      seqDiffMsg side 0 (some (.int n)) 0 ∈ diffs ∧ diffs ≠ [] := by
  obtain ⟨i1, h1⟩ := indexEventLoop_ok "pause_req" _ hobj 0
  obtain ⟨i2, h2⟩ := indexEventLoop_ok "pause_effective" _ hobj 0
  obtain ⟨i3, h3⟩ := indexEventLoop_ok "resume_req" _ hobj 0
  obtain ⟨i4, h4⟩ := indexEventLoop_ok "finished" _ hobj 0
  obtain ⟨o1, hf1⟩ := find_event_ok "pause_effective" _ hobj
  obtain ⟨o2, hf2⟩ := find_event_ok "resume_req" _ hobj
  obtain ⟨o3, hf3⟩ := find_event_ok "finished" _ hobj
  have hval := validate_shape po side blen _ i1 i2 i3 i4 o1 o2 o3 hev
    (by intro hcon; cases hcon) h1 h2 h3 h4 hf1 hf2 hf3
  have hmem0 : seqDiffMsg side 0 (some (.int n)) 0 ∈
      (prLoop side (JArr.cons (.obj e0) tl) 0
        ⟨0, -1, -1, -1, fun _ => 0⟩).1 := by
    simp only [prLoop, prSeqCheck, hseq, asPyInt]
    rw [if_pos hn]
    simp
  have hmem := List.mem_append_left (prFinishedDiff side blen o3)
    (List.mem_append_left (windowSection side o1 o2)
      (List.mem_append_left
        (prOrderDiff side "pause_effective" i2 "pause_req" i1 ++
          prOrderDiff side "resume_req" i3 "pause_effective" i2 ++
          prOrderDiff side "finished" i4 "resume_req" i3)
        (List.mem_append_left
          (prCountDiffs side (prLoop side (JArr.cons (.obj e0) tl) 0
            ⟨0, -1, -1, -1, fun _ => 0⟩).2.tc) hmem0)))
  exact ⟨_, hval, hmem, List.ne_nil_of_mem hmem⟩

/-- Witness for C10: a one-event trace whose first seq is 0 is flagged,
and the flagged message renders exactly as the source f-string does. -/
theorem claim_C10_first_seq_nonpositive_witness :
    seqDiffMsg "baseline" 0 (some (.int 0)) 0 =
      "baseline event seq not increasing at idx=0: 0 <= 0" ∧
    ∃ diffs, validate_pause_resume_contract
      (.obj (.cons "events"
        (.arr (.cons (.obj (.cons "seq" (.int 0)
          (.cons "type" (.str "start") .nil))) .nil)) .nil))
      "baseline" 500 = .ok diffs ∧
      seqDiffMsg "baseline" 0 (some (.int 0)) 0 ∈ diffs ∧ diffs ≠ [] := by
  constructor
  · rfl
  · exact claim_C10_first_seq_nonpositive
      (.cons "events" (.arr (.cons (.obj (.cons "seq" (.int 0)
        (.cons "type" (.str "start") .nil))) .nil)) .nil)
      "baseline" 500
      (.cons "seq" (.int 0) (.cons "type" (.str "start") .nil)) .nil 0
      rfl (by decide) rfl (by decide)

/-! The zero-delta window rule of the strict validator (claim C1). -/

theorem string_mk_inj {a b : List Char} (h : (⟨a⟩ : String) = ⟨b⟩) : a = b := by
  cases h
  rfl

theorem string_data_inj {x y : String} (h : x.data = y.data) : x = y := by
  cases x
  cases y
  simp only at h
  rw [h]

theorem str_append_data (x y : String) : (x ++ y).data = x.data ++ y.data := by
  cases x
  cases y
  rfl

theorem str_append_left_cancel (s x y : String) (h : s ++ x = s ++ y) :
    x = y := by
  have hd := congrArg String.data h
  rw [str_append_data, str_append_data] at hd
  exact string_data_inj (List.append_cancel_left hd)

theorem emitD_inj (side x y : String) (h : emitD side x = emitD side y) :
    x = y := by
  have : (side ++ " ") ++ x = (side ++ " ") ++ y := by
    simpa [emitD, String.append_assoc] using h
  exact str_append_left_cancel _ _ _ this

theorem str_ne_of_getElem (x y : String) (i : Nat) (cx cy : Char)
    (hx : x.data.get? i = some cx) (hy : y.data.get? i = some cy)
    (hne : cx ≠ cy) : x ≠ y := by
  intro h
  rw [h] at hx
  rw [hx] at hy
  injection hy with hy
  exact hne hy

theorem str_append_assoc (a b c : String) : (a ++ b) ++ c = a ++ (b ++ c) := by
  apply string_data_inj
  simp only [str_append_data, List.append_assoc]

theorem mem_ite_singleton {α : Type} {c : Prop} [Decidable c] {a x : α}
    (hx : x ∈ (if c then [a] else [])) : x = a := by
  split at hx
  · simpa using hx
  · cases hx

theorem prSeqCheck_mem (side : String) (idx : Nat) (sv : Option JVal)
    (ls : Int) (x : String) (hx : x ∈ (prSeqCheck side idx sv ls).1) :
    ∃ m, x = emitD side m ∧ m.data.get? 0 = some 'e' := by
  simp only [prSeqCheck] at hx
  rcases hA : asPyInt sv with _ | n <;> simp only [hA] at hx
  · simp only [List.mem_singleton] at hx
    exact ⟨_, hx, rfl⟩
  · split at hx
    · simp only [List.mem_singleton] at hx
      exact ⟨_, hx, rfl⟩
    · simp at hx

theorem prTCheck_mem (side : String) (idx : Nat) (tv : Option JVal)
    (lt : Int) (x : String) (hx : x ∈ (prTCheck side idx tv lt).1) :
    ∃ m, x = emitD side m ∧ m.data.get? 0 = some 'e' := by
  simp only [prTCheck] at hx
  rcases hA : asPyInt tv with _ | n <;> simp only [hA] at hx
  · simp only [List.mem_singleton] at hx
    exact ⟨_, hx, rfl⟩
  · split at hx
    · simp only [List.mem_singleton] at hx
      exact ⟨_, hx, rfl⟩
    · split at hx
      · simp only [List.mem_singleton] at hx
        exact ⟨_, hx, rfl⟩
      · simp at hx

theorem prCounterCheck_mem (side field : String) (idx : Nat)
    (v : Option JVal) (last : Int) (x : String)
    (hx : x ∈ (prCounterCheck side field idx v last).1) :
    ∃ m, x = emitD side m ∧
      (m.data.get? 0 = some 'e' ∨ ∃ r, m = field ++ r) := by
  simp only [prCounterCheck] at hx
  rcases hA : asPyInt v with _ | n <;> simp only [hA] at hx
  · simp only [List.mem_singleton] at hx
    refine ⟨_, hx, Or.inl rfl⟩
  · split at hx
    · simp only [List.mem_singleton] at hx
      refine ⟨_, hx, Or.inl rfl⟩
    · split at hx
      · simp only [List.mem_singleton] at hx
        refine ⟨_, hx, Or.inr ⟨" not monotonic at idx=" ++ toString idx ++
          ": " ++ pyStrO v ++ " < " ++ toString last, ?_⟩⟩
        simp only [str_append_assoc]
      · simp at hx

theorem prTypeCheck_mem (side : String) (idx : Nat) (ty : Option JVal)
    (tc : String → Nat) (x : String)
    (hx : x ∈ (prTypeCheck side idx ty tc).1) :
    ∃ m, x = emitD side m ∧ m.data.get? 0 = some 'e' := by
  simp only [prTypeCheck] at hx
  rcases hA : asPyStr ty with _ | s <;> simp only [hA] at hx
  · simp only [List.mem_singleton] at hx
    exact ⟨_, hx, rfl⟩
  · split at hx
    · simp only [List.mem_singleton] at hx
      exact ⟨_, hx, rfl⟩
    · simp at hx

theorem prCountDiffs_mem (side : String) (tc : String → Nat) (x : String)
    (hx : x ∈ prCountDiffs side tc) :
    ∃ m, x = emitD side m ∧ m.data.get? 0 = some 'e' := by
  simp only [prCountDiffs] at hx
  obtain ⟨t, _, hy⟩ := List.mem_flatMap.mp hx
  have he := mem_ite_singleton hy
  subst he
  exact ⟨_, rfl, rfl⟩

theorem prOrderDiff_mem (side la : String) (ia : Int) (lb : String)
    (ib : Int) (x : String) (hx : x ∈ prOrderDiff side la ia lb ib) :
    ∃ m, x = emitD side m ∧ m.data.get? 0 = some 'e' := by
  simp only [prOrderDiff] at hx
  split at hx
  · simp only [List.mem_singleton] at hx
    exact ⟨_, hx, rfl⟩
  · cases hx

theorem prFinishedDiff_mem (side : String) (blen : Int) (o : Option JObj)
    (x : String) (hx : x ∈ prFinishedDiff side blen o) :
    ∃ m, x = emitD side m ∧ m.data.get? 0 = some 'f' := by
  cases o with
  | none => cases hx
  | some fin =>
    simp only [prFinishedDiff] at hx
    rcases hA : asPyInt (pyGet fin "bytes_written_total") with _ | n <;>
      simp only [hA] at hx
    · cases hx
    · split at hx
      · simp only [List.mem_singleton] at hx
        exact ⟨_, hx, rfl⟩
      · cases hx

theorem prLoop_mem (side : String) :
    ∀ (evs : JArr) (idx : Nat) (st : PRLoopState) (x : String),
      x ∈ (prLoop side evs idx st).1 →
      ∃ m, x = emitD side m ∧
        (m.data.get? 0 = some 'e' ∨ m.data.get? 0 = some 'b')
  | .nil, idx, st, x => by
    intro hx
    simp [prLoop] at hx
  | .cons (.obj o) tl, idx, st, x => by
    intro hx
    simp only [prLoop, List.mem_append] at hx
    rcases hx with ((((h | h) | h) | h) | h) | h
    · obtain ⟨m, hm, hh⟩ := prSeqCheck_mem side idx (pyGet o "seq") st.lseq x h
      exact ⟨m, hm, Or.inl hh⟩
    · obtain ⟨m, hm, hh⟩ := prTCheck_mem side idx (pyGet o "t_us") st.lt x h
      exact ⟨m, hm, Or.inl hh⟩
    · obtain ⟨m, hm, hh⟩ := prCounterCheck_mem side "bytes_delivered_total"
        idx (pyGet o "bytes_delivered_total") st.ld x h
      rcases hh with hh | ⟨r, hr⟩
      · exact ⟨m, hm, Or.inl hh⟩
      · refine ⟨m, hm, Or.inr ?_⟩
        rw [hr]
        rfl
    · obtain ⟨m, hm, hh⟩ := prCounterCheck_mem side "bytes_written_total"
        idx (pyGet o "bytes_written_total") st.lw x h
      rcases hh with hh | ⟨r, hr⟩
      · exact ⟨m, hm, Or.inl hh⟩
      · refine ⟨m, hm, Or.inr ?_⟩
        rw [hr]
        rfl
    · obtain ⟨m, hm, hh⟩ := prTypeCheck_mem side idx (pyGet o "type") st.tc x h
      exact ⟨m, hm, Or.inl hh⟩
    · exact prLoop_mem side tl (idx + 1) _ x h
  | .cons .null tl, idx, st, x => by
    intro hx
    simp only [prLoop, List.mem_cons] at hx
    rcases hx with rfl | h
    · exact ⟨_, rfl, Or.inl rfl⟩
    · exact prLoop_mem side tl (idx + 1) st x h
  | .cons (.bool bb) tl, idx, st, x => by
    intro hx
    simp only [prLoop, List.mem_cons] at hx
    rcases hx with rfl | h
    · exact ⟨_, rfl, Or.inl rfl⟩
    · exact prLoop_mem side tl (idx + 1) st x h
  | .cons (.int nn) tl, idx, st, x => by
    intro hx
    simp only [prLoop, List.mem_cons] at hx
    rcases hx with rfl | h
    · exact ⟨_, rfl, Or.inl rfl⟩
    · exact prLoop_mem side tl (idx + 1) st x h
  | .cons (.str ss) tl, idx, st, x => by
    intro hx
    simp only [prLoop, List.mem_cons] at hx
    rcases hx with rfl | h
    · exact ⟨_, rfl, Or.inl rfl⟩
    · exact prLoop_mem side tl (idx + 1) st x h
  | .cons (.arr xs) tl, idx, st, x => by
    intro hx
    simp only [prLoop, List.mem_cons] at hx
    rcases hx with rfl | h
    · exact ⟨_, rfl, Or.inl rfl⟩
    · exact prLoop_mem side tl (idx + 1) st x h

theorem prWindowDiff_mem (side field : String) (peo rro : JObj) (x : String)
    (hx : x ∈ prWindowDiff side field peo rro) :
    x = windowDiffMsg side field (pyGet peo field) (pyGet rro field) := by
  simp only [prWindowDiff] at hx
  rcases hA : asPyInt (pyGet peo field) with _ | aa <;> simp only [hA] at hx
  · cases hx
  · rcases hB : asPyInt (pyGet rro field) with _ | bb <;> simp only [hB] at hx
    · cases hx
    · exact mem_ite_singleton hx

/-- C1: when a pause_resume_strict event list contains pause_effective
and resume_req events whose byte counter carries integers a and b, the
validator output contains the zero-delta-window diff for that counter
exactly when a and b differ. -/
theorem claim_C1_zero_delta_window (po : JObj) (side : String) (blen : Int)
    (evs : JArr) (f : String) (peo rro : JObj) (a b : Int)
    (hev : pyGet po "events" = some (.arr evs))
    (hne : evs ≠ .nil)
    (hobj : allObjEvents evs = true)
    (hf : f = "bytes_delivered_total" ∨ f = "bytes_written_total")
    (hpe : find_event evs "pause_effective" = .ok (some peo))
    (hrr : find_event evs "resume_req" = .ok (some rro))
    (ha : pyGet peo f = some (.int a))
    (hb : pyGet rro f = some (.int b)) :
    ∃ diffs, validate_pause_resume_contract (.obj po) side blen = .ok diffs ∧
      (windowDiffMsg side f (some (.int a)) (some (.int b)) ∈ diffs ↔
        a ≠ b) := by
  obtain ⟨i1, h1⟩ := indexEventLoop_ok "pause_req" evs hobj 0
  obtain ⟨i2, h2⟩ := indexEventLoop_ok "pause_effective" evs hobj 0
  obtain ⟨i3, h3⟩ := indexEventLoop_ok "resume_req" evs hobj 0
  obtain ⟨i4, h4⟩ := indexEventLoop_ok "finished" evs hobj 0
  obtain ⟨o3, hfin⟩ := find_event_ok "finished" evs hobj
  have hval := validate_shape po side blen evs i1 i2 i3 i4 (some peo)
    (some rro) o3 hev hne h1 h2 h3 h4 hpe hrr hfin
  refine ⟨_, hval, ?_, ?_⟩
  · intro hmem
    intro heq
    subst heq
    simp only [List.mem_append] at hmem
    rcases hmem with (((hm | hm) | hm) | hm) | hm
    · obtain ⟨m, hxm, hh⟩ := prLoop_mem side evs 0 _ _ hm
      have hbody := emitD_inj side _ _ hxm
      rcases hh with hh | hh <;>
        · rw [← hbody] at hh
          rw [show ("pause window " ++ f ++ " delta != 0: " ++
            pyStrO (some (.int a)) ++ " -> " ++
            pyStrO (some (.int a))).data.get? 0 = some 'p' from rfl] at hh
          injection hh with hh
          exact absurd hh (by decide)
    · obtain ⟨m, hxm, hh⟩ := prCountDiffs_mem side _ _ hm
      have hbody := emitD_inj side _ _ hxm
      rw [← hbody] at hh
      rw [show ("pause window " ++ f ++ " delta != 0: " ++
        pyStrO (some (.int a)) ++ " -> " ++
        pyStrO (some (.int a))).data.get? 0 = some 'p' from rfl] at hh
      injection hh with hh
      exact absurd hh (by decide)
    · rcases hm with (hm | hm) | hm <;>
        · obtain ⟨m, hxm, hh⟩ := prOrderDiff_mem side _ _ _ _ _ hm
          have hbody := emitD_inj side _ _ hxm
          rw [← hbody] at hh
          rw [show ("pause window " ++ f ++ " delta != 0: " ++
            pyStrO (some (.int a)) ++ " -> " ++
            pyStrO (some (.int a))).data.get? 0 = some 'p' from rfl] at hh
          injection hh with hh
          exact absurd hh (by decide)
    · simp only [windowSection, List.mem_append] at hm
      rcases hf with rfl | rfl
      · rcases hm with hm | hm
        · simp only [prWindowDiff, ha, hb, asPyInt] at hm
          rw [if_neg (by simp)] at hm
          cases hm
        · have hx := prWindowDiff_mem side "bytes_written_total" peo rro _ hm
          have hbody := emitD_inj side _ _ hx
          have h19l : ("pause window " ++ "bytes_delivered_total" ++
              " delta != 0: " ++ pyStrO (some (.int a)) ++ " -> " ++
              pyStrO (some (.int a))).data.get? 19 = some 'd' := rfl
          have h19r : ("pause window " ++ "bytes_written_total" ++
              " delta != 0: " ++ pyStrO (pyGet peo "bytes_written_total") ++
              " -> " ++
              pyStrO (pyGet rro "bytes_written_total")).data.get? 19 =
              some 'w' := rfl
          rw [hbody] at h19l
          rw [h19r] at h19l
          injection h19l with h19l
          exact absurd h19l (by decide)
      · rcases hm with hm | hm
        · have hx := prWindowDiff_mem side "bytes_delivered_total" peo rro _ hm
          have hbody := emitD_inj side _ _ hx
          have h19l : ("pause window " ++ "bytes_written_total" ++
              " delta != 0: " ++ pyStrO (some (.int a)) ++ " -> " ++
              pyStrO (some (.int a))).data.get? 19 = some 'w' := rfl
          have h19r : ("pause window " ++ "bytes_delivered_total" ++
              " delta != 0: " ++ pyStrO (pyGet peo "bytes_delivered_total") ++
              " -> " ++
              pyStrO (pyGet rro "bytes_delivered_total")).data.get? 19 =
              some 'd' := rfl
          rw [hbody] at h19l
          rw [h19r] at h19l
          injection h19l with h19l
          exact absurd h19l (by decide)
        · simp only [prWindowDiff, ha, hb, asPyInt] at hm
          rw [if_neg (by simp)] at hm
          cases hm
    · obtain ⟨m, hxm, hh⟩ := prFinishedDiff_mem side blen o3 _ hm
      have hbody := emitD_inj side _ _ hxm
      rw [← hbody] at hh
      rw [show ("pause window " ++ f ++ " delta != 0: " ++
        pyStrO (some (.int a)) ++ " -> " ++
        pyStrO (some (.int a))).data.get? 0 = some 'p' from rfl] at hh
      injection hh with hh
      exact absurd hh (by decide)
  · intro hab
    have hw : windowDiffMsg side f (some (.int a)) (some (.int b)) ∈
        windowSection side (some peo) (some rro) := by
      simp only [windowSection, List.mem_append]
      rcases hf with rfl | rfl
      · left
        simp only [prWindowDiff, ha, hb, asPyInt]
        rw [if_pos (by exact fun hc => hab hc.symm)]
        exact List.mem_singleton_self _
      · right
        simp only [prWindowDiff, ha, hb, asPyInt]
        rw [if_pos (by exact fun hc => hab hc.symm)]
        exact List.mem_singleton_self _
    simp only [List.mem_append]
    tauto

/-- Witness for C1: a five-event trace whose delivered counter moves from
100 to 109 inside the pause window; the corresponding diff is in the
output exactly because the values differ, and the message renders as the
source f-string does. -/
theorem claim_C1_zero_delta_window_witness :
    windowDiffMsg "baseline" "bytes_delivered_total" (some (.int 100))
      (some (.int 109)) =
      "baseline pause window bytes_delivered_total delta != 0: 100 -> 109" ∧
    (100 : Int) ≠ 109 ∧
    ∃ diffs, validate_pause_resume_contract
      (.obj (.ofList [("events", .arr (.ofList [
        .obj (.ofList [("seq", .int 1), ("t_us", .int 0),
          ("bytes_delivered_total", .int 0), ("bytes_written_total", .int 0),
          ("type", .str "start")]),
        .obj (.ofList [("seq", .int 2), ("t_us", .int 10),
          ("bytes_delivered_total", .int 100),
          ("bytes_written_total", .int 100), ("type", .str "pause_req")]),
        .obj (.ofList [("seq", .int 3), ("t_us", .int 20),
          ("bytes_delivered_total", .int 100),
          ("bytes_written_total", .int 100),
          ("type", .str "pause_effective")]),
        .obj (.ofList [("seq", .int 4), ("t_us", .int 30),
          ("bytes_delivered_total", .int 109),
          ("bytes_written_total", .int 100), ("type", .str "resume_req")]),
        .obj (.ofList [("seq", .int 5), ("t_us", .int 40),
          ("bytes_delivered_total", .int 500),
          ("bytes_written_total", .int 500), ("type", .str "finished")])]))]))
      "baseline" 500 = .ok diffs ∧
      (windowDiffMsg "baseline" "bytes_delivered_total" (some (.int 100))
        (some (.int 109)) ∈ diffs ↔ (100 : Int) ≠ 109) := by
  refine ⟨by rfl, by decide, ?_⟩
  exact claim_C1_zero_delta_window _ "baseline" 500 _
    "bytes_delivered_total"
    (.ofList [("seq", .int 3), ("t_us", .int 20),
      ("bytes_delivered_total", .int 100), ("bytes_written_total", .int 100),
      ("type", .str "pause_effective")])
    (.ofList [("seq", .int 4), ("t_us", .int 30),
      ("bytes_delivered_total", .int 109), ("bytes_written_total", .int 100),
      ("type", .str "resume_req")])
    100 109 rfl (by decide) (by decide) (Or.inl rfl) rfl rfl rfl rfl

/-! Self- and agreement lemmas for the comparator sections (claims C2
and C4). -/

/-- Monad laws of the Except embedding, stated for rewriting. -/
theorem except_bind_ok {α β : Type} (x : α) (f : α → Except String β) :
    (Except.ok x >>= f) = f x := rfl

theorem except_pure {α : Type} (x : α) :
    (pure x : Except String α) = Except.ok x := rfl

/-- Python equality is reflexive. -/
theorem pyEq_refl (v : JVal) : pyEq v v = true := by
  simp [pyEq]

/-- Python equality of two equal dict.get results. -/
theorem pyEqO_refl (x : Option JVal) : pyEqO x x = true := by
  cases x <;> simp [pyEqO, pyEq_refl]

/-- A flatMap all of whose pieces are empty is empty. -/
theorem flatMap_eq_nil_all {α β : Type} (l : List α) (f : α → List β)
    (h : ∀ x ∈ l, f x = []) : l.flatMap f = [] := by
  induction l with
  | nil => rfl
  | cons a tl ih =>
    rw [List.flatMap_cons, h a (by simp),
      ih (fun x hx => h x (by simp [hx]))]
    rfl

/-- _cmp_dict reports nothing when every compared field agrees. -/
theorem cmp_dict_agree (lo ro : JObj) (fields : List String)
    (h : ∀ f ∈ fields, pyEqO (pyGet lo f) (pyGet ro f) = true) :
    cmp_dict (.obj lo) (.obj ro) fields = .ok [] := by
  simp only [cmp_dict]
  exact congrArg Except.ok (flatMap_eq_nil_all _ _ fun f hf => by
    rw [h f hf]
    rfl)

/-- _cmp_dict of a dict against itself reports nothing. -/
theorem cmp_dict_self (o : JObj) (fields : List String) :
    cmp_dict (.obj o) (.obj o) fields = .ok [] :=
  cmp_dict_agree o o fields fun f _ => pyEqO_refl _

/-- Element form of the all-objects check. -/
theorem allObj_toList : ∀ (xs : JArr), allObjEvents xs = true →
    ∀ v ∈ JArr.toList xs, ∃ o, v = JVal.obj o
  | .nil, _, v, hv => absurd hv (by simp [JArr.toList])
  | .cons (.obj o) tl, h, v, hv => by
    have h2 : allObjEvents tl = true := h
    simp only [JArr.toList, List.mem_cons] at hv
    rcases hv with rfl | hv
    · exact ⟨o, rfl⟩
    · exact allObj_toList tl h2 v hv
  | .cons .null tl, h, _, _ => by simp [allObjEvents] at h
  | .cons (.bool _) tl, h, _, _ => by simp [allObjEvents] at h
  | .cons (.int _) tl, h, _, _ => by simp [allObjEvents] at h
  | .cons (.str _) tl, h, _, _ => by simp [allObjEvents] at h
  | .cons (.arr _) tl, h, _, _ => by simp [allObjEvents] at h

/-- The element loop of _cmp_list_dict over a self-zip of dicts reports
nothing. -/
theorem cmpPairs_self (fields : List String) (label : String) :
    ∀ (l : List JVal) (idx : Nat), (∀ v ∈ l, ∃ o, v = JVal.obj o) →
      cmpPairs fields label (l.zip l) idx = .ok []
  | [], _, _ => rfl
  | v :: tl, idx, h => by
    obtain ⟨o, rfl⟩ := h v (by simp)
    have ih := cmpPairs_self fields label tl (idx + 1)
      (fun w hw => h w (by simp [hw]))
    have hflat : (fields.flatMap (fun f =>
        if pyEqO (pyGet o f) (pyGet o f) then []
        else [label ++ "[" ++ toString idx ++ "]." ++ f ++ " mismatch: " ++
          pyStrO (pyGet o f) ++ " != " ++ pyStrO (pyGet o f)])) = [] :=
      flatMap_eq_nil_all _ _ fun f _ => by rw [pyEqO_refl]; rfl
    have ih2 : cmpPairs fields label (List.zipWith Prod.mk tl tl)
        (idx + 1) = Except.ok [] := ih
    simp only [List.zip_cons_cons, cmpPairs, hflat, except_bind_ok,
      except_pure, ih2]
    rfl

/-- _cmp_list_dict of a list of dicts against itself reports nothing. -/
theorem cmp_list_dict_self (xs : JArr) (fields : List String)
    (label : String) (h : allObjEvents xs = true) :
    cmp_list_dict (.arr xs) (.arr xs) fields label = .ok [] := by
  simp only [cmp_list_dict]
  rw [if_neg (fun hh => hh rfl)]
  exact cmpPairs_self fields label (JArr.toList xs) 0 (allObj_toList xs h)

/-- The raw-header fidelity loop reports nothing when presence and
values agree. -/
theorem rawOptDiffs_agree (bo qo : JObj)
    (h : ∀ opt ∈ rawOpts, JObj.hasKey bo opt = JObj.hasKey qo opt ∧
      (JObj.hasKey bo opt = true →
        pyEqO (pyGet bo opt) (pyGet qo opt) = true)) :
    rawOptDiffs bo qo = [] := by
  simp only [rawOptDiffs]
  refine flatMap_eq_nil_all _ _ fun opt hopt => ?_
  obtain ⟨h1, h2⟩ := h opt hopt
  rw [if_neg (fun hh => hh h1)]
  by_cases hb : JObj.hasKey bo opt = true
  · simp [hb, h2 hb, ← h1]
  · simp only [Bool.not_eq_true] at hb
    simp [hb]

/-- The raw-header fidelity loop on one dict twice reports nothing. -/
theorem rawOptDiffs_self (o : JObj) : rawOptDiffs o o = [] :=
  rawOptDiffs_agree o o fun _ _ => ⟨rfl, fun _ => pyEqO_refl _⟩

/-- The optional error field check on two dicts, in closed form. -/
theorem errFieldCheck_obj (bo qo : JObj) (key : String) :
    errFieldCheck (.obj bo) (.obj qo) key =
      (if JObj.hasKey bo key ≠ JObj.hasKey qo key then
        .ok (["error." ++ key ++ " missing in one side"], [])
      else if JObj.hasKey bo key && JObj.hasKey qo key then .ok ([], [key])
      else .ok ([], [])) := rfl

/-- The optional error field check of a dict against itself. -/
theorem errFieldCheck_self (o : JObj) (key : String) :
    errFieldCheck (.obj o) (.obj o) key =
      .ok ([], if JObj.hasKey o key then [key] else []) := by
  rw [errFieldCheck_obj, if_neg (fun hh => hh rfl)]
  cases hk : JObj.hasKey o key <;> simp [hk]

/-- The requests section in the singular-request shape. -/
theorem sectionRequests_single (b q : JObj)
    (hb : pyGet b "requests" = none) (hq : pyGet q "requests" = none)
    (bro qro : JObj)
    (hbr : pyGet b "request" = some (.obj bro))
    (hqr : pyGet q "request" = some (.obj qro))
    (htb : truthy (.obj bro) = true) (htq : truthy (.obj qro) = true)
    (hf : ∀ f ∈ reqFields, pyEqO (pyGet bro f) (pyGet qro f) = true) :
    sectionRequests b q = .ok [] := by
  simp only [sectionRequests, hb, hq, hbr, hqr, Option.isSome_none,
    Bool.or_self, Bool.false_eq_true, if_false, htb, htq, Bool.and_self,
    if_true]
  exact cmp_dict_agree bro qro reqFields hf

/-- The requests section in the request-list shape, against itself. -/
theorem sectionRequests_selfList (a : JObj) (xs : JArr)
    (hr : pyGet a "requests" = some (.arr xs))
    (ht : truthy (.arr xs) = true) (hobj : allObjEvents xs = true) :
    sectionRequests a a = .ok [] := by
  simp only [sectionRequests, hr, Option.isSome_some, Bool.or_self, if_true,
    ht, Bool.and_self]
  exact cmp_list_dict_self xs reqFields "requests" hobj

/-- The responses section when absent on both sides. -/
theorem sectionResponses_none (b q : JObj)
    (hb : pyGet b "responses" = none) (hq : pyGet q "responses" = none) :
    sectionResponses b q = .ok [] := by
  simp [sectionResponses, hb, hq]

/-- The responses section against itself. -/
theorem sectionResponses_selfList (a : JObj) (ys : JArr)
    (hr : pyGet a "responses" = some (.arr ys))
    (ht : truthy (.arr ys) = true) (hobj : allObjEvents ys = true) :
    sectionResponses a a = .ok [] := by
  simp only [sectionResponses, hr, Option.isSome_some, Bool.or_self, if_true,
    ht, Bool.and_self]
  exact cmp_list_dict_self ys respFields "responses" hobj

/-- The singular response section on two truthy response dicts, given
the field-comparison result. -/
theorem sectionResponse_eq (b q : JObj) (bro qro : JObj) (L : List String)
    (hb : pyGet b "response" = some (.obj bro))
    (hq : pyGet q "response" = some (.obj qro))
    (htb : truthy (.obj bro) = true) (htq : truthy (.obj qro) = true)
    (hL : cmp_dict (.obj bro) (.obj qro) respFields = .ok L) :
    sectionResponse b q = .ok (L ++ rawOptDiffs bro qro) := by
  simp only [sectionResponse, hb, hq, htb, htq, Bool.and_self, if_true, hL,
    except_bind_ok, except_pure]

/-- The cookiejar section when absent on both sides. -/
theorem sectionCookiejar_none (b q : JObj)
    (hb : pyGet b "cookiejar" = none) (hq : pyGet q "cookiejar" = none) :
    sectionCookiejar b q = .ok [] := by
  simp [sectionCookiejar, hb, hq]

/-- The cookiejar section against itself. -/
theorem sectionCookiejar_selfObj (a : JObj) (co : JObj)
    (hc : pyGet a "cookiejar" = some (.obj co))
    (ht : truthy (.obj co) = true) :
    sectionCookiejar a a = .ok [] := by
  simp only [sectionCookiejar, hc, Option.isSome_some, Bool.or_self, if_true,
    ht, Bool.and_self]
  exact cmp_dict_self co _

/-- The error section when absent on both sides. -/
theorem sectionError_none (b q : JObj)
    (hb : pyGet b "error" = none) (hq : pyGet q "error" = none) :
    sectionError b q = .ok [] := by
  simp [sectionError, hb, hq]

/-- The error section against itself. -/
theorem sectionError_selfObj (a : JObj) (eo : JObj)
    (he : pyGet a "error" = some (.obj eo)) :
    sectionError a a = .ok [] := by
  simp only [sectionError, he, Option.isSome_some, Bool.or_self, if_true,
    errFieldCheck_self, except_bind_ok, except_pure, cmp_dict_self]
  rfl

/-- One progress lane of a summary dict against itself. -/
theorem progressLane_self (po : JObj) (lane : String)
    (h : pyGet po lane = none ∨ ∃ lo, pyGet po lane = some (.obj lo)) :
    progressLane (.obj po) (.obj po) lane = .ok [] := by
  rcases h with h | ⟨lo, h⟩ <;>
    simp only [progressLane, pyGetE, h, except_bind_ok, except_pure]
  exact cmp_dict_self lo _

/-- The progress section when absent on both sides. -/
theorem sectionProgress_none (b q : JObj)
    (hb : pyGet b "progress_summary" = none)
    (hq : pyGet q "progress_summary" = none) :
    sectionProgress b q = .ok [] := by
  simp [sectionProgress, hb, hq]

/-- The progress section against itself. -/
theorem sectionProgress_selfObj (a : JObj) (po : JObj)
    (hp : pyGet a "progress_summary" = some (.obj po))
    (hd : pyGet po "download" = none ∨
      ∃ lo, pyGet po "download" = some (.obj lo))
    (hu : pyGet po "upload" = none ∨
      ∃ lo, pyGet po "upload" = some (.obj lo)) :
    sectionProgress a a = .ok [] := by
  simp only [sectionProgress, hp, Option.isSome_some, Bool.or_self, if_true,
    progressLane_self po "download" hd, progressLane_self po "upload" hu,
    except_bind_ok, except_pure]
  rfl

/-- The connection section when absent on both sides. -/
theorem sectionConnection_none (b q : JObj)
    (hb : pyGet b "connection_observed" = none)
    (hq : pyGet q "connection_observed" = none) :
    sectionConnection b q = .ok [] := by
  simp [sectionConnection, hb, hq]

/-- The connection section against itself. -/
theorem sectionConnection_selfObj (a : JObj) (co : JObj)
    (hc : pyGet a "connection_observed" = some (.obj co)) :
    sectionConnection a a = .ok [] := by
  simp only [sectionConnection, hc, Option.isSome_some, Bool.or_self,
    if_true]
  exact cmp_dict_self co _

/-- The weak pause_resume section when absent on both sides. -/
theorem sectionPauseResume_none (b q : JObj)
    (hb : pyGet b "pause_resume" = none)
    (hq : pyGet q "pause_resume" = none) :
    sectionPauseResume b q = .ok [] := by
  simp [sectionPauseResume, hb, hq]

/-- The weak pause_resume section against itself. -/
theorem sectionPauseResume_selfObj (a : JObj) (po : JObj)
    (hp : pyGet a "pause_resume" = some (.obj po)) :
    sectionPauseResume a a = .ok [] := by
  simp only [sectionPauseResume, hp, Option.isSome_some, Bool.or_self,
    if_true]
  exact cmp_dict_self po _

/-- The strict pause_resume section when absent on both sides. -/
theorem sectionPauseStrict_none (b q : JObj)
    (hb : pyGet b "pause_resume_strict" = none)
    (hq : pyGet q "pause_resume_strict" = none) :
    sectionPauseStrict b q = .ok [] := by
  simp [sectionPauseStrict, hb, hq]

/-- The strict pause_resume section against itself, when the validator
accepts the trace on both sides. -/
theorem sectionPauseStrict_self (a : JObj) (sv : JObj) (blen : Int)
    (hs : pyGet a "pause_resume_strict" = some (.obj sv))
    (hbl : bodyLenOf (pyGet a "response") = .ok blen)
    (hvb : validate_pause_resume_contract (.obj sv) "baseline" blen = .ok [])
    (hvq : validate_pause_resume_contract (.obj sv) "qcurl" blen = .ok []) :
    sectionPauseStrict a a = .ok [] := by
  simp only [sectionPauseStrict, hs, Option.isSome_some, Bool.or_self,
    if_true, cmp_dict_self, hbl, hvb, hvq, except_bind_ok, except_pure]
  rfl

/-- compare_artifacts is the concatenation of its section results. -/
theorem compare_eq_of_sections (b q : JObj) (d1 d2 d3 d4 d5 d6 d7 d8 d9 :
      List String)
    (h1 : sectionRequests b q = .ok d1)
    (h2 : sectionResponses b q = .ok d2)
    (h3 : sectionResponse b q = .ok d3)
    (h4 : sectionCookiejar b q = .ok d4)
    (h5 : sectionError b q = .ok d5)
    (h6 : sectionProgress b q = .ok d6)
    (h7 : sectionConnection b q = .ok d7)
    (h8 : sectionPauseResume b q = .ok d8)
    (h9 : sectionPauseStrict b q = .ok d9) :
    compare_artifacts (.obj b) (.obj q) =
      .ok ((d1 ++ d2 ++ d3 ++ d4 ++ d5 ++ d6 ++ d7 ++ d8 ++ d9).isEmpty,
        d1 ++ d2 ++ d3 ++ d4 ++ d5 ++ d6 ++ d7 ++ d8 ++ d9) := by
  simp only [compare_artifacts, h1, h2, h3, h4, h5, h6, h7, h8, h9,
    except_bind_ok, except_pure]

/-- claim C2 (counterexample): an artifact in the artifact shape whose
strict pause/resume section has an empty event list compares unequal to
itself — the validator emits its missing-or-empty diff on both sides, so
compare(A, A) is not (true, []). -/
theorem claim_C2_counterexample :
    compare_artifacts (.obj (.ofList [
      ("request", .obj (.ofList [("method", .str "GET")])),
      ("response", .obj (.ofList [("status", .int 200),
        ("body_len", .int 500)])),
      ("pause_resume_strict", .obj (.ofList [("schema", .int 1),
        ("events", .arr .nil)]))]))
      (.obj (.ofList [
      ("request", .obj (.ofList [("method", .str "GET")])),
      ("response", .obj (.ofList [("status", .int 200),
        ("body_len", .int 500)])),
      ("pause_resume_strict", .obj (.ofList [("schema", .int 1),
        ("events", .arr .nil)]))])) =
      .ok (false, ["baseline pause_resume_strict.events missing or empty",
        "qcurl pause_resume_strict.events missing or empty"]) ∧
    compare_artifacts (.obj (.ofList [
      ("request", .obj (.ofList [("method", .str "GET")])),
      ("response", .obj (.ofList [("status", .int 200),
        ("body_len", .int 500)])),
      ("pause_resume_strict", .obj (.ofList [("schema", .int 1),
        ("events", .arr .nil)]))]))
      (.obj (.ofList [
      ("request", .obj (.ofList [("method", .str "GET")])),
      ("response", .obj (.ofList [("status", .int 200),
        ("body_len", .int 500)])),
      ("pause_resume_strict", .obj (.ofList [("schema", .int 1),
        ("events", .arr .nil)]))])) ≠ .ok (true, []) := by
  constructor
  · rfl
  · intro h
    have h2 : (Except.ok ((false : Bool),
        ["baseline pause_resume_strict.events missing or empty",
         "qcurl pause_resume_strict.events missing or empty"]) :
        Except String (Bool × List String)) = .ok (true, []) := h
    simp at h2

/-- claim C2 (amended): compare(A, A) returns (true, []) for every
artifact whose required sections are present as truthy dicts of the
expected shape, whose optional sections are absent or dict-shaped, and
whose strict pause/resume trace (if present) passes the contract
validator on both sides. -/
theorem claim_C2_compare_self (a : JObj)
    (h1 : (pyGet a "requests" = none ∧
        ∃ ro, pyGet a "request" = some (.obj ro) ∧
          truthy (.obj ro) = true) ∨
      (∃ xs, pyGet a "requests" = some (.arr xs) ∧
        truthy (.arr xs) = true ∧ allObjEvents xs = true))
    (h2 : pyGet a "responses" = none ∨
      ∃ ys, pyGet a "responses" = some (.arr ys) ∧
        truthy (.arr ys) = true ∧ allObjEvents ys = true)
    (h3 : ∃ ro, pyGet a "response" = some (.obj ro) ∧
      truthy (.obj ro) = true)
    (h4 : pyGet a "cookiejar" = none ∨
      ∃ co, pyGet a "cookiejar" = some (.obj co) ∧ truthy (.obj co) = true)
    (h5 : pyGet a "error" = none ∨ ∃ eo, pyGet a "error" = some (.obj eo))
    (h6 : pyGet a "progress_summary" = none ∨
      ∃ po, pyGet a "progress_summary" = some (.obj po) ∧
        (pyGet po "download" = none ∨
          ∃ lo, pyGet po "download" = some (.obj lo)) ∧
        (pyGet po "upload" = none ∨
          ∃ lo, pyGet po "upload" = some (.obj lo)))
    (h7 : pyGet a "connection_observed" = none ∨
      ∃ co, pyGet a "connection_observed" = some (.obj co))
    (h8 : pyGet a "pause_resume" = none ∨
      ∃ po, pyGet a "pause_resume" = some (.obj po))
    (h9 : pyGet a "pause_resume_strict" = none ∨
      ∃ sv blen, pyGet a "pause_resume_strict" = some (.obj sv) ∧
        bodyLenOf (pyGet a "response") = .ok blen ∧
        validate_pause_resume_contract (.obj sv) "baseline" blen = .ok [] ∧
        validate_pause_resume_contract (.obj sv) "qcurl" blen = .ok []) :
    compare_artifacts (.obj a) (.obj a) = .ok (true, []) := by
  have s1 : sectionRequests a a = .ok [] := by
    rcases h1 with ⟨hn, ro, hr, ht⟩ | ⟨xs, hr, ht, hobj⟩
    · exact sectionRequests_single a a hn hn ro ro hr hr ht ht
        (fun f _ => pyEqO_refl _)
    · exact sectionRequests_selfList a xs hr ht hobj
  have s2 : sectionResponses a a = .ok [] := by
    rcases h2 with hn | ⟨ys, hr, ht, hobj⟩
    · exact sectionResponses_none a a hn hn
    · exact sectionResponses_selfList a ys hr ht hobj
  have s3 : sectionResponse a a = .ok [] := by
    obtain ⟨ro, hr, ht⟩ := h3
    have := sectionResponse_eq a a ro ro [] hr hr ht ht (cmp_dict_self ro _)
    rwa [rawOptDiffs_self, List.append_nil] at this
  have s4 : sectionCookiejar a a = .ok [] := by
    rcases h4 with hn | ⟨co, hc, ht⟩
    · exact sectionCookiejar_none a a hn hn
    · exact sectionCookiejar_selfObj a co hc ht
  have s5 : sectionError a a = .ok [] := by
    rcases h5 with hn | ⟨eo, he⟩
    · exact sectionError_none a a hn hn
    · exact sectionError_selfObj a eo he
  have s6 : sectionProgress a a = .ok [] := by
    rcases h6 with hn | ⟨po, hp, hd, hu⟩
    · exact sectionProgress_none a a hn hn
    · exact sectionProgress_selfObj a po hp hd hu
  have s7 : sectionConnection a a = .ok [] := by
    rcases h7 with hn | ⟨co, hc⟩
    · exact sectionConnection_none a a hn hn
    · exact sectionConnection_selfObj a co hc
  have s8 : sectionPauseResume a a = .ok [] := by
    rcases h8 with hn | ⟨po, hp⟩
    · exact sectionPauseResume_none a a hn hn
    · exact sectionPauseResume_selfObj a po hp
  have s9 : sectionPauseStrict a a = .ok [] := by
    rcases h9 with hn | ⟨sv, blen, hs, hbl, hvb, hvq⟩
    · exact sectionPauseStrict_none a a hn hn
    · exact sectionPauseStrict_self a sv blen hs hbl hvb hvq
  exact compare_eq_of_sections a a [] [] [] [] [] [] [] [] []
    s1 s2 s3 s4 s5 s6 s7 s8 s9

/-- Witness for the amended C2: a full artifact with a request summary, a
response summary, and a strict pause/resume trace accepted by the
validator compares equal to itself. -/
theorem claim_C2_compare_self_witness :
    compare_artifacts (.obj (.ofList [
      ("request", .obj (.ofList [("method", .str "GET"), ("url", .str "/file"),
        ("body_len", .int 0)])),
      ("response", .obj (.ofList [("status", .int 200), ("http_version", .str "2"),
        ("body_len", .int 500)])),
      ("pause_resume_strict", .obj (.ofList [("schema", .int 1), ("proto", .str "h2"),
      ("events", .arr (.ofList [.obj (.ofList [("seq", .int 1), ("t_us", .int 0),
          ("bytes_delivered_total", .int 0),
          ("bytes_written_total", .int 0), ("type", .str "start")]),
        .obj (.ofList [("seq", .int 2), ("t_us", .int 10),
          ("bytes_delivered_total", .int 100),
          ("bytes_written_total", .int 100), ("type", .str "pause_req")]),
        .obj (.ofList [("seq", .int 3), ("t_us", .int 20),
          ("bytes_delivered_total", .int 100),
          ("bytes_written_total", .int 100), ("type", .str "pause_effective")]),
        .obj (.ofList [("seq", .int 4), ("t_us", .int 30),
          ("bytes_delivered_total", .int 100),
          ("bytes_written_total", .int 100), ("type", .str "resume_req")]),
        .obj (.ofList [("seq", .int 5), ("t_us", .int 40),
          ("bytes_delivered_total", .int 500),
          ("bytes_written_total", .int 500), ("type", .str "finished")])]))]))]))
      (.obj (.ofList [
      ("request", .obj (.ofList [("method", .str "GET"), ("url", .str "/file"),
        ("body_len", .int 0)])),
      ("response", .obj (.ofList [("status", .int 200), ("http_version", .str "2"),
        ("body_len", .int 500)])),
      ("pause_resume_strict", .obj (.ofList [("schema", .int 1), ("proto", .str "h2"),
      ("events", .arr (.ofList [.obj (.ofList [("seq", .int 1), ("t_us", .int 0),
          ("bytes_delivered_total", .int 0),
          ("bytes_written_total", .int 0), ("type", .str "start")]),
        .obj (.ofList [("seq", .int 2), ("t_us", .int 10),
          ("bytes_delivered_total", .int 100),
          ("bytes_written_total", .int 100), ("type", .str "pause_req")]),
        .obj (.ofList [("seq", .int 3), ("t_us", .int 20),
          ("bytes_delivered_total", .int 100),
          ("bytes_written_total", .int 100), ("type", .str "pause_effective")]),
        .obj (.ofList [("seq", .int 4), ("t_us", .int 30),
          ("bytes_delivered_total", .int 100),
          ("bytes_written_total", .int 100), ("type", .str "resume_req")]),
        .obj (.ofList [("seq", .int 5), ("t_us", .int 40),
          ("bytes_delivered_total", .int 500),
          ("bytes_written_total", .int 500), ("type", .str "finished")])]))]))])) = .ok (true, []) := by
  exact claim_C2_compare_self _
    (Or.inl ⟨rfl, (.ofList [("method", .str "GET"), ("url", .str "/file"),
        ("body_len", .int 0)]), rfl, rfl⟩)
    (Or.inl rfl)
    ⟨(.ofList [("status", .int 200), ("http_version", .str "2"),
        ("body_len", .int 500)]), rfl, rfl⟩
    (Or.inl rfl) (Or.inl rfl) (Or.inl rfl) (Or.inl rfl) (Or.inl rfl)
    (Or.inr ⟨(.ofList [("schema", .int 1), ("proto", .str "h2"),
      ("events", .arr (.ofList [.obj (.ofList [("seq", .int 1), ("t_us", .int 0),
          ("bytes_delivered_total", .int 0),
          ("bytes_written_total", .int 0), ("type", .str "start")]),
        .obj (.ofList [("seq", .int 2), ("t_us", .int 10),
          ("bytes_delivered_total", .int 100),
          ("bytes_written_total", .int 100), ("type", .str "pause_req")]),
        .obj (.ofList [("seq", .int 3), ("t_us", .int 20),
          ("bytes_delivered_total", .int 100),
          ("bytes_written_total", .int 100), ("type", .str "pause_effective")]),
        .obj (.ofList [("seq", .int 4), ("t_us", .int 30),
          ("bytes_delivered_total", .int 100),
          ("bytes_written_total", .int 100), ("type", .str "resume_req")]),
        .obj (.ofList [("seq", .int 5), ("t_us", .int 40),
          ("bytes_delivered_total", .int 500),
          ("bytes_written_total", .int 500), ("type", .str "finished")])]))]), 500, rfl, rfl, rfl, rfl⟩)

/-- _cmp_dict over the response fields when only body_len differs, with
the two concrete lengths of the spec example. -/
theorem cmp_dict_respFields_bodyLen (bro qro : JObj)
    (hs : pyEqO (pyGet bro "status") (pyGet qro "status") = true)
    (hv : pyEqO (pyGet bro "http_version")
      (pyGet qro "http_version") = true)
    (hh : pyEqO (pyGet bro "headers") (pyGet qro "headers") = true)
    (hb1 : pyGet bro "body_len" = some (.int 1048576))
    (hq1 : pyGet qro "body_len" = some (.int 1048575))
    (hsha : pyEqO (pyGet bro "body_sha256")
      (pyGet qro "body_sha256") = true) :
    cmp_dict (.obj bro) (.obj qro) respFields =
      .ok ["body_len mismatch: 1048576 != 1048575"] := by
  simp only [cmp_dict, respFields, List.flatMap_cons, List.flatMap_nil]
  rw [hs, hv, hh, hsha, hb1, hq1]
  rfl

/-- claim C4 (counterexample): on the spec example pair the comparator
reports exactly one diff, but its text is "body_len mismatch: 1048576 !=
1048575" — _cmp_dict prefixes no section name, so the claimed string
"response.body_len mismatch: ..." is not among the diffs. -/
theorem claim_C4_counterexample :
    compare_artifacts (.obj (.ofList [
      ("request", .obj (.ofList [("method", .str "GET"),
        ("url", .str "/file"), ("body_len", .int 0)])),
      ("response", .obj (.ofList [("status", .int 200),
        ("http_version", .str "2"),
        ("headers", .arr (.ofList [.str "content-type: text/plain"])),
        ("body_len", .int 1048576), ("body_sha256", .str "ab12cd")]))]))
      (.obj (.ofList [
      ("request", .obj (.ofList [("method", .str "GET"),
        ("url", .str "/file"), ("body_len", .int 0)])),
      ("response", .obj (.ofList [("status", .int 200),
        ("http_version", .str "2"),
        ("headers", .arr (.ofList [.str "content-type: text/plain"])),
        ("body_len", .int 1048575), ("body_sha256", .str "ab12cd")]))])) =
      .ok (false, ["body_len mismatch: 1048576 != 1048575"]) ∧
    "response.body_len mismatch: 1048576 != 1048575" ∉
      ["body_len mismatch: 1048576 != 1048575"] := by
  exact ⟨rfl, by decide⟩

/-- claim C4 (amended): for every pair of artifacts that agree on all
compared fields except that the baseline response has body_len 1048576
and the candidate 1048575, compare returns exactly one diff, and that
diff string is "body_len mismatch: 1048576 != 1048575" (the section name
is not part of the message). -/
theorem claim_C4_single_body_len_diff (b q : JObj) (bro qro : JObj)
    (hbr : pyGet b "response" = some (.obj bro))
    (hqr : pyGet q "response" = some (.obj qro))
    (htb : truthy (.obj bro) = true) (htq : truthy (.obj qro) = true)
    (hs : pyEqO (pyGet bro "status") (pyGet qro "status") = true)
    (hv : pyEqO (pyGet bro "http_version")
      (pyGet qro "http_version") = true)
    (hh : pyEqO (pyGet bro "headers") (pyGet qro "headers") = true)
    (hb1 : pyGet bro "body_len" = some (.int 1048576))
    (hq1 : pyGet qro "body_len" = some (.int 1048575))
    (hsha : pyEqO (pyGet bro "body_sha256")
      (pyGet qro "body_sha256") = true)
    (hraw : ∀ opt ∈ rawOpts, JObj.hasKey bro opt = JObj.hasKey qro opt ∧
      (JObj.hasKey bro opt = true →
        pyEqO (pyGet bro opt) (pyGet qro opt) = true))
    (hreq : (pyGet b "requests" = none ∧ pyGet q "requests" = none) ∧
      ∃ bo qo, pyGet b "request" = some (.obj bo) ∧
        pyGet q "request" = some (.obj qo) ∧
        truthy (.obj bo) = true ∧ truthy (.obj qo) = true ∧
        ∀ f ∈ reqFields, pyEqO (pyGet bo f) (pyGet qo f) = true)
    (hopt : (pyGet b "responses" = none ∧ pyGet q "responses" = none) ∧
      (pyGet b "cookiejar" = none ∧ pyGet q "cookiejar" = none) ∧
      (pyGet b "error" = none ∧ pyGet q "error" = none) ∧
      (pyGet b "progress_summary" = none ∧
        pyGet q "progress_summary" = none) ∧
      (pyGet b "connection_observed" = none ∧
        pyGet q "connection_observed" = none) ∧
      (pyGet b "pause_resume" = none ∧ pyGet q "pause_resume" = none) ∧
      (pyGet b "pause_resume_strict" = none ∧
        pyGet q "pause_resume_strict" = none)) :
    compare_artifacts (.obj b) (.obj q) =
      .ok (false, ["body_len mismatch: 1048576 != 1048575"]) := by
  obtain ⟨⟨hrn_b, hrn_q⟩, bo, qo, hbo, hqo, htbo, htqo, hfs⟩ := hreq
  obtain ⟨⟨o1b, o1q⟩, ⟨o2b, o2q⟩, ⟨o3b, o3q⟩, ⟨o4b, o4q⟩, ⟨o5b, o5q⟩,
    ⟨o6b, o6q⟩, ⟨o7b, o7q⟩⟩ := hopt
  have s1 : sectionRequests b q = .ok [] :=
    sectionRequests_single b q hrn_b hrn_q bo qo hbo hqo htbo htqo hfs
  have s3 : sectionResponse b q =
      .ok ["body_len mismatch: 1048576 != 1048575"] := by
    have := sectionResponse_eq b q bro qro
      ["body_len mismatch: 1048576 != 1048575"] hbr hqr htb htq
      (cmp_dict_respFields_bodyLen bro qro hs hv hh hb1 hq1 hsha)
    rwa [rawOptDiffs_agree bro qro hraw, List.append_nil] at this
  exact compare_eq_of_sections b q [] []
    ["body_len mismatch: 1048576 != 1048575"] [] [] [] [] [] []
    s1 (sectionResponses_none b q o1b o1q) s3
    (sectionCookiejar_none b q o2b o2q) (sectionError_none b q o3b o3q)
    (sectionProgress_none b q o4b o4q)
    (sectionConnection_none b q o5b o5q)
    (sectionPauseResume_none b q o6b o6q)
    (sectionPauseStrict_none b q o7b o7q)

/-- Witness for the amended C4 on the concrete spec example pair. -/
theorem claim_C4_single_body_len_diff_witness :
    compare_artifacts (.obj (.ofList [
      ("request", .obj (.ofList [("method", .str "GET"),
        ("url", .str "/file"), ("body_len", .int 0)])),
      ("response", .obj (.ofList [("status", .int 200),
        ("http_version", .str "2"),
        ("headers", .arr (.ofList [.str "content-type: text/plain"])),
        ("body_len", .int 1048576), ("body_sha256", .str "ab12cd")]))]))
      (.obj (.ofList [
      ("request", .obj (.ofList [("method", .str "GET"),
        ("url", .str "/file"), ("body_len", .int 0)])),
      ("response", .obj (.ofList [("status", .int 200),
        ("http_version", .str "2"),
        ("headers", .arr (.ofList [.str "content-type: text/plain"])),
        ("body_len", .int 1048575), ("body_sha256", .str "ab12cd")]))])) =
      .ok (false, ["body_len mismatch: 1048576 != 1048575"]) := by
  exact claim_C4_single_body_len_diff _ _ _ _ rfl rfl rfl rfl
    (by decide) (by decide) (by decide) rfl rfl (by decide)
    (by decide)
    ⟨⟨rfl, rfl⟩, _, _, rfl, rfl, rfl, rfl, by decide⟩
    ⟨⟨rfl, rfl⟩, ⟨rfl, rfl⟩, ⟨rfl, rfl⟩, ⟨rfl, rfl⟩, ⟨rfl, rfl⟩,
      ⟨rfl, rfl⟩, ⟨rfl, rfl⟩⟩

/-! urlsplit on well-formed inputs (claim C9). -/

/-- split(sep, 1) without an occurrence returns the whole string. -/
theorem pySplitOnce_no_sep (sep : Char) :
    ∀ l : List Char, sep ∉ l → pySplitOnce sep l = [l]
  | [], _ => rfl
  | c :: r, h => by
    have hc : ¬(c = sep) := fun hh => h (by simp [hh])
    have hr := pySplitOnce_no_sep sep r (fun hh => h (by simp [hh]))
    simp only [pySplitOnce, if_neg hc, hr]

/-- split(sep, 1) at the first occurrence. -/
theorem pySplitOnce_found (sep : Char) :
    ∀ a b : List Char, sep ∉ a → pySplitOnce sep (a ++ sep :: b) = [a, b]
  | [], b, _ => by simp [pySplitOnce]
  | c :: a, b, h => by
    have hc : ¬(c = sep) := fun hh => h (by simp [hh])
    have hr := pySplitOnce_found sep a b (fun hh => h (by simp [hh]))
    simp only [List.cons_append, pySplitOnce, if_neg hc, List.append_eq, hr]

/-- Inversion for split(sep, 1). -/
theorem pySplitOnce_inv (sep : Char) :
    ∀ l : List Char, (pySplitOnce sep l = [l] ∧ sep ∉ l) ∨
      (∃ a b, pySplitOnce sep l = [a, b] ∧ l = a ++ sep :: b ∧ sep ∉ a)
  | [] => Or.inl ⟨rfl, by simp⟩
  | c :: r => by
    by_cases hc : c = sep
    · subst hc
      exact Or.inr ⟨[], r, by simp [pySplitOnce], rfl, by simp⟩
    · rcases pySplitOnce_inv sep r with ⟨hr, hmem⟩ | ⟨a, b, hr, hl, hmem⟩
      · refine Or.inl ⟨?_, by simp [hc, hmem, Ne.symm]⟩
        · simp only [pySplitOnce, if_neg hc, hr]
      · refine Or.inr ⟨c :: a, b, ?_, by simp [hl], ?_⟩
        · simp only [pySplitOnce, if_neg hc, hr]
        · simp only [List.mem_cons, not_or]
          exact ⟨fun hh => hc hh.symm, hmem⟩

/-- The unsafe-byte filter is the identity on clean characters. -/
theorem filter_clean (l : List Char)
    (h : ∀ x ∈ l, isUnsafeUrlByte x = false) :
    l.filter (fun c => !isUnsafeUrlByte c) = l :=
  List.filter_eq_self.mpr fun a ha => by rw [h a ha]; rfl

/-- _splitnetloc consumes exactly the delimiter-free prefix. -/
theorem splitnetloc_append :
    ∀ n r : List Char, (∀ x ∈ n, (x = '/' || x = '?' || x = '#') = false) →
      (∀ c t, r = c :: t → (c = '/' || c = '?' || c = '#') = true) →
      splitnetloc (n ++ r) = (n, r)
  | [], r, _, hr => by
    cases r with
    | nil => rfl
    | cons c t => simp [splitnetloc, hr c t rfl]
  | x :: n, r, hn, hr => by
    have hx : (x = '/' || x = '?' || x = '#') = false := hn x (by simp)
    have ih := splitnetloc_append n r (fun y hy => hn y (by simp [hy])) hr
    simp only [List.cons_append, splitnetloc, hx, Bool.false_eq_true,
      if_false, List.append_eq, ih]

/-- A URL beginning with a slash has no scheme. -/
theorem detectScheme_slash (t : List Char) :
    detectScheme ('/' :: t) = none := by
  rcases pySplitOnce_inv ':' ('/' :: t) with ⟨hr, _⟩ | ⟨a, b, hr, hl, _⟩
  · simp [detectScheme, hr]
  · cases a with
    | nil =>
      rw [List.nil_append] at hl
      injection hl with h1 h2
      exact absurd h1 (by decide)
    | cons a0 a1 =>
      have ha0 : a0 = '/' := by
        have h2 := congrArg List.head? hl
        simpa using h2.symm
      have hna : isAsciiAlpha a0 = false := by rw [ha0]; decide
      simp [detectScheme, hr, hna]

/-- The scheme detector on a well-formed scheme prefix. -/
theorem detectScheme_scheme (c : Char) (cs rest : List Char)
    (hc : isAsciiAlpha c = true)
    (hcs : ∀ x ∈ c :: cs, isSchemeChar x = true) :
    detectScheme ((c :: cs) ++ ':' :: rest) = some (c :: cs, rest) := by
  have hno : ':' ∉ c :: cs := fun hx =>
    absurd (hcs ':' hx) (by decide)
  have hsp : pySplitOnce ':' (c :: (cs ++ ':' :: rest)) = [c :: cs, rest] :=
    by simpa using pySplitOnce_found ':' (c :: cs) rest hno
  simp [detectScheme, hsp, hc]
  exact ⟨hcs c (by simp), fun x hx => hcs x (List.mem_cons_of_mem c hx)⟩

/-- urlsplit of a well-formed absolute URL recovers the components. -/
theorem urlsplit_assembled (c : Char) (cs nd pd qd fd pt : List Char)
    (hc : isAsciiAlpha c = true)
    (hcs : ∀ x ∈ c :: cs, isSchemeChar x = true)
    (hnet : ∀ x ∈ nd, (x = '/' || x = '?' || x = '#') = false)
    (hbl : '[' ∉ nd) (hbrr : ']' ∉ nd)
    (hpd : pd = '/' :: pt)
    (hpq : '?' ∉ pd) (hph : '#' ∉ pd) (hqh : '#' ∉ qd)
    (hclean : ∀ x ∈ (c :: cs) ++ ':' :: '/' :: '/' ::
        (nd ++ (pd ++ '?' :: qd ++ '#' :: fd)),
      isUnsafeUrlByte x = false) :
    urlsplit ⟨(c :: cs) ++ ':' :: '/' :: '/' ::
        (nd ++ (pd ++ '?' :: qd ++ '#' :: fd))⟩ =
      .ok ⟨⟨(c :: cs).map lowerAscii⟩, ⟨nd⟩, ⟨pd⟩, ⟨qd⟩, ⟨fd⟩⟩ := by
  have hfl := filter_clean _ hclean
  have hds := detectScheme_scheme c cs
    ('/' :: '/' :: (nd ++ (pd ++ '?' :: qd ++ '#' :: fd))) hc hcs
  have hsn := splitnetloc_append nd (pd ++ '?' :: qd ++ '#' :: fd) hnet
    (fun c2 t hct => by
      rw [hpd, List.cons_append] at hct
      injection hct with h1 _
      rw [← h1]
      decide)
  have hre : pd ++ '?' :: qd ++ '#' :: fd =
      (pd ++ '?' :: qd) ++ '#' :: fd := by
    rw [List.append_assoc]
  have hfr := pySplitOnce_found '#' (pd ++ '?' :: qd) fd (by
    intro hx
    rcases List.mem_append.mp hx with hx | hx
    · exact hph hx
    · rcases List.mem_cons.mp hx with hx | hx
      · exact absurd hx (by decide)
      · exact hqh hx)
  have hqs := pySplitOnce_found '?' pd qd hpq
  simp only [urlsplit, hfl, hds, hsn, hre, hfr, hqs, hbl, hbrr,
    checknetloc, except_bind_ok, except_pure]
  rfl

/-- urlsplit of a host-relative path-and-query URL. -/
theorem urlsplit_relative (pd qd pt : List Char)
    (hpd : pd = '/' :: pt)
    (hss : ∀ t, pd ≠ '/' :: '/' :: t)
    (hpq : '?' ∉ pd) (hph : '#' ∉ pd) (hqh : '#' ∉ qd)
    (hclean : ∀ x ∈ pd ++ '?' :: qd, isUnsafeUrlByte x = false) :
    urlsplit ⟨pd ++ '?' :: qd⟩ = .ok ⟨"", "", ⟨pd⟩, ⟨qd⟩, ""⟩ := by
  have hfl := filter_clean _ hclean
  have hds : detectScheme (pd ++ '?' :: qd) = none := by
    rw [hpd, List.cons_append]
    exact detectScheme_slash _
  have hfr : pySplitOnce '#' (pd ++ '?' :: qd) = [pd ++ '?' :: qd] := by
    refine pySplitOnce_no_sep '#' _ fun hx => ?_
    rcases List.mem_append.mp hx with hx | hx
    · exact hph hx
    · rcases List.mem_cons.mp hx with hx | hx
      · exact absurd hx (by decide)
      · exact hqh hx
  have hqs := pySplitOnce_found '?' pd qd hpq
  subst hpd
  cases pt with
  | nil =>
    simp only [urlsplit, hfl, hds, hfr, hqs, checknetloc, except_bind_ok,
      except_pure]
    rfl
  | cons p2 pt2 =>
    have hp2 : ¬(p2 = '/') := fun hh => hss pt2 (by rw [hh])
    simp only [urlsplit, hfl, hds, checknetloc, except_bind_ok,
      except_pure]
    split
    next rest heq =>
      exfalso
      simp only [hfl, hds, List.cons_append, List.cons.injEq,
        true_and] at heq
      try exact hp2 heq.1
    next =>
      simp only [hfr, hqs, except_bind_ok, except_pure]
      try rfl

/-- The output of _strip_query_id is built from the path and the
re-encoded id-free query alone: urlunsplit is called with empty scheme,
netloc and fragment, and (CPython 3.11) re-adds none of them. -/
theorem strip_result_form (url : String) (parts : SplitResult)
    (h : urlsplit url = .ok parts) :
    strip_query_id url = .ok
      (if urlencodeDoseq (popKey "id" (parse_qs true parts.query)) = ""
        then parts.path
        else parts.path ++ "?" ++
          urlencodeDoseq (popKey "id" (parse_qs true parts.query))) := by
  simp only [strip_query_id, h, except_bind_ok, except_pure]
  congr 1
  by_cases he : urlencodeDoseq (popKey "id" (parse_qs true parts.query)) = ""
  · simp [urlunsplit, he]
  · simp [urlunsplit, he]

/-- Scheme characters are never removed by the unsafe-byte filter. -/
theorem isSchemeChar_clean (x : Char) (h : isSchemeChar x = true) :
    isUnsafeUrlByte x = false := by
  by_contra hx
  simp only [Bool.not_eq_false, isUnsafeUrlByte, Bool.or_eq_true,
    decide_eq_true_eq] at hx
  rcases hx with (rfl | rfl) | rfl <;> exact absurd h (by decide)

/-- claim C9: _strip_query_id keeps only the path and the remaining
query: for every well-formed absolute URL, stripping it gives the same
result as stripping its host-relative part, and that result is the path
alone (empty re-encoded query) or path?query — the scheme, the network
location and the fragment are always dropped. -/
theorem claim_C9_host_relative (scheme netloc path query fragment : String)
    (c : Char) (cs : List Char)
    (hsd : scheme.data = c :: cs)
    (hc : isAsciiAlpha c = true)
    (hcs : ∀ x ∈ scheme.data, isSchemeChar x = true)
    (hnet1 : ∀ x ∈ netloc.data, (x = '/' || x = '?' || x = '#') = false)
    (hnet2 : '[' ∉ netloc.data) (hnet3 : ']' ∉ netloc.data)
    (hnet4 : ∀ x ∈ netloc.data, isUnsafeUrlByte x = false)
    (pt : List Char) (hpd : path.data = '/' :: pt)
    (hss : ∀ t, path.data ≠ '/' :: '/' :: t)
    (hpq : '?' ∉ path.data) (hph : '#' ∉ path.data)
    (hpc : ∀ x ∈ path.data, isUnsafeUrlByte x = false)
    (hqh : '#' ∉ query.data)
    (hqc : ∀ x ∈ query.data, isUnsafeUrlByte x = false)
    (hfc : ∀ x ∈ fragment.data, isUnsafeUrlByte x = false) :
    strip_query_id (scheme ++ "://" ++ netloc ++ path ++ "?" ++ query ++
        "#" ++ fragment) =
      strip_query_id (path ++ "?" ++ query) ∧
    strip_query_id (path ++ "?" ++ query) = .ok
      (if urlencodeDoseq (popKey "id" (parse_qs true query)) = "" then path
       else path ++ "?" ++
         urlencodeDoseq (popKey "id" (parse_qs true query))) := by
  have hcs2 : ∀ x ∈ c :: cs, isSchemeChar x = true := hsd ▸ hcs
  have habs : scheme ++ "://" ++ netloc ++ path ++ "?" ++ query ++ "#" ++
      fragment = ⟨(c :: cs) ++ ':' :: '/' :: '/' ::
        (netloc.data ++ (path.data ++ '?' :: query.data ++ '#' ::
          fragment.data))⟩ := by
    apply string_data_inj
    simp [str_append_data, hsd, List.append_assoc]
  have hrel : path ++ "?" ++ query = ⟨path.data ++ '?' :: query.data⟩ := by
    apply string_data_inj
    simp [str_append_data, List.append_assoc]
  have hcleanA : ∀ x ∈ (c :: cs) ++ ':' :: '/' :: '/' ::
      (netloc.data ++ (path.data ++ '?' :: query.data ++ '#' ::
        fragment.data)), isUnsafeUrlByte x = false := by
    intro x hx
    rcases List.mem_append.mp hx with hx | hx
    · exact isSchemeChar_clean x (hcs2 x hx)
    · rcases List.mem_cons.mp hx with rfl | hx
      · decide
      · rcases List.mem_cons.mp hx with rfl | hx
        · decide
        · rcases List.mem_cons.mp hx with rfl | hx
          · decide
          · rcases List.mem_append.mp hx with hx | hx
            · exact hnet4 x hx
            · rcases List.mem_append.mp hx with hx | hx
              · rcases List.mem_append.mp hx with hx | hx
                · exact hpc x hx
                · rcases List.mem_cons.mp hx with rfl | hx
                  · decide
                  · exact hqc x hx
              · rcases List.mem_cons.mp hx with rfl | hx
                · decide
                · exact hfc x hx
  have hcleanR : ∀ x ∈ path.data ++ '?' :: query.data,
      isUnsafeUrlByte x = false := by
    intro x hx
    rcases List.mem_append.mp hx with hx | hx
    · exact hpc x hx
    · rcases List.mem_cons.mp hx with rfl | hx
      · decide
      · exact hqc x hx
  have h1 := urlsplit_assembled c cs netloc.data path.data query.data
    fragment.data pt hc hcs2 hnet1 hnet2 hnet3 hpd hpq hph hqh hcleanA
  have h2 := urlsplit_relative path.data query.data pt hpd hss hpq hph hqh
    hcleanR
  have hA := strip_result_form _ _ h1
  have hB := strip_result_form _ _ h2
  rw [habs, hrel]
  exact ⟨hA.trans hB.symm, hB⟩

/-- Witness for C9: stripping http://h:8080/p?id=abc&a=1#frag equals
stripping /p?id=abc&a=1, and both give /p?a=1 — host, port, scheme and
fragment are gone. -/
theorem claim_C9_host_relative_witness :
    (strip_query_id ("http" ++ "://" ++ "h:8080" ++ "/p" ++ "?" ++
        "id=abc&a=1" ++ "#" ++ "frag") =
      strip_query_id ("/p" ++ "?" ++ "id=abc&a=1") ∧
    strip_query_id ("/p" ++ "?" ++ "id=abc&a=1") = .ok
      (if urlencodeDoseq (popKey "id" (parse_qs true "id=abc&a=1")) = ""
        then "/p"
        else "/p" ++ "?" ++
          urlencodeDoseq (popKey "id" (parse_qs true "id=abc&a=1")))) ∧
    strip_query_id "http://h:8080/p?id=abc&a=1#frag" = .ok "/p?a=1" := by
  refine ⟨?_, by rfl⟩
  exact claim_C9_host_relative "http" "h:8080" "/p" "id=abc&a=1" "frag"
    'h' ['t', 't', 'p'] rfl (by decide) (by decide) (by decide) (by decide)
    (by decide) (by decide) ['p'] rfl (by intro t h; simp at h)
    (by decide) (by decide) (by decide) (by decide) (by decide) (by decide)

/-! Roundtrip of the UTF-8 codec (claim C7). -/

/-- Char.ofNat recovers the code point for a valid scalar value. -/
theorem char_toNat_ofNat (n : Nat) (h : n.isValidChar) :
    (Char.ofNat n).toNat = n := by
  unfold Char.ofNat
  rw [dif_pos h]
  unfold Char.ofNatAux Char.toNat
  simp [UInt32.toNat, BitVec.toNat_ofNatLt]

/-- The lead classifier on an ASCII byte. -/
theorem utf8Lead_ascii (b : Nat) (h : b < 0x80) :
    utf8Lead b = ([Char.ofNat b], none) := by
  simp only [utf8Lead, if_pos h]

/-- The lead classifier on a two-byte lead. -/
theorem utf8Lead_two (b : Nat) (h1 : 0xC2 ≤ b) (h2 : b ≤ 0xDF) :
    utf8Lead b = ([], some ⟨b - 0xC0, 1, 0x80, 0xBF⟩) := by
  simp only [utf8Lead]
  rw [if_neg (by omega), if_pos (by
    simp only [Bool.and_eq_true, decide_eq_true_eq]
    omega)]

/-- The lead classifier on a generic three-byte lead. -/
theorem utf8Lead_three (b : Nat) (h1 : 0xE1 ≤ b) (h2 : b ≤ 0xEC) :
    utf8Lead b = ([], some ⟨b - 0xE0, 2, 0x80, 0xBF⟩) := by
  simp only [utf8Lead]
  rw [if_neg (by omega), if_neg (by
      simp only [Bool.and_eq_true, decide_eq_true_eq]
      omega),
    if_neg (by omega), if_pos (by
      simp only [Bool.and_eq_true, decide_eq_true_eq]
      omega)]

/-- The lead classifier on the EE and EF leads. -/
theorem utf8Lead_ee (b : Nat) (h1 : 0xEE ≤ b) (h2 : b ≤ 0xEF) :
    utf8Lead b = ([], some ⟨b - 0xE0, 2, 0x80, 0xBF⟩) := by
  simp only [utf8Lead]
  rw [if_neg (by omega), if_neg (by
      simp only [Bool.and_eq_true, decide_eq_true_eq]
      omega),
    if_neg (by omega), if_neg (by
      simp only [Bool.and_eq_true, decide_eq_true_eq]
      omega),
    if_neg (by omega), if_pos (by
      simp only [Bool.and_eq_true, decide_eq_true_eq]
      omega)]

/-- The lead classifier on the F1 to F3 leads. -/
theorem utf8Lead_f1 (b : Nat) (h1 : 0xF1 ≤ b) (h2 : b ≤ 0xF3) :
    utf8Lead b = ([], some ⟨b - 0xF0, 3, 0x80, 0xBF⟩) := by
  simp only [utf8Lead]
  rw [if_neg (by omega), if_neg (by
      simp only [Bool.and_eq_true, decide_eq_true_eq]
      omega),
    if_neg (by omega), if_neg (by
      simp only [Bool.and_eq_true, decide_eq_true_eq]
      omega),
    if_neg (by omega), if_neg (by
      simp only [Bool.and_eq_true, decide_eq_true_eq]
      omega),
    if_neg (by omega), if_pos (by
      simp only [Bool.and_eq_true, decide_eq_true_eq]
      omega)]

/-- One step of the decoder from the neutral state. -/
theorem utf8Loop_none_cons (b : Nat) (r : List Nat) :
    utf8Loop none (b :: r) = (utf8Lead b).1 ++ utf8Loop (utf8Lead b).2 r :=
  rfl

/-- An ASCII byte in lead position emits its character. -/
theorem utf8Loop_step_ascii (b : Nat) (r : List Nat) (h : b < 0x80) :
    utf8Loop none (b :: r) = Char.ofNat b :: utf8Loop none r := by
  rw [utf8Loop_none_cons, utf8Lead_ascii b h]
  rfl

/-- A multi-byte lead opens its decoder state. -/
theorem utf8Loop_step_lead (b : Nat) (st : Utf8State) (r : List Nat)
    (h : utf8Lead b = ([], some st)) :
    utf8Loop none (b :: r) = utf8Loop (some st) r := by
  rw [utf8Loop_none_cons, h]
  rfl

/-- One in-range continuation byte that completes a character. -/
theorem utf8Loop_cont_last (acc lo hi b : Nat) (r : List Nat)
    (h1 : lo ≤ b) (h2 : b ≤ hi) :
    utf8Loop (some ⟨acc, 1, lo, hi⟩) (b :: r) =
      Char.ofNat (acc * 64 + (b - 0x80)) :: utf8Loop none r := by
  simp only [utf8Loop]
  rw [if_pos (by
    simp only [Bool.and_eq_true, decide_eq_true_eq]
    exact ⟨h1, h2⟩)]
  rw [if_pos trivial]

/-- One in-range continuation byte with more bytes still expected. -/
theorem utf8Loop_cont_more (acc need lo hi b : Nat) (r : List Nat)
    (h1 : lo ≤ b) (h2 : b ≤ hi) (hne : ¬(need = 1)) :
    utf8Loop (some ⟨acc, need, lo, hi⟩) (b :: r) =
      utf8Loop (some ⟨acc * 64 + (b - 0x80), need - 1, 0x80, 0xBF⟩) r := by
  simp only [utf8Loop]
  rw [if_pos (by
    simp only [Bool.and_eq_true, decide_eq_true_eq]
    exact ⟨h1, h2⟩)]
  rw [if_neg hne]

/-- The decoder consumes the encoding of one character and emits exactly
that character. -/
theorem utf8Loop_encodeChar (c : Char) (rest : List Nat) :
    utf8Loop none (utf8EncodeChar c ++ rest) = c :: utf8Loop none rest := by
  have hval : c.toNat < 0xd800 ∨ (0xdfff < c.toNat ∧ c.toNat < 0x110000) :=
    c.valid
  by_cases h1 : c.toNat < 0x80
  · have he : utf8EncodeChar c = [c.toNat] := by
      simp only [utf8EncodeChar, if_pos h1]
    rw [he, List.cons_append, List.nil_append,
      utf8Loop_step_ascii _ _ h1, Char.ofNat_toNat]
  · by_cases h2 : c.toNat < 0x800
    · have he : utf8EncodeChar c =
          [0xC0 + c.toNat / 64, 0x80 + c.toNat % 64] := by
        simp only [utf8EncodeChar, if_neg h1, if_pos h2]
      rw [he, List.cons_append, List.cons_append, List.nil_append,
        utf8Loop_step_lead _ _ _ (utf8Lead_two _ (by omega) (by omega)),
        utf8Loop_cont_last _ _ _ _ _ (by omega) (by omega)]
      have ha : (0xC0 + c.toNat / 64 - 0xC0) * 64 +
          (0x80 + c.toNat % 64 - 0x80) = c.toNat := by omega
      rw [ha, Char.ofNat_toNat]
    · by_cases h3 : c.toNat < 0x10000
      · have he : utf8EncodeChar c = [0xE0 + c.toNat / 4096,
            0x80 + (c.toNat / 64) % 64, 0x80 + c.toNat % 64] := by
          simp only [utf8EncodeChar, if_neg h1, if_neg h2, if_pos h3]
        rw [he, List.cons_append, List.cons_append, List.cons_append,
          List.nil_append]
        by_cases hs1 : c.toNat < 0x1000
        · have hb1 : 0xE0 + c.toNat / 4096 = 0xE0 := by omega
          rw [hb1, utf8Loop_step_lead _ _ _ (rfl :
              utf8Lead 0xE0 = ([], some ⟨0, 2, 0xA0, 0xBF⟩)),
            utf8Loop_cont_more _ _ _ _ _ _ (by omega) (by omega) (by omega),
            utf8Loop_cont_last _ _ _ _ _ (by omega) (by omega)]
          have ha : (0 * 64 + (0x80 + c.toNat / 64 % 64 - 0x80)) * 64 +
              (0x80 + c.toNat % 64 - 0x80) = c.toNat := by omega
          rw [ha, Char.ofNat_toNat]
        · by_cases hs2 : c.toNat < 0xD000
          · rw [utf8Loop_step_lead _ _ _
                (utf8Lead_three _ (by omega) (by omega)),
              utf8Loop_cont_more _ _ _ _ _ _ (by omega) (by omega)
                (by omega),
              utf8Loop_cont_last _ _ _ _ _ (by omega) (by omega)]
            have ha : ((0xE0 + c.toNat / 4096 - 0xE0) * 64 +
                (0x80 + c.toNat / 64 % 64 - 0x80)) * 64 +
                (0x80 + c.toNat % 64 - 0x80) = c.toNat := by omega
            rw [ha, Char.ofNat_toNat]
          · by_cases hs3 : c.toNat < 0xE000
            · have hlt : c.toNat < 0xD800 := by omega
              have hb1 : 0xE0 + c.toNat / 4096 = 0xED := by omega
              rw [hb1, utf8Loop_step_lead _ _ _ (rfl :
                  utf8Lead 0xED = ([], some ⟨13, 2, 0x80, 0x9F⟩)),
                utf8Loop_cont_more _ _ _ _ _ _ (by omega) (by omega)
                  (by omega),
                utf8Loop_cont_last _ _ _ _ _ (by omega) (by omega)]
              have ha : (13 * 64 + (0x80 + c.toNat / 64 % 64 - 0x80)) *
                  64 + (0x80 + c.toNat % 64 - 0x80) = c.toNat := by omega
              rw [ha, Char.ofNat_toNat]
            · rw [utf8Loop_step_lead _ _ _
                  (utf8Lead_ee _ (by omega) (by omega)),
                utf8Loop_cont_more _ _ _ _ _ _ (by omega) (by omega)
                  (by omega),
                utf8Loop_cont_last _ _ _ _ _ (by omega) (by omega)]
              have ha : ((0xE0 + c.toNat / 4096 - 0xE0) * 64 +
                  (0x80 + c.toNat / 64 % 64 - 0x80)) * 64 +
                  (0x80 + c.toNat % 64 - 0x80) = c.toNat := by omega
              rw [ha, Char.ofNat_toNat]
      · have hup : c.toNat < 0x110000 := by omega
        have he : utf8EncodeChar c = [0xF0 + c.toNat / 262144,
            0x80 + (c.toNat / 4096) % 64, 0x80 + (c.toNat / 64) % 64,
            0x80 + c.toNat % 64] := by
          simp only [utf8EncodeChar, if_neg h1, if_neg h2, if_neg h3]
        rw [he, List.cons_append, List.cons_append, List.cons_append,
          List.cons_append, List.nil_append]
        by_cases hs1 : c.toNat < 0x40000
        · have hb1 : 0xF0 + c.toNat / 262144 = 0xF0 := by omega
          rw [hb1, utf8Loop_step_lead _ _ _ (rfl :
              utf8Lead 0xF0 = ([], some ⟨0, 3, 0x90, 0xBF⟩)),
            utf8Loop_cont_more _ _ _ _ _ _ (by omega) (by omega) (by omega),
            utf8Loop_cont_more _ _ _ _ _ _ (by omega) (by omega) (by omega),
            utf8Loop_cont_last _ _ _ _ _ (by omega) (by omega)]
          have ha : ((0 * 64 + (0x80 + c.toNat / 4096 % 64 - 0x80)) * 64 +
              (0x80 + c.toNat / 64 % 64 - 0x80)) * 64 +
              (0x80 + c.toNat % 64 - 0x80) = c.toNat := by omega
          rw [ha, Char.ofNat_toNat]
        · by_cases hs2 : c.toNat < 0x100000
          · rw [utf8Loop_step_lead _ _ _
                (utf8Lead_f1 _ (by omega) (by omega)),
              utf8Loop_cont_more _ _ _ _ _ _ (by omega) (by omega)
                (by omega),
              utf8Loop_cont_more _ _ _ _ _ _ (by omega) (by omega)
                (by omega),
              utf8Loop_cont_last _ _ _ _ _ (by omega) (by omega)]
            have ha : (((0xF0 + c.toNat / 262144 - 0xF0) * 64 +
                (0x80 + c.toNat / 4096 % 64 - 0x80)) * 64 +
                (0x80 + c.toNat / 64 % 64 - 0x80)) * 64 +
                (0x80 + c.toNat % 64 - 0x80) = c.toNat := by omega
            rw [ha, Char.ofNat_toNat]
          · have hb1 : 0xF0 + c.toNat / 262144 = 0xF4 := by omega
            rw [hb1, utf8Loop_step_lead _ _ _ (rfl :
                utf8Lead 0xF4 = ([], some ⟨4, 3, 0x80, 0x8F⟩)),
              utf8Loop_cont_more _ _ _ _ _ _ (by omega) (by omega)
                (by omega),
              utf8Loop_cont_more _ _ _ _ _ _ (by omega) (by omega)
                (by omega),
              utf8Loop_cont_last _ _ _ _ _ (by omega) (by omega)]
            have ha : ((4 * 64 + (0x80 + c.toNat / 4096 % 64 - 0x80)) *
                64 + (0x80 + c.toNat / 64 % 64 - 0x80)) * 64 +
                (0x80 + c.toNat % 64 - 0x80) = c.toNat := by omega
            rw [ha, Char.ofNat_toNat]

/-- Decoding an encoded string gives the string back. -/
theorem utf8_roundtrip : ∀ l : List Char,
    utf8DecodeReplace (utf8Encode l) = l
  | [] => rfl
  | c :: tl => by
    have ih := utf8_roundtrip tl
    simp only [utf8Encode, utf8DecodeReplace] at ih ⊢
    rw [List.flatMap_cons, utf8Loop_encodeChar, ih]

/-! Roundtrip of quote_plus and unquote (claim C7). -/

/-- Pointwise-equal flatMaps agree. -/
theorem flatMap_congr_mem {α β : Type} (l : List α) (f g : α → List β)
    (h : ∀ x ∈ l, f x = g x) : l.flatMap f = l.flatMap g := by
  induction l with
  | nil => rfl
  | cons a tl ih =>
    rw [List.flatMap_cons, List.flatMap_cons, h a (by simp),
      ih (fun x hx => h x (by simp [hx]))]

/-- hexVal? inverts hexDigit below 16. -/
theorem hexVal_hexDigit (n : Nat) (h : n < 16) :
    hexVal? (hexDigit n) = some n := by
  interval_cases n <;> decide

/-- The characters produced by hexDigit below 16 are plain ASCII digits
or uppercase letters. -/
theorem hexDigit_props (n : Nat) (h : n < 16) :
    hexDigit n ≠ '%' ∧ hexDigit n ≠ '+' ∧ hexDigit n ≠ ' ' ∧
    hexDigit n ≠ '=' ∧ hexDigit n ≠ '&' ∧ hexDigit n ≠ '#' ∧
    hexDigit n ≠ '?' ∧ hexDigit n ≠ ':' ∧ hexDigit n ≠ '/' ∧
    (hexDigit n).toNat < 0x80 ∧ isUnsafeUrlByte (hexDigit n) = false := by
  interval_cases n <;> exact (by decide)

/-- Always-safe bytes are ASCII and none of the separator characters. -/
theorem alwaysSafe_props (b : Nat) (h : alwaysSafeByte b = true) :
    b < 0x80 ∧ b ≠ 0x25 ∧ b ≠ 0x3D ∧ b ≠ 0x26 ∧ b ≠ 0x2B ∧ b ≠ 0x20 ∧
    b ≠ 0x23 ∧ b ≠ 0x3F ∧ b ≠ 0x3A ∧ b ≠ 0x2F := by
  simp only [alwaysSafeByte, Bool.or_eq_true, Bool.and_eq_true,
    decide_eq_true_eq] at h
  omega

/-- Every byte of a character encoding is its sole ASCII byte or a high
byte. -/
theorem utf8EncodeChar_byte (c : Char) (b : Nat)
    (h : b ∈ utf8EncodeChar c) :
    (c.toNat < 0x80 ∧ b = c.toNat) ∨ 0x80 ≤ b := by
  by_cases h1 : c.toNat < 0x80
  · left
    refine ⟨h1, ?_⟩
    simp only [utf8EncodeChar, if_pos h1, List.mem_singleton] at h
    exact h
  · right
    by_cases h2 : c.toNat < 0x800
    · simp only [utf8EncodeChar, if_neg h1, if_pos h2,
        List.mem_cons, List.not_mem_nil, or_false] at h
      rcases h with rfl | rfl <;> omega
    · by_cases h3 : c.toNat < 0x10000
      · simp only [utf8EncodeChar, if_neg h1, if_neg h2, if_pos h3,
          List.mem_cons, List.not_mem_nil, or_false] at h
        rcases h with rfl | rfl | rfl <;> omega
      · simp only [utf8EncodeChar, if_neg h1, if_neg h2, if_neg h3,
          List.mem_cons, List.not_mem_nil, or_false] at h
        rcases h with rfl | rfl | rfl | rfl <;> omega

/-- Every byte of an encoded string fits in a byte. -/
theorem utf8EncodeChar_lt256 (c : Char) (b : Nat)
    (h : b ∈ utf8EncodeChar c) : b < 256 := by
  have hval : c.toNat < 0xd800 ∨ (0xdfff < c.toNat ∧ c.toNat < 0x110000) :=
    c.valid
  by_cases h1 : c.toNat < 0x80
  · simp only [utf8EncodeChar, if_pos h1, List.mem_singleton] at h
    omega
  · by_cases h2 : c.toNat < 0x800
    · simp only [utf8EncodeChar, if_neg h1, if_pos h2,
        List.mem_cons, List.not_mem_nil, or_false] at h
      rcases h with rfl | rfl <;> omega
    · by_cases h3 : c.toNat < 0x10000
      · simp only [utf8EncodeChar, if_neg h1, if_neg h2, if_pos h3,
          List.mem_cons, List.not_mem_nil, or_false] at h
        rcases h with rfl | rfl | rfl <;> omega
      · simp only [utf8EncodeChar, if_neg h1, if_neg h2, if_neg h3,
          List.mem_cons, List.not_mem_nil, or_false] at h
        rcases h with rfl | rfl | rfl | rfl <;> omega

/-- The space byte only arises from a space character. -/
theorem space_byte_mem (l : List Char) (h : 0x20 ∈ utf8Encode l) :
    ' ' ∈ l := by
  rcases List.mem_flatMap.mp h with ⟨c, hc, hb⟩
  rcases utf8EncodeChar_byte c 0x20 hb with ⟨_, hq⟩ | hge
  · have : c = ' ' := by
      have h2 := Char.ofNat_toNat c
      rw [← hq] at h2
      rw [← h2]
    rw [← this]
    exact hc
  · omega

/-- quote_plus followed by the plus-to-space replacement of unquote_plus,
as one byte-wise flatMap. -/
theorem replace_quote_plus (l : List Char) :
    pyReplaceChar '+' ' ' (quote_plus l) =
      (utf8Encode l).flatMap (fun b =>
        if alwaysSafeByte b || b = 0x20 then [Char.ofNat b]
        else ['%', hexDigit (b / 16), hexDigit (b % 16)]) := by
  have h256 : ∀ b ∈ utf8Encode l, b < 256 := fun b hb => by
    rcases List.mem_flatMap.mp hb with ⟨c, _, hbc⟩
    exact utf8EncodeChar_lt256 c b hbc
  by_cases hsp : ' ' ∈ l
  · simp only [quote_plus, if_pos hsp, pyQuote, quote_from_bytes,
      pyReplaceChar, List.map_flatMap]
    refine flatMap_congr_mem _ _ _ fun b hb => ?_
    by_cases hsafe : (alwaysSafeByte b || decide (b = 0x20)) = true
    · rw [if_pos hsafe]
      have hsafe2 := hsafe
      simp only [Bool.or_eq_true, decide_eq_true_eq] at hsafe2
      rcases hsafe2 with hA | hB
      · obtain ⟨hlt, _, _, _, hB2, hSp, _⟩ := alwaysSafe_props b hA
        have ht : (Char.ofNat b).toNat = b :=
          char_toNat_ofNat b (Or.inl (by omega))
        have hne1 : ¬(Char.ofNat b = ' ') := fun hh => by
          have h32 : (' ' : Char).toNat = b := hh ▸ ht
          have h32n : (32 : Nat) = b := h32
          omega
        have hne2 : ¬(Char.ofNat b = '+') := fun hh => by
          have h43 : ('+' : Char).toNat = b := hh ▸ ht
          have h43n : (43 : Nat) = b := h43
          omega
        simp [hne1, hne2]
      · subst hB
        decide
    · rw [if_neg hsafe]
      have hb256 := h256 b hb
      obtain ⟨d1a, d1b, d1c, _⟩ := hexDigit_props (b / 16) (by omega)
      obtain ⟨d2a, d2b, d2c, _⟩ := hexDigit_props (b % 16) (by omega)
      simp [d1b, d1c, d2b, d2c]
  · simp only [quote_plus, if_neg hsp, pyQuote, quote_from_bytes,
      pyReplaceChar, List.map_flatMap]
    refine flatMap_congr_mem _ _ _ fun b hb => ?_
    have hb20 : ¬(b = 0x20) := fun hh => hsp (space_byte_mem l (hh ▸ hb))
    by_cases hA : alwaysSafeByte b = true
    · rw [if_pos (show (alwaysSafeByte b || false) = true by simp [hA]),
        if_pos (show (alwaysSafeByte b || decide (b = 0x20)) = true by
          simp [hA])]
      obtain ⟨hlt, _, _, _, hB2, hSp, _⟩ := alwaysSafe_props b hA
      have ht : (Char.ofNat b).toNat = b :=
        char_toNat_ofNat b (Or.inl (by omega))
      have hne2 : ¬(Char.ofNat b = '+') := fun hh => by
        have h43 : ('+' : Char).toNat = b := hh ▸ ht
        have h43n : (43 : Nat) = b := h43
        omega
      simp [hne2]
    · rw [if_neg (show ¬((alwaysSafeByte b || false) = true) by
          simp [hA]),
        if_neg (show ¬((alwaysSafeByte b || decide (b = 0x20)) = true) by
          simp [hA, hb20])]
      have hb256 := h256 b hb
      obtain ⟨d1a, d1b, _⟩ := hexDigit_props (b / 16) (by omega)
      obtain ⟨d2a, d2b, _⟩ := hexDigit_props (b % 16) (by omega)
      simp [d1b, d2b]

/-- The unquote tokenizer on a non-percent head character. -/
theorem unqTokenize_cons_ne (c : Char) (r : List Char) (h : ¬(c = '%')) :
    unqTokenize (c :: r) =
      (if c.toNat < 0x80 then UnqTok.byte c.toNat else UnqTok.raw c) ::
        unqTokenize r := by
  cases r with
  | nil => simp [unqTokenize, h]
  | cons a r2 => cases r2 with
    | nil => simp [unqTokenize, h]
    | cons b r3 => simp [unqTokenize, h]

/-- The unquote tokenizer on a well-formed percent escape. -/
theorem unqTokenize_escape (a b : Char) (r : List Char) (va vb : Nat)
    (ha : hexVal? a = some va) (hb : hexVal? b = some vb) :
    unqTokenize ('%' :: a :: b :: r) =
      .byte (va * 16 + vb) :: unqTokenize r := by
  simp [unqTokenize, ha, hb]

/-- Tokenizing a quoted byte list gives back exactly those bytes. -/
theorem unqTokenize_quoted : ∀ bs : List Nat, (∀ b ∈ bs, b < 256) →
    unqTokenize (bs.flatMap (fun b =>
      if alwaysSafeByte b || b = 0x20 then [Char.ofNat b]
      else ['%', hexDigit (b / 16), hexDigit (b % 16)])) =
      bs.map UnqTok.byte
  | [], _ => rfl
  | b :: bs, h => by
    have hb256 : b < 256 := h b (by simp)
    have ih := unqTokenize_quoted bs (fun x hx => h x (by simp [hx]))
    rw [List.flatMap_cons]
    by_cases hsafe : (alwaysSafeByte b || decide (b = 0x20)) = true
    · rw [if_pos hsafe]
      have hlt : b < 0x80 := by
        have hsafe2 := hsafe
        simp only [Bool.or_eq_true, decide_eq_true_eq] at hsafe2
        rcases hsafe2 with hA | rfl
        · exact (alwaysSafe_props b hA).1
        · omega
      have ht : (Char.ofNat b).toNat = b :=
        char_toNat_ofNat b (Or.inl (by omega))
      have hne : ¬(Char.ofNat b = '%') := fun hh => by
        have h37 : ('%' : Char).toNat = b := hh ▸ ht
        have h37n : (37 : Nat) = b := h37
        have hsafe2 := hsafe
        simp only [Bool.or_eq_true, decide_eq_true_eq] at hsafe2
        rcases hsafe2 with hA | hB
        · exact absurd hA.symm.symm (by
            have := (alwaysSafe_props b hA).2.1
            omega)
        · omega
      rw [List.cons_append, List.nil_append, unqTokenize_cons_ne _ _ hne,
        if_pos (by rw [ht]; exact hlt), ht, ih, List.map_cons]
    · rw [if_neg hsafe]
      rw [List.cons_append, List.cons_append, List.cons_append,
        List.nil_append,
        unqTokenize_escape _ _ _ _ _ (hexVal_hexDigit (b / 16) (by omega))
          (hexVal_hexDigit (b % 16) (by omega))]
      have ha : b / 16 * 16 + b % 16 = b := by omega
      rw [ha, ih, List.map_cons]

/-- Emitting a pure byte token stream decodes the byte run. -/
theorem unqEmit_bytes : ∀ (bs : List Nat) (pending : List Nat),
    unqEmit pending (bs.map UnqTok.byte) =
      utf8DecodeReplace (pending.reverse ++ bs)
  | [], pending => by
    simp [unqEmit]
  | b :: bs, pending => by
    rw [List.map_cons]
    show unqEmit (b :: pending) (bs.map UnqTok.byte) = _
    rw [unqEmit_bytes bs (b :: pending)]
    simp [List.reverse_cons, List.append_assoc]

/-- The unquote-of-quote roundtrip on one field. -/
theorem unquoteField_quote_plus (k : String) :
    unquoteField (quote_plus k.data) = k := by
  rw [unquoteField, replace_quote_plus, pyUnquote]
  have h256 : ∀ b ∈ utf8Encode k.data, b < 256 := fun b hb => by
    rcases List.mem_flatMap.mp hb with ⟨c, _, hbc⟩
    exact utf8EncodeChar_lt256 c b hbc
  by_cases hp : '%' ∈ (utf8Encode k.data).flatMap (fun b =>
      if alwaysSafeByte b || b = 0x20 then [Char.ofNat b]
      else ['%', hexDigit (b / 16), hexDigit (b % 16)])
  · rw [if_pos hp, unqTokenize_quoted _ h256, unqEmit_bytes]
    show (⟨utf8DecodeReplace ([] ++ utf8Encode k.data)⟩ : String) = k
    rw [List.nil_append, utf8_roundtrip]
  · rw [if_neg hp]
    have hsafe : ∀ b ∈ utf8Encode k.data,
        (alwaysSafeByte b || decide (b = 0x20)) = true := by
      intro b hbm
      by_contra hns
      exact hp (List.mem_flatMap.mpr ⟨b, hbm, by
        rw [if_neg hns]
        simp⟩)
    have hasc : ∀ b ∈ utf8Encode k.data, b < 0x80 := by
      intro b hbm
      have hs2 := hsafe b hbm
      simp only [Bool.or_eq_true, decide_eq_true_eq] at hs2
      rcases hs2 with hA | rfl
      · exact (alwaysSafe_props b hA).1
      · omega
    have hmap : (utf8Encode k.data).flatMap (fun b =>
        if alwaysSafeByte b || b = 0x20 then [Char.ofNat b]
        else ['%', hexDigit (b / 16), hexDigit (b % 16)]) =
        (utf8Encode k.data).map Char.ofNat := by
      rw [flatMap_congr_mem _ _ (fun b => [Char.ofNat b])
        (fun b hb => by rw [if_pos (hsafe b hb)])]
      exact (List.map_eq_flatMap Char.ofNat (utf8Encode k.data)).symm
    rw [hmap]
    have hrt : ∀ l : List Char, (∀ b ∈ utf8Encode l, b < 0x80) →
        (utf8Encode l).map Char.ofNat = l := by
      intro l
      induction l with
      | nil => intro _; rfl
      | cons c tl ih =>
        intro hl
        have hcb : c.toNat < 0x80 := by
          by_contra hcn
          have hhead : ∃ b ∈ utf8EncodeChar c, 0x80 ≤ b := by
            by_cases h2 : c.toNat < 0x800
            · exact ⟨0xC0 + c.toNat / 64, by
                simp [utf8EncodeChar, hcn, h2], by omega⟩
            · by_cases h3 : c.toNat < 0x10000
              · exact ⟨0xE0 + c.toNat / 4096, by
                  simp [utf8EncodeChar, hcn, h2, h3], by omega⟩
              · exact ⟨0xF0 + c.toNat / 262144, by
                  simp [utf8EncodeChar, hcn, h2, h3], by omega⟩
          obtain ⟨b, hbm, hbge⟩ := hhead
          have := hl b (by
            simp only [utf8Encode, List.flatMap_cons]
            exact List.mem_append.mpr (Or.inl hbm))
          omega
        have he : utf8EncodeChar c = [c.toNat] := by
          simp only [utf8EncodeChar, if_pos hcb]
        have htl := ih (fun b hb => hl b (by
          simp only [utf8Encode, List.flatMap_cons]
          exact List.mem_append.mpr (Or.inr hb)))
        simp only [utf8Encode, List.flatMap_cons, he] at *
        rw [List.cons_append, List.nil_append, List.map_cons, htl,
          Char.ofNat_toNat]
    rw [hrt k.data hasc]

/-! Splitting and regrouping of encoded query strings (claim C7). -/

/-- str.split without an occurrence of the separator. -/
theorem pySplitChar_no_sep (sep : Char) :
    ∀ l : List Char, sep ∉ l → pySplitChar sep l = [l]
  | [], _ => rfl
  | c :: r, h => by
    have hc : ¬(c = sep) := fun hh => h (by simp [hh])
    have hr := pySplitChar_no_sep sep r (fun hh => h (by simp [hh]))
    simp only [pySplitChar, if_neg hc, hr]

/-- str.split at the first separator occurrence. -/
theorem pySplitChar_found (sep : Char) :
    ∀ a b : List Char, sep ∉ a →
      pySplitChar sep (a ++ sep :: b) = a :: pySplitChar sep b
  | [], b, _ => by simp [pySplitChar]
  | c :: a, b, h => by
    have hc : ¬(c = sep) := fun hh => h (by simp [hh])
    have hr := pySplitChar_found sep a b (fun hh => h (by simp [hh]))
    simp only [List.cons_append, pySplitChar, if_neg hc, List.append_eq, hr]

/-- str.split undoes the ampersand join. -/
theorem splitChar_intercalate : ∀ fs : List (List Char), fs ≠ [] →
    (∀ f ∈ fs, '&' ∉ f) →
    pySplitChar '&' (List.intercalate ['&'] fs) = fs
  | [], h, _ => absurd rfl h
  | [f], _, hf => by
    have : List.intercalate ['&'] [f] = f := by simp [List.intercalate]
    rw [this]
    exact pySplitChar_no_sep '&' f (hf f (by simp))
  | f :: g :: fs, _, hf => by
    have h1 : List.intercalate ['&'] (f :: g :: fs) =
        f ++ '&' :: List.intercalate ['&'] (g :: fs) := by
      simp [List.intercalate, List.intersperse]
    rw [h1, pySplitChar_found '&' f _ (hf f (by simp)),
      splitChar_intercalate (g :: fs) (by simp)
        (fun x hx => hf x (by simp [List.mem_cons] at hx ⊢; tauto))]

/-- A character of a member list of an intercalation is the separator or
a character of a member. -/
theorem mem_intercalate_amp : ∀ (fs : List (List Char)) (c : Char),
    c ∈ List.intercalate ['&'] fs → c = '&' ∨ ∃ f ∈ fs, c ∈ f
  | [], c, h => by simp [List.intercalate] at h
  | [f], c, h => by
    have : List.intercalate ['&'] [f] = f := by simp [List.intercalate]
    rw [this] at h
    exact Or.inr ⟨f, by simp, h⟩
  | f :: g :: fs, c, h => by
    have h1 : List.intercalate ['&'] (f :: g :: fs) =
        f ++ '&' :: List.intercalate ['&'] (g :: fs) := by
      simp [List.intercalate, List.intersperse]
    rw [h1] at h
    rcases List.mem_append.mp h with hx | hx
    · exact Or.inr ⟨f, by simp, hx⟩
    · rcases List.mem_cons.mp hx with rfl | hx
      · exact Or.inl rfl
      · rcases mem_intercalate_amp (g :: fs) c hx with hc | ⟨f2, hf2, hcf⟩
        · exact Or.inl hc
        · exact Or.inr ⟨f2, by simp [List.mem_cons] at hf2 ⊢; tauto, hcf⟩

/-- Characters emitted by quote_plus: never a separator, never an
unsafe byte. -/
theorem quote_plus_chars (s : List Char) (c : Char) (h : c ∈ quote_plus s) :
    c ≠ '&' ∧ c ≠ '=' ∧ c ≠ '#' ∧ isUnsafeUrlByte c = false := by
  have hbytes : ∀ b ∈ utf8Encode s, b < 256 := fun b hb => by
    rcases List.mem_flatMap.mp hb with ⟨x, _, hbx⟩
    exact utf8EncodeChar_lt256 x b hbx
  have hsafe_char : ∀ b : Nat, alwaysSafeByte b = true →
      Char.ofNat b ≠ '&' ∧ Char.ofNat b ≠ '=' ∧ Char.ofNat b ≠ '#' ∧
        isUnsafeUrlByte (Char.ofNat b) = false := by
    intro b hA
    obtain ⟨hlt, _⟩ := alwaysSafe_props b hA
    have ht : (Char.ofNat b).toNat = b :=
      char_toNat_ofNat b (Or.inl (by omega))
    have hAn := hA
    simp only [alwaysSafeByte, Bool.or_eq_true, Bool.and_eq_true,
      decide_eq_true_eq] at hAn
    refine ⟨fun hh => ?_, fun hh => ?_, fun hh => ?_, ?_⟩
    · have h38 : ('&' : Char).toNat = b := hh ▸ ht
      have h38n : (38 : Nat) = b := h38
      omega
    · have h61 : ('=' : Char).toNat = b := hh ▸ ht
      have h61n : (61 : Nat) = b := h61
      omega
    · have h35 : ('#' : Char).toNat = b := hh ▸ ht
      have h35n : (35 : Nat) = b := h35
      omega
    · simp only [isUnsafeUrlByte, Bool.or_eq_false_iff,
        decide_eq_false_iff_not]
      refine ⟨⟨fun hh => ?_, fun hh => ?_⟩, fun hh => ?_⟩
      · have h9 : ('\t' : Char).toNat = b := hh ▸ ht
        have h9n : (9 : Nat) = b := h9
        omega
      · have h13 : ('\r' : Char).toNat = b := hh ▸ ht
        have h13n : (13 : Nat) = b := h13
        omega
      · have h10 : ('\n' : Char).toNat = b := hh ▸ ht
        have h10n : (10 : Nat) = b := h10
        omega
  have hall : ∀ (safeF : Nat → Bool) d,
      d ∈ quote_from_bytes safeF (utf8Encode s) →
      (∀ b, safeF b = true → alwaysSafeByte b = true ∨ b = 0x20) →
      d = ' ' ∨ (d ≠ '&' ∧ d ≠ '=' ∧ d ≠ '#' ∧
        isUnsafeUrlByte d = false) := by
    intro safeF d hd hsf
    rcases List.mem_flatMap.mp hd with ⟨b, hbm, hdb⟩
    have hb256 := hbytes b hbm
    by_cases hc1 : (alwaysSafeByte b || safeF b) = true
    · rw [if_pos hc1] at hdb
      rcases List.mem_singleton.mp hdb with rfl
      have hc1b := hc1
      simp only [Bool.or_eq_true] at hc1b
      rcases hc1b with hA | hS
      · exact Or.inr (hsafe_char b hA)
      · rcases hsf b hS with hA | rfl
        · exact Or.inr (hsafe_char b hA)
        · exact Or.inl rfl
    · rw [if_neg hc1] at hdb
      rcases List.mem_cons.mp hdb with rfl | hdb2
      · exact Or.inr (by decide)
      · rcases List.mem_cons.mp hdb2 with rfl | hdb3
        · obtain ⟨_, _, _, d4, d5, d6, _, _, _, _, d11⟩ :=
            hexDigit_props (b / 16) (by omega)
          exact Or.inr ⟨d5, d4, d6, d11⟩
        · rcases List.mem_cons.mp hdb3 with rfl | hdb4
          · obtain ⟨_, _, _, d4, d5, d6, _, _, _, _, d11⟩ :=
              hexDigit_props (b % 16) (by omega)
            exact Or.inr ⟨d5, d4, d6, d11⟩
          · exact absurd hdb4 (List.not_mem_nil _)
  by_cases hsp : ' ' ∈ s
  · simp only [quote_plus, if_pos hsp, pyQuote, pyReplaceChar] at h
    rcases List.mem_map.mp h with ⟨d, hd, rfl⟩
    rcases hall (fun b => decide (b = 0x20)) d hd
        (fun b hb => Or.inr (of_decide_eq_true hb)) with rfl | hp
    · exact (by decide)
    · by_cases hd2 : d = ' '
      · subst hd2
        exact (by decide)
      · rw [if_neg hd2]
        exact hp
  · simp only [quote_plus, if_neg hsp, pyQuote] at h
    rcases hall (fun _ => false) c h (fun b hb => by simp at hb)
        with rfl | hp
    · exact (by decide)
    · exact hp

/-- parse_qsl inverts urlencode(doseq) field by field. -/
theorem parse_qsl_urlencode (m : List (String × List String)) :
    parse_qsl true (urlencodeDoseq m) =
      m.flatMap (fun kv => kv.2.map (fun v => (kv.1, v))) := by
  cases hf : m.flatMap (fun kv => kv.2.map (fun v =>
      quote_plus kv.1.data ++ '=' :: quote_plus v.data)) with
  | nil =>
    have hrhs : m.flatMap (fun kv => kv.2.map (fun v => (kv.1, v))) = [] := by
      rw [List.flatMap_eq_nil_iff] at hf ⊢
      intro kv hkv
      rw [List.map_eq_nil_iff.mp (hf kv hkv)]
      rfl
    rw [hrhs, urlencodeDoseq, hf]
    rfl
  | cons f0 fs =>
    have hshape : ∀ f ∈ f0 :: fs, ∃ kv, kv ∈ m ∧ ∃ v ∈ kv.2,
        f = quote_plus kv.1.data ++ '=' :: quote_plus v.data := by
      rw [← hf]
      intro f hfm
      rcases List.mem_flatMap.mp hfm with ⟨kv, hkv, hfv⟩
      rcases List.mem_map.mp hfv with ⟨v, hv, rfl⟩
      exact ⟨kv, hkv, v, hv, rfl⟩
    have hamp : ∀ f ∈ f0 :: fs, '&' ∉ f := by
      intro f hfm hx
      obtain ⟨kv, _, v, _, rfl⟩ := hshape f hfm
      rcases List.mem_append.mp hx with hx | hx
      · exact (quote_plus_chars _ _ hx).1 rfl
      · rcases List.mem_cons.mp hx with hx | hx
        · exact absurd hx (by decide)
        · exact (quote_plus_chars _ _ hx).1 rfl
    have hne0 : f0 ≠ [] := by
      obtain ⟨kv, _, v, _, hf0⟩ := hshape f0 (by simp)
      rw [hf0]
      simp
    have hdata : List.intercalate ['&'] (f0 :: fs) ≠ [] := by
      cases fs with
      | nil => simpa [List.intercalate] using hne0
      | cons g gs =>
        have h1 : List.intercalate ['&'] (f0 :: g :: gs) =
            f0 ++ '&' :: List.intercalate ['&'] (g :: gs) := by
          simp [List.intercalate, List.intersperse]
        rw [h1]
        simp
    have hqs : (⟨List.intercalate ['&'] (f0 :: fs)⟩ : String) ≠ "" := by
      intro hq
      exact hdata (string_mk_inj hq)
    rw [urlencodeDoseq, hf]
    simp only [parse_qsl, if_neg hqs]
    rw [splitChar_intercalate (f0 :: fs) (by simp) hamp, ← hf,
      List.flatMap_assoc]
    refine flatMap_congr_mem _ _ _ fun kv hkv => ?_
    rw [List.flatMap_map]
    refine Eq.trans (flatMap_congr_mem _ _ (fun v => [(kv.1, v)])
      fun v hv => ?_) ((List.map_eq_flatMap _ _).symm)
    have hnoeq : '=' ∉ quote_plus kv.1.data := fun hx =>
      (quote_plus_chars _ _ hx).2.1 rfl
    have hsplit := pySplitOnce_found '=' (quote_plus kv.1.data)
      (quote_plus v.data) hnoeq
    simp [hsplit, unquoteField_quote_plus]

/-- updAssoc skips a prefix whose keys differ from the inserted key. -/
theorem updAssoc_append (A B : List (String × List String))
    (kv : String × String) (h : ∀ p ∈ A, p.1 ≠ kv.1) :
    updAssoc (A ++ B) kv = A ++ updAssoc B kv := by
  induction A with
  | nil => rfl
  | cons a A ih =>
    rw [List.cons_append, updAssoc]
    rw [if_neg (h a (by simp))]
    rw [ih (fun p hp => h p (by simp [hp])), List.cons_append]

/-- Folding updAssoc over pairs whose keys avoid a prefix leaves the
prefix untouched. -/
theorem foldl_updAssoc_append (pairs : List (String × String)) :
    ∀ (A B : List (String × List String)),
      (∀ p ∈ pairs, ∀ q ∈ A, q.1 ≠ p.1) →
      pairs.foldl updAssoc (A ++ B) = A ++ pairs.foldl updAssoc B := by
  induction pairs with
  | nil => intro A B _; rfl
  | cons p pairs ih =>
    intro A B h
    rw [List.foldl_cons, List.foldl_cons,
      updAssoc_append A B p (fun q hq => h p (by simp) q hq)]
    exact ih A (updAssoc B p) (fun r hr q hq => h r (by simp [hr]) q hq)

/-- Folding one key's values into its singleton group appends them. -/
theorem foldl_updAssoc_sameKey (k : String) :
    ∀ (more acc : List String),
      (more.map (fun v => (k, v))).foldl updAssoc [(k, acc)] =
        [(k, acc ++ more)] := by
  intro more
  induction more with
  | nil => intro acc; simp
  | cons v more ih =>
    intro acc
    rw [List.map_cons, List.foldl_cons]
    have h1 : updAssoc [(k, acc)] (k, v) = [(k, acc ++ [v])] := by
      simp [updAssoc]
    rw [h1, ih (acc ++ [v]), List.append_assoc]
    rfl

/-- Keys appearing in the flattened pair list come from the dict. -/
theorem flat_pairs_keys (m : List (String × List String))
    (p : String × String)
    (h : p ∈ m.flatMap (fun kv => kv.2.map (fun v => (kv.1, v)))) :
    p.1 ∈ m.map Prod.fst := by
  rcases List.mem_flatMap.mp h with ⟨kv, hkv, hp⟩
  rcases List.mem_map.mp hp with ⟨v, _, rfl⟩
  exact List.mem_map.mpr ⟨kv, hkv, rfl⟩

/-- Grouping the flattened pairs of a dict with distinct keys and
nonempty value lists rebuilds the dict. -/
theorem regroup (m : List (String × List String))
    (hkeys : (m.map Prod.fst).Nodup)
    (hvs : ∀ kv ∈ m, kv.2 ≠ []) :
    (m.flatMap (fun kv => kv.2.map (fun v => (kv.1, v)))).foldl
      updAssoc [] = m := by
  induction m with
  | nil => rfl
  | cons kv m ih =>
    rw [List.flatMap_cons, List.foldl_append]
    obtain ⟨k, vs⟩ := kv
    cases vs with
    | nil => exact absurd rfl (hvs (k, []) (by simp))
    | cons v0 vs =>
      have h1 : (((v0 :: vs).map (fun v => (k, v))).foldl updAssoc []) =
          [(k, v0 :: vs)] := by
        rw [List.map_cons, List.foldl_cons]
        have h0 : updAssoc [] (k, v0) = [(k, [v0])] := rfl
        rw [h0, foldl_updAssoc_sameKey k vs [v0]]
        rfl
      rw [h1]
      have hk : k ∉ m.map Prod.fst := by
        have := hkeys
        rw [List.map_cons, List.nodup_cons] at this
        exact this.1
      have h2 : (m.flatMap (fun kv => kv.2.map (fun v =>
          (kv.1, v)))).foldl updAssoc ([(k, v0 :: vs)] ++ []) =
          [(k, v0 :: vs)] ++ (m.flatMap (fun kv => kv.2.map (fun v =>
            (kv.1, v)))).foldl updAssoc [] := by
        refine foldl_updAssoc_append _ [(k, v0 :: vs)] [] ?_
        intro p hp q hq
        rcases List.mem_singleton.mp hq with rfl
        intro hqp
        have hkp : k = p.1 := hqp
        rw [hkp] at hk
        exact hk (flat_pairs_keys m p hp)
      rw [List.append_nil] at h2
      rw [h2, ih (by
          have := hkeys
          rw [List.map_cons, List.nodup_cons] at this
          exact this.2)
        (fun kv2 hkv2 => hvs kv2 (by simp [hkv2]))]
      rfl

/-- Keys after one updAssoc step. -/
theorem updAssoc_keys : ∀ (acc : List (String × List String))
    (kv : String × String),
    (updAssoc acc kv).map Prod.fst =
      if kv.1 ∈ acc.map Prod.fst then acc.map Prod.fst
      else acc.map Prod.fst ++ [kv.1]
  | [], kv => by simp [updAssoc]
  | (k, vs) :: r, kv => by
    by_cases hk : k = kv.1
    · simp [updAssoc, hk]
    · have hne : ¬(kv.1 = k) := fun hh => hk hh.symm
      simp only [updAssoc, if_neg hk, List.map_cons, updAssoc_keys r kv]
      by_cases hm : kv.1 ∈ r.map Prod.fst
      · rw [if_pos hm, if_pos (by simp [hm])]
      · rw [if_neg hm, if_neg (by simp [hm, hne])]
        rw [List.cons_append]

/-- Value lists stay nonempty under updAssoc. -/
theorem updAssoc_vals : ∀ (acc : List (String × List String))
    (kv : String × String), (∀ q ∈ acc, q.2 ≠ []) →
    ∀ q ∈ updAssoc acc kv, q.2 ≠ []
  | [], kv, _, q, hq => by
    rcases List.mem_singleton.mp hq with rfl
    simp
  | (k, vs) :: r, kv, h, q, hq => by
    rw [updAssoc] at hq
    by_cases hk : k = kv.1
    · rw [if_pos hk] at hq
      rcases List.mem_cons.mp hq with rfl | hq2
      · simp
      · exact h q (by simp [hq2])
    · rw [if_neg hk] at hq
      rcases List.mem_cons.mp hq with rfl | hq2
      · exact h (k, vs) (by simp)
      · exact updAssoc_vals r kv (fun p hp => h p (by simp [hp])) q hq2

/-- The grouping fold keeps keys distinct and value lists nonempty. -/
theorem foldl_updAssoc_inv (pairs : List (String × String)) :
    ∀ acc : List (String × List String),
      (acc.map Prod.fst).Nodup → (∀ q ∈ acc, q.2 ≠ []) →
      ((pairs.foldl updAssoc acc).map Prod.fst).Nodup ∧
        ∀ q ∈ pairs.foldl updAssoc acc, q.2 ≠ [] := by
  induction pairs with
  | nil => intro acc h1 h2; exact ⟨h1, h2⟩
  | cons p pairs ih =>
    intro acc h1 h2
    rw [List.foldl_cons]
    refine ih (updAssoc acc p) ?_ (updAssoc_vals acc p h2)
    rw [updAssoc_keys acc p]
    by_cases hm : p.1 ∈ acc.map Prod.fst
    · rw [if_pos hm]; exact h1
    · rw [if_neg hm]
      rw [List.nodup_append]
      exact ⟨h1, List.nodup_singleton _, fun a ha => by
        simp only [List.mem_singleton]
        intro hak
        exact hm (hak ▸ ha)⟩

/-- parse_qs produces distinct keys and nonempty value lists. -/
theorem parse_qs_inv (kb : Bool) (qs : String) :
    ((parse_qs kb qs).map Prod.fst).Nodup ∧
      ∀ q ∈ parse_qs kb qs, q.2 ≠ [] :=
  foldl_updAssoc_inv (parse_qsl kb qs) [] (by simp) (by simp)

/-- popKey keeps keys distinct. -/
theorem popKey_nodup (k : String) (m : List (String × List String))
    (h : (m.map Prod.fst).Nodup) :
    ((popKey k m).map Prod.fst).Nodup :=
  h.sublist ((List.filter_sublist _).map _)

/-- popKey keeps value lists nonempty. -/
theorem popKey_vals (k : String) (m : List (String × List String))
    (h : ∀ q ∈ m, q.2 ≠ []) : ∀ q ∈ popKey k m, q.2 ≠ [] :=
  fun q hq => h q (List.mem_of_mem_filter hq)

/-- No entry of the popped dict carries the popped key. -/
theorem popKey_not_key (k : String) (m : List (String × List String)) :
    ∀ q ∈ popKey k m, q.1 ≠ k := by
  intro q hq
  have := List.of_mem_filter hq
  simpa using this

/-- popKey is the identity when the key is absent. -/
theorem popKey_of_not_mem (k : String) (m : List (String × List String))
    (h : ∀ q ∈ m, q.1 ≠ k) : popKey k m = m :=
  List.filter_eq_self.mpr fun q hq => by simp [h q hq]

/-- parse_qs inverts urlencode on grouped dicts with distinct keys and
nonempty value lists. -/
theorem parse_qs_urlencode (m : List (String × List String))
    (hkeys : (m.map Prod.fst).Nodup) (hvs : ∀ kv ∈ m, kv.2 ≠ []) :
    parse_qs true (urlencodeDoseq m) = m := by
  rw [parse_qs, parse_qsl_urlencode, regroup m hkeys hvs]

/-- Characters of an urlencoded query: no hash, no unsafe byte. -/
theorem urlencodeDoseq_chars (m : List (String × List String)) (c : Char)
    (h : c ∈ (urlencodeDoseq m).data) :
    c ≠ '#' ∧ isUnsafeUrlByte c = false := by
  rcases mem_intercalate_amp _ c h with rfl | ⟨f, hf, hcf⟩
  · exact ⟨by decide, by decide⟩
  · rcases List.mem_flatMap.mp hf with ⟨kv, _, hfv⟩
    rcases List.mem_map.mp hfv with ⟨v, _, rfl⟩
    rcases List.mem_append.mp hcf with hx | hx
    · exact ⟨(quote_plus_chars _ _ hx).2.2.1,
        (quote_plus_chars _ _ hx).2.2.2⟩
    · rcases List.mem_cons.mp hx with rfl | hx
      · exact ⟨by decide, by decide⟩
      · exact ⟨(quote_plus_chars _ _ hx).2.2.1,
          (quote_plus_chars _ _ hx).2.2.2⟩

/-- _splitnetloc splits its input into prefix and remainder. -/
theorem splitnetloc_decomp : ∀ l : List Char,
    l = (splitnetloc l).1 ++ (splitnetloc l).2
  | [] => rfl
  | c :: r => by
    by_cases hc : (c = '/' || c = '?' || c = '#') = true
    · simp only [splitnetloc]
      rw [if_pos hc]
      rfl
    · simp only [splitnetloc]
      rw [if_neg hc, List.cons_append, ← splitnetloc_decomp r]

/-- A detected scheme decomposes the URL at its colon. -/
theorem detectScheme_inv (l sc rest : List Char)
    (h : detectScheme l = some (sc, rest)) : l = sc ++ ':' :: rest := by
  rcases pySplitOnce_inv ':' l with ⟨hr, _⟩ | ⟨a, b, hr, hl, _⟩
  · simp only [detectScheme, hr] at h
    exact absurd h (by simp)
  · simp only [detectScheme, hr] at h
    cases a with
    | nil => exact absurd h (by simp)
    | cons c cs =>
      split at h
      · exact absurd h (by simp)
      · split at h
        · simp only [Option.some.injEq, Prod.mk.injEq] at h
          obtain ⟨rfl, rfl⟩ := h
          exact hl
        · exact absurd h (by simp)

/-- Facts about the path and query after the query split. -/
theorem tail_facts (pre pa qu : List Char)
    (hpreh : '#' ∉ pre)
    (hclpre : ∀ x ∈ pre, isUnsafeUrlByte x = false)
    (hs : (pa = pre ∧ qu = [] ∧ '?' ∉ pre) ∨
      (pre = pa ++ '?' :: qu ∧ '?' ∉ pa)) :
    '?' ∉ pa ∧ '#' ∉ pa ∧ '#' ∉ qu ∧
    (∀ x ∈ pa, isUnsafeUrlByte x = false) ∧
    (∀ x ∈ qu, isUnsafeUrlByte x = false) := by
  rcases hs with ⟨rfl, rfl, hq⟩ | ⟨hpre, hq⟩
  · exact ⟨hq, hpreh, by simp, hclpre, by simp⟩
  · subst hpre
    refine ⟨hq, fun hx => hpreh (List.mem_append.mpr (Or.inl hx)),
      fun hx => hpreh (List.mem_append.mpr (Or.inr (by simp [hx]))),
      fun x hx => hclpre x (List.mem_append.mpr (Or.inl hx)),
      fun x hx => hclpre x (List.mem_append.mpr (Or.inr (by simp [hx])))⟩

/-- The path of a split URL contains no question mark or hash, the query
no hash, and neither contains an unsafe byte. -/
theorem urlsplit_parts_clean (s : String) (parts : SplitResult)
    (h : urlsplit s = .ok parts) :
    '?' ∉ parts.path.data ∧ '#' ∉ parts.path.data ∧
    '#' ∉ parts.query.data ∧
    (∀ x ∈ parts.path.data, isUnsafeUrlByte x = false) ∧
    (∀ x ∈ parts.query.data, isUnsafeUrlByte x = false) := by
  simp only [urlsplit] at h
  have hcl0 : ∀ x ∈ s.data.filter (fun c => !isUnsafeUrlByte c),
      isUnsafeUrlByte x = false := by
    intro x hx
    have h2 := List.of_mem_filter hx
    simpa using h2
  cases hds : detectScheme (s.data.filter (fun c => !isUnsafeUrlByte c)) with
  | none =>
    simp only [hds] at h
    split at h
    next rest2 heq =>
      split at h
      next hbad =>
        have h2 : (Except.error "Invalid IPv6 URL" :
            Except String SplitResult) = .ok parts := h
        exact Except.noConfusion h2
      next hgood =>
        simp only [except_pure, except_bind_ok, checknetloc] at h
        have hclr : ∀ x ∈ (splitnetloc rest2).2, isUnsafeUrlByte x = false := by
          intro x hx
          refine hcl0 x ?_
          rw [heq]
          simp only [List.mem_cons]
          refine Or.inr (Or.inr ?_)
          rw [splitnetloc_decomp rest2]
          exact List.mem_append_right _ hx
        rcases pySplitOnce_inv '#' ((splitnetloc rest2).2) with ⟨hfr, hnf⟩ | ⟨fa, fb, hfr, hfl, hna⟩
        · simp only [hfr] at h
          rcases pySplitOnce_inv '?' ((splitnetloc rest2).2) with ⟨hqs2, hnq⟩ | ⟨qa, qb, hqs2, hql, hnqa⟩
          · simp only [hqs2] at h
            simp only [Except.ok.injEq] at h
            subst h
            exact tail_facts ((splitnetloc rest2).2) ((splitnetloc rest2).2) [] hnf hclr (Or.inl ⟨rfl, rfl, hnq⟩)
          · simp only [hqs2] at h
            simp only [Except.ok.injEq] at h
            subst h
            exact tail_facts ((splitnetloc rest2).2) qa qb hnf hclr (Or.inr ⟨hql, hnqa⟩)
        · simp only [hfr] at h
          have hclfa : ∀ x ∈ fa, isUnsafeUrlByte x = false := fun x hx =>
            hclr x (by rw [hfl]; exact List.mem_append_left _ hx)
          rcases pySplitOnce_inv '?' (fa) with ⟨hqs2, hnq⟩ | ⟨qa, qb, hqs2, hql, hnqa⟩
          · simp only [hqs2] at h
            simp only [Except.ok.injEq] at h
            subst h
            exact tail_facts (fa) (fa) [] hna hclfa (Or.inl ⟨rfl, rfl, hnq⟩)
          · simp only [hqs2] at h
            simp only [Except.ok.injEq] at h
            subst h
            exact tail_facts (fa) qa qb hna hclfa (Or.inr ⟨hql, hnqa⟩)
    next =>
      simp only [except_pure, except_bind_ok, checknetloc] at h
      rcases pySplitOnce_inv '#' (s.data.filter (fun c => !isUnsafeUrlByte c)) with ⟨hfr, hnf⟩ | ⟨fa, fb, hfr, hfl, hna⟩
      · simp only [hfr] at h
        rcases pySplitOnce_inv '?' (s.data.filter (fun c => !isUnsafeUrlByte c)) with ⟨hqs2, hnq⟩ | ⟨qa, qb, hqs2, hql, hnqa⟩
        · simp only [hqs2] at h
          simp only [Except.ok.injEq] at h
          subst h
          exact tail_facts (s.data.filter (fun c => !isUnsafeUrlByte c)) (s.data.filter (fun c => !isUnsafeUrlByte c)) [] hnf hcl0 (Or.inl ⟨rfl, rfl, hnq⟩)
        · simp only [hqs2] at h
          simp only [Except.ok.injEq] at h
          subst h
          exact tail_facts (s.data.filter (fun c => !isUnsafeUrlByte c)) qa qb hnf hcl0 (Or.inr ⟨hql, hnqa⟩)
      · simp only [hfr] at h
        have hclfa : ∀ x ∈ fa, isUnsafeUrlByte x = false := fun x hx =>
          hcl0 x (by rw [hfl]; exact List.mem_append_left _ hx)
        rcases pySplitOnce_inv '?' (fa) with ⟨hqs2, hnq⟩ | ⟨qa, qb, hqs2, hql, hnqa⟩
        · simp only [hqs2] at h
          simp only [Except.ok.injEq] at h
          subst h
          exact tail_facts (fa) (fa) [] hna hclfa (Or.inl ⟨rfl, rfl, hnq⟩)
        · simp only [hqs2] at h
          simp only [Except.ok.injEq] at h
          subst h
          exact tail_facts (fa) qa qb hna hclfa (Or.inr ⟨hql, hnqa⟩)
  | some p =>
    obtain ⟨sc, rest⟩ := p
    have hdec := detectScheme_inv _ sc rest hds
    have hclrest : ∀ x ∈ rest, isUnsafeUrlByte x = false := by
      intro x hx
      refine hcl0 x ?_
      rw [hdec]
      exact List.mem_append_right _ (by simp [hx])
    simp only [hds] at h
    split at h
    next tail =>
      split at h
      next hbad =>
        have h2 : (Except.error "Invalid IPv6 URL" :
            Except String SplitResult) = .ok parts := h
        exact Except.noConfusion h2
      next hgood =>
        simp only [except_pure, except_bind_ok, checknetloc] at h
        have hclr : ∀ x ∈ (splitnetloc tail).2, isUnsafeUrlByte x = false := by
          intro x hx
          refine hclrest x ?_
          simp only [List.mem_cons]
          refine Or.inr (Or.inr ?_)
          rw [splitnetloc_decomp tail]
          exact List.mem_append_right _ hx
        rcases pySplitOnce_inv '#' ((splitnetloc tail).2) with ⟨hfr, hnf⟩ | ⟨fa, fb, hfr, hfl, hna⟩
        · simp only [hfr] at h
          rcases pySplitOnce_inv '?' ((splitnetloc tail).2) with ⟨hqs2, hnq⟩ | ⟨qa, qb, hqs2, hql, hnqa⟩
          · simp only [hqs2] at h
            simp only [Except.ok.injEq] at h
            subst h
            exact tail_facts ((splitnetloc tail).2) ((splitnetloc tail).2) [] hnf hclr (Or.inl ⟨rfl, rfl, hnq⟩)
          · simp only [hqs2] at h
            simp only [Except.ok.injEq] at h
            subst h
            exact tail_facts ((splitnetloc tail).2) qa qb hnf hclr (Or.inr ⟨hql, hnqa⟩)
        · simp only [hfr] at h
          have hclfa : ∀ x ∈ fa, isUnsafeUrlByte x = false := fun x hx =>
            hclr x (by rw [hfl]; exact List.mem_append_left _ hx)
          rcases pySplitOnce_inv '?' (fa) with ⟨hqs2, hnq⟩ | ⟨qa, qb, hqs2, hql, hnqa⟩
          · simp only [hqs2] at h
            simp only [Except.ok.injEq] at h
            subst h
            exact tail_facts (fa) (fa) [] hna hclfa (Or.inl ⟨rfl, rfl, hnq⟩)
          · simp only [hqs2] at h
            simp only [Except.ok.injEq] at h
            subst h
            exact tail_facts (fa) qa qb hna hclfa (Or.inr ⟨hql, hnqa⟩)
    next =>
      simp only [except_pure, except_bind_ok, checknetloc] at h
      rcases pySplitOnce_inv '#' (rest) with ⟨hfr, hnf⟩ | ⟨fa, fb, hfr, hfl, hna⟩
      · simp only [hfr] at h
        rcases pySplitOnce_inv '?' (rest) with ⟨hqs2, hnq⟩ | ⟨qa, qb, hqs2, hql, hnqa⟩
        · simp only [hqs2] at h
          simp only [Except.ok.injEq] at h
          subst h
          exact tail_facts (rest) (rest) [] hnf hclrest (Or.inl ⟨rfl, rfl, hnq⟩)
        · simp only [hqs2] at h
          simp only [Except.ok.injEq] at h
          subst h
          exact tail_facts (rest) qa qb hnf hclrest (Or.inr ⟨hql, hnqa⟩)
      · simp only [hfr] at h
        have hclfa : ∀ x ∈ fa, isUnsafeUrlByte x = false := fun x hx =>
          hclrest x (by rw [hfl]; exact List.mem_append_left _ hx)
        rcases pySplitOnce_inv '?' (fa) with ⟨hqs2, hnq⟩ | ⟨qa, qb, hqs2, hql, hnqa⟩
        · simp only [hqs2] at h
          simp only [Except.ok.injEq] at h
          subst h
          exact tail_facts (fa) (fa) [] hna hclfa (Or.inl ⟨rfl, rfl, hnq⟩)
        · simp only [hqs2] at h
          simp only [Except.ok.injEq] at h
          subst h
          exact tail_facts (fa) qa qb hna hclfa (Or.inr ⟨hql, hnqa⟩)

/-- urlsplit of a path-and-query URL with no scheme and no netloc. -/
theorem urlsplit_relative2 (pd qd : List Char)
    (hds : detectScheme (pd ++ '?' :: qd) = none)
    (hss : ∀ t, pd ++ '?' :: qd ≠ '/' :: '/' :: t)
    (hpq : '?' ∉ pd) (hph : '#' ∉ pd) (hqh : '#' ∉ qd)
    (hclean : ∀ x ∈ pd ++ '?' :: qd, isUnsafeUrlByte x = false) :
    urlsplit ⟨pd ++ '?' :: qd⟩ = .ok ⟨"", "", ⟨pd⟩, ⟨qd⟩, ""⟩ := by
  have hfl := filter_clean _ hclean
  have hfr : pySplitOnce '#' (pd ++ '?' :: qd) = [pd ++ '?' :: qd] := by
    refine pySplitOnce_no_sep '#' _ fun hx => ?_
    rcases List.mem_append.mp hx with hx | hx
    · exact hph hx
    · rcases List.mem_cons.mp hx with hx | hx
      · exact absurd hx (by decide)
      · exact hqh hx
  have hqs := pySplitOnce_found '?' pd qd hpq
  simp only [urlsplit, hfl, hds]
  simp only [except_pure, except_bind_ok, checknetloc, hfr, hqs]
  try rfl

/-- urlsplit of a bare path with no scheme and no netloc. -/
theorem urlsplit_relative3 (pd : List Char)
    (hds : detectScheme pd = none)
    (hss : ∀ t, pd ≠ '/' :: '/' :: t)
    (hpq : '?' ∉ pd) (hph : '#' ∉ pd)
    (hclean : ∀ x ∈ pd, isUnsafeUrlByte x = false) :
    urlsplit ⟨pd⟩ = .ok ⟨"", "", ⟨pd⟩, "", ""⟩ := by
  have hfl := filter_clean _ hclean
  have hfr : pySplitOnce '#' pd = [pd] := pySplitOnce_no_sep '#' pd hph
  have hqs : pySplitOnce '?' pd = [pd] := pySplitOnce_no_sep '?' pd hpq
  simp only [urlsplit, hfl, hds]
  simp only [except_pure, except_bind_ok, checknetloc, hfr, hqs]
  try rfl

/-- claim C7 (counterexample): stripping is not idempotent on every URL:
on a:b:c the first strip consumes the a: scheme and keeps path b:c, and
the second strip consumes b: as another scheme, leaving c. This matches
CPython: urlsplit('a:b:c') has path 'b:c'. -/
theorem claim_C7_counterexample :
    strip_query_id "a:b:c" = .ok "b:c" ∧
    strip_query_id "b:c" = .ok "c" ∧
    ("c" : String) ≠ "b:c" :=
  ⟨rfl, rfl, by decide⟩

/-- claim C7 (amended): the output of _strip_query_id is a fixed point
of _strip_query_id whenever no scheme is detected in it and it does not
begin with a double slash, so stripping is idempotent there:
strip(strip(u)) = strip(u). The re-encoded query parses back to the same
id-free grouped dict and re-encodes to the same string. -/
theorem claim_C7_strip_fixed_point (u r : String)
    (h : strip_query_id u = .ok r)
    (hds : detectScheme r.data = none)
    (hss : ∀ t, r.data ≠ '/' :: '/' :: t) :
    strip_query_id r = .ok r := by
  cases hu : urlsplit u with
  | error e =>
    have h2 : strip_query_id u = .error e := by
      simp only [strip_query_id, hu]
      rfl
    rw [h2] at h
    exact absurd h (by simp)
  | ok parts =>
    have hform := strip_result_form u parts hu
    rw [hform] at h
    simp only [Except.ok.injEq] at h
    obtain ⟨hpq, hph, hqh, hpc, hqc⟩ := urlsplit_parts_clean u parts hu
    have hmk : ((popKey "id" (parse_qs true parts.query)).map
        Prod.fst).Nodup :=
      popKey_nodup _ _ (parse_qs_inv true parts.query).1
    have hmv : ∀ q ∈ popKey "id" (parse_qs true parts.query), q.2 ≠ [] :=
      popKey_vals _ _ (parse_qs_inv true parts.query).2
    have hmid : ∀ q ∈ popKey "id" (parse_qs true parts.query),
        q.1 ≠ "id" := popKey_not_key _ _
    by_cases he : urlencodeDoseq (popKey "id" (parse_qs true parts.query))
        = ""
    · rw [if_pos he] at h
      subst h
      have hsp := urlsplit_relative3 parts.path.data hds hss hpq hph hpc
      have h3 := strip_result_form ⟨parts.path.data⟩
        ⟨"", "", ⟨parts.path.data⟩, "", ""⟩ hsp
      exact h3.trans (by rfl)
    · rw [if_neg he] at h
      subst h
      have hrdata : (parts.path ++ "?" ++
          urlencodeDoseq (popKey "id" (parse_qs true parts.query))).data =
          parts.path.data ++ '?' ::
            (urlencodeDoseq (popKey "id"
              (parse_qs true parts.query))).data := by
        simp [str_append_data, List.append_assoc]
      have hrstr : parts.path ++ "?" ++
          urlencodeDoseq (popKey "id" (parse_qs true parts.query)) =
          ⟨parts.path.data ++ '?' ::
            (urlencodeDoseq (popKey "id"
              (parse_qs true parts.query))).data⟩ :=
        string_data_inj hrdata
      rw [hrdata] at hds hss
      have hqhe : '#' ∉ (urlencodeDoseq (popKey "id"
          (parse_qs true parts.query))).data := fun hx =>
        (urlencodeDoseq_chars _ _ hx).1 rfl
      have hclean : ∀ x ∈ parts.path.data ++ '?' ::
          (urlencodeDoseq (popKey "id" (parse_qs true parts.query))).data,
          isUnsafeUrlByte x = false := by
        intro x hx
        rcases List.mem_append.mp hx with hx | hx
        · exact hpc x hx
        · rcases List.mem_cons.mp hx with rfl | hx
          · decide
          · exact (urlencodeDoseq_chars _ _ hx).2
      have hsp := urlsplit_relative2 parts.path.data
        (urlencodeDoseq (popKey "id" (parse_qs true parts.query))).data
        hds hss hpq hph hqhe hclean
      have h3 := strip_result_form
        ⟨parts.path.data ++ '?' ::
          (urlencodeDoseq (popKey "id" (parse_qs true parts.query))).data⟩
        ⟨"", "", ⟨parts.path.data⟩,
          ⟨(urlencodeDoseq (popKey "id" (parse_qs true parts.query))).data⟩,
          ""⟩ hsp
      have hproj : (⟨"", "", ⟨parts.path.data⟩,
          ⟨(urlencodeDoseq (popKey "id" (parse_qs true parts.query))).data⟩,
          ""⟩ : SplitResult).query =
          urlencodeDoseq (popKey "id" (parse_qs true parts.query)) := rfl
      rw [hproj, parse_qs_urlencode _ hmk hmv,
        popKey_of_not_mem "id" _ hmid, if_neg he] at h3
      rw [hrstr]
      exact h3.trans (congrArg Except.ok hrstr)

/-- Witness for the amended C7: stripping /p?id=abc&a=1 gives /p?a=1,
and stripping that again returns it unchanged. -/
theorem claim_C7_strip_fixed_point_witness :
    strip_query_id "/p?id=abc&a=1" = .ok "/p?a=1" ∧
    strip_query_id "/p?a=1" = .ok "/p?a=1" := by
  refine ⟨by rfl, ?_⟩
  exact claim_C7_strip_fixed_point "/p?id=abc&a=1" "/p?a=1" (by rfl)
    (by rfl) (by intro t ht; simp at ht)
